import Mathlib

/-!
# drbreakboard: a verified model of the puzzle board

A shallow embedding of `drbreakboard.go`: the cell and grid data model, the
bounds-checked accessors and placement operations, the docked-field search and
the board evaluator.  Go functions that mutate the play field in place and
return an `error` are modelled as functions returning the new field together
with an optional error; a Go runtime fault (index out of range, negative
`make` length) and loop fuel exhaustion are modelled as `none`.

The four enumerations (`SpaceContent`, `SpaceLinkage`, `SpaceColor`,
`NextIteration`) are Go `int` types with named constants.  A cell is an
argument of the placement functions, which do not check that its content,
linkage and colour are among the constants, so the three types of a cell have
one constructor per constant and a constructor `Other` for every other `int`
value.  `NextIteration` values are only produced by the evaluator, from its
three constants.

Coordinates are Go `int`s and are modelled as `Int`.  The only arithmetic on
them is `y - 1`, `y + 1`, `x - 1`, `x + 1` in `GetLinkedCoordinate` and
`y - 1` in the docked search, and every use in this file is applied to a
coordinate that has just passed the bounds check, so no 64-bit wrap-around can
occur there.
-/

namespace DrBreakBoard

/-! ## Data model -/

/-- Go: `type SpaceContent int` with constants `Empty`, `Virus`, `Pill`.  `Other code` is an
`int` value that is none of the three constants; the package only compares contents for
equality, so such values need only be told apart, which `code` does. -/
inductive SpaceContent
  | Empty
  | Virus
  | Pill
  | Other (code : Nat)
deriving DecidableEq, Repr

/-- Go: `type SpaceLinkage int` with constants `Unlinked`, `Up`, `Down`, `Left`, `Right`.
`Other code` is an `int` value that is none of the five constants: it takes the default
path of every `switch` on the linkage. -/
inductive SpaceLinkage
  | Unlinked
  | Up
  | Down
  | Left
  | Right
  | Other (code : Nat)
deriving DecidableEq, Repr

/-- Go: `type SpaceColor int` with constants `Uncolored`, `Red`, `Blue`, `Yellow`.
`Other code` is an `int` value that is none of the four constants; colours are only
compared for equality. -/
inductive SpaceColor
  | Uncolored
  | Red
  | Blue
  | Yellow
  | Other (code : Nat)
deriving DecidableEq, Repr

/-- Go: `type NextIteration int` with constants `NoAction`, `Clear`, `Fall`. -/
inductive NextIteration
  | NoAction
  | Clear
  | Fall
deriving DecidableEq, Repr

/-- Go: `type Space struct { Content; Linkage; Color }`. -/
structure Space where
  Content : SpaceContent
  Linkage : SpaceLinkage
  Color : SpaceColor
deriving DecidableEq, Repr

/-- The Go zero value `Space{}`: every field is its first constant. -/
def Space.zero : Space := ⟨SpaceContent.Empty, SpaceLinkage.Unlinked, SpaceColor.Uncolored⟩

/-- Go: `type Coordinate struct { y int; x int }`. -/
structure Coordinate where
  y : Int
  x : Int
deriving DecidableEq, Repr

/-- Go: `type PlayField struct { spaces [][]Space }`. -/
structure PlayField where
  spaces : List (List Space)
deriving DecidableEq, Repr

/-- The distinct `errors.New` messages of the package. -/
inductive BoardError
  /-- "cannot put a single linked space" -/
  | singleLinked
  /-- "cannot put an unlinked space" -/
  | unlinkedPair
  /-- "space input was not pill as required" -/
  | notPill
  /-- "piece linkage was invalid" -/
  | badLinkage
  /-- "y was out of bounds" -/
  | yOutOfBounds
  /-- "x was out of bounds" -/
  | xOutOfBounds
  /-- "space was not empty" -/
  | notEmpty
  /-- "could not get linked coordinate for unlinked space" -/
  | noLinkedCoordinate
  /-- "linked pill cannot have unlinked linkage" -/
  | unlinkedPill
  /-- "spaces must have a color" -/
  | uncoloredSpace
  /-- "virus must have color" -/
  | uncoloredVirus
deriving DecidableEq, Repr

/-- The two messages produced by `checkCoordinateInBounds`. -/
def BoardError.isOutOfBounds : BoardError → Bool
  | BoardError.yOutOfBounds => true
  | BoardError.xOutOfBounds => true
  | _ => false

/-! ## Two-dimensional slices -/

/-- The row `g[y]`, or the empty row when `y` is not an index of `g`. -/
def gridRow {α : Type} (g : List (List α)) (y : Nat) : List α :=
  (g[y]?).getD []

/-- The element `g[y][x]` when both indices are in range. -/
def gridGet? {α : Type} (g : List (List α)) (y x : Nat) : Option α :=
  (gridRow g y)[x]?

/-- The assignment `g[y][x] = v`. -/
def gridSet {α : Type} (g : List (List α)) (y x : Nat) (v : α) : List (List α) :=
  g.set y ((gridRow g y).set x v)

/-- The row lengths of a two-dimensional slice. -/
def shapeOf {α : Type} (g : List (List α)) : List Nat :=
  g.map List.length

/-- Read of `field.spaces[y][x]`; the zero space stands for an index that is not in range. -/
def spaceAt (field : PlayField) (y x : Nat) : Space :=
  (gridGet? field.spaces y x).getD Space.zero

/-- Read of `dockedField[y][x]`. -/
def dockedAt (docked : List (List Bool)) (y x : Nat) : Bool :=
  (gridGet? docked y x).getD false

/-- Read of `nextIterationField[y][x]`. -/
def planAt (plan : List (List NextIteration)) (y x : Nat) : NextIteration :=
  (gridGet? plan y x).getD NextIteration.NoAction

/-! ## Grid model -/

/-- Go `NewPlayField(x, y)`: `make([][]Space, y)` and then `make([]Space, x)` for each row.
`make` with a negative length is a runtime fault (`none`); with `y = 0` the row loop does
not run and `x` is never used.  `make` is taken to succeed for every other length: the
limit that the runtime puts on the size of one allocation, beyond which `make` stops the
program too, depends on the platform and is not part of the model, so for lengths of that
size the model returns a field where the program would stop. -/
def NewPlayField (x y : Int) : Option PlayField :=
  if y < 0 then none
  else if y = 0 then some ⟨[]⟩
  else if x < 0 then none
  else some ⟨List.replicate y.toNat (List.replicate x.toNat Space.zero)⟩

/-- Go `GetHeight`: `len(field.spaces)`. -/
def GetHeight (field : PlayField) : Int :=
  field.spaces.length

/-- Go `GetWidth`: `len(field.spaces[0])`; indexing a field without rows is a runtime fault. -/
def GetWidth (field : PlayField) : Option Int :=
  match field.spaces with
  | [] => none
  | row :: _ => some row.length

/-- Go `GetBottomRowIndex`: `len(field.spaces) - 1`. -/
def GetBottomRowIndex (field : PlayField) : Int :=
  (field.spaces.length : Int) - 1

/-- Go `checkCoordinateInBounds`: `none` is the nil error. -/
def checkCoordinateInBounds (field : PlayField) (y x : Int) : Option BoardError :=
  if y < 0 ∨ y ≥ field.spaces.length then some BoardError.yOutOfBounds
  else if x < 0 ∨ x ≥ (gridRow field.spaces y.toNat).length then some BoardError.xOutOfBounds
  else none

/-- Go `checkCoordinateInBoundsAndEmpty`. -/
def checkCoordinateInBoundsAndEmpty (field : PlayField) (y x : Int) : Option BoardError :=
  match checkCoordinateInBounds field y x with
  | some err => some err
  | none =>
    if (spaceAt field y.toNat x.toNat).Content ≠ SpaceContent.Empty then some BoardError.notEmpty
    else none

/-- Go `GetSpaceAtCoordinate`. -/
def GetSpaceAtCoordinate (field : PlayField) (y x : Int) : Except BoardError Space :=
  match checkCoordinateInBounds field y x with
  | some err => Except.error err
  | none => Except.ok (spaceAt field y.toNat x.toNat)

/-- Go `putSpaceAtCoordinate`: the raw write, after the bounds check. -/
def putSpaceAtCoordinate (field : PlayField) (y x : Int) (space : Space) :
    PlayField × Option BoardError :=
  match checkCoordinateInBounds field y x with
  | some err => (field, some err)
  | none => (⟨gridSet field.spaces y.toNat x.toNat space⟩, none)

/-- Go `PutSpaceAtCoordinateIfEmpty`. -/
def PutSpaceAtCoordinateIfEmpty (field : PlayField) (y x : Int) (space : Space) :
    PlayField × Option BoardError :=
  if space.Linkage ≠ SpaceLinkage.Unlinked then (field, some BoardError.singleLinked)
  else
    match checkCoordinateInBoundsAndEmpty field y x with
    | some err => (field, some err)
    | none => putSpaceAtCoordinate field y x space

/-- Go `getOpposingLinkage`: the four cases of the `switch`, and `return Unlinked` for every
other value. -/
def getOpposingLinkage : SpaceLinkage → SpaceLinkage
  | SpaceLinkage.Up => SpaceLinkage.Down
  | SpaceLinkage.Down => SpaceLinkage.Up
  | SpaceLinkage.Left => SpaceLinkage.Right
  | SpaceLinkage.Right => SpaceLinkage.Left
  | _ => SpaceLinkage.Unlinked

/-- Go `GetLinkedCoordinate`: the four cases of the `switch`, and the error of its `default`
for every other value.  Coordinates are unbounded integers; the package calls this function
on coordinates that have passed the bounds check, where `y - 1`, `y + 1`, `x - 1` and
`x + 1` do not reach the ends of the range of `int`. -/
def GetLinkedCoordinate (y x : Int) (linkage : SpaceLinkage) : Except BoardError (Int × Int) :=
  match linkage with
  | SpaceLinkage.Up => Except.ok (y - 1, x)
  | SpaceLinkage.Down => Except.ok (y + 1, x)
  | SpaceLinkage.Left => Except.ok (y, x - 1)
  | SpaceLinkage.Right => Except.ok (y, x + 1)
  | _ => Except.error BoardError.noLinkedCoordinate

/-- The `switch coordSpace.Linkage` of `PutTwoLinkedSpacesAtCoordinate`: `true` when one of
its cases returns "piece linkage was invalid".  The switch has no case for `Unlinked` and no
`default`: any other linkage of the first cell passes it. -/
def linkageSwitchRejects (coordLinkage linkedLinkage : SpaceLinkage) : Bool :=
  match coordLinkage with
  | SpaceLinkage.Up => linkedLinkage ≠ SpaceLinkage.Down
  | SpaceLinkage.Down => linkedLinkage ≠ SpaceLinkage.Up
  | SpaceLinkage.Left => linkedLinkage ≠ SpaceLinkage.Right
  | SpaceLinkage.Right => linkedLinkage ≠ SpaceLinkage.Left
  | _ => false

/-- Go `PutTwoLinkedSpacesAtCoordinate`. -/
def PutTwoLinkedSpacesAtCoordinate (field : PlayField) (y x : Int)
    (coordSpace linkedSpace : Space) : PlayField × Option BoardError :=
  if coordSpace.Linkage = SpaceLinkage.Unlinked then (field, some BoardError.unlinkedPair)
  else if coordSpace.Content ≠ SpaceContent.Pill ∨ linkedSpace.Content ≠ SpaceContent.Pill then
    (field, some BoardError.notPill)
  else if linkageSwitchRejects coordSpace.Linkage linkedSpace.Linkage then
    (field, some BoardError.badLinkage)
  else
    match checkCoordinateInBoundsAndEmpty field y x with
    | some err => (field, some err)
    | none =>
      match GetLinkedCoordinate y x coordSpace.Linkage with
      | Except.error err => (field, some err)
      | Except.ok (linkedY, linkedX) =>
        match checkCoordinateInBoundsAndEmpty field linkedY linkedX with
        | some err => (field, some err)
        | none =>
          match putSpaceAtCoordinate field y x coordSpace with
          | (field1, some err) => (field1, some err)
          | (field1, none) => putSpaceAtCoordinate field1 linkedY linkedX linkedSpace

/-- Go `ClearBoard`: every cell of every row becomes `Space{}`. -/
def ClearBoard (field : PlayField) : PlayField :=
  ⟨field.spaces.map (fun row => row.map (fun _ => Space.zero))⟩

/-- Go `clearSpace`: empties a cell and unlinks the cell it is linked to.  The results of
the inner `putSpaceAtCoordinate` calls are discarded, as in the source. -/
def clearSpace (field : PlayField) (y x : Int) : PlayField × Option BoardError :=
  match GetSpaceAtCoordinate field y x with
  | Except.error err => (field, some err)
  | Except.ok space =>
    if space.Linkage = SpaceLinkage.Unlinked then
      ((putSpaceAtCoordinate field y x Space.zero).1, none)
    else
      match GetLinkedCoordinate y x space.Linkage with
      | Except.error err => (field, some err)
      | Except.ok (linkedY, linkedX) =>
        match GetSpaceAtCoordinate field linkedY linkedX with
        | Except.error err => (field, some err)
        | Except.ok linkedSpace =>
          let field1 := (putSpaceAtCoordinate field linkedY linkedX
            { linkedSpace with Linkage := SpaceLinkage.Unlinked }).1
          ((putSpaceAtCoordinate field1 y x Space.zero).1, none)

/-! ## Board evaluator: the docked-field search -/

/-- The initial `dockedField`: one `false` per cell, row by row (`make([]bool, len(row))`). -/
def emptyDockedField (field : PlayField) : List (List Bool) :=
  field.spaces.map (fun row => row.map (fun _ => false))

/-- The Go statement `space, _ := field.GetSpaceAtCoordinate(y, x)`: the error is dropped and
the space is `Space{}` when there was one. -/
def getSpaceIgnoringError (field : PlayField) (y x : Int) : Space :=
  match GetSpaceAtCoordinate field y x with
  | Except.ok space => space
  | Except.error _ => Space.zero

/-- Body of the seeding loops of `generateDockedField` at `(y, x)`: viruses and occupied
cells of the bottom row are appended to the queue. -/
def seedStep (field : PlayField) (y x : Nat) (queue : List Coordinate) : List Coordinate :=
  if (getSpaceIgnoringError field y x).Content = SpaceContent.Virus then
    queue ++ [⟨y, x⟩]
  else if (y : Int) = GetBottomRowIndex field ∧
      (getSpaceIgnoringError field y x).Content ≠ SpaceContent.Empty then
    queue ++ [⟨y, x⟩]
  else queue

/-- The seeding loops `for y := range dockedField { for x := range dockedField[y] {...} }`. -/
def seedQueue (field : PlayField) : List Coordinate :=
  (List.range (emptyDockedField field).length).foldl
    (fun queue y =>
      (List.range (gridRow (emptyDockedField field) y).length).foldl
        (fun queue x => seedStep field y x queue) queue)
    []

/-- The Go statement `linkedY, linkedX, _ := GetLinkedCoordinate(...)`: on error the two
results are `0, 0` and the error is dropped. -/
def linkedCoordinateIgnoringError (y x : Int) (linkage : SpaceLinkage) : Coordinate :=
  match GetLinkedCoordinate y x linkage with
  | Except.ok (linkedY, linkedX) => ⟨linkedY, linkedX⟩
  | Except.error _ => ⟨0, 0⟩

/-- The loop `for len(dockedCheckQueue) > 0` of `generateDockedField`, one iteration per
unit of fuel; `none` when the fuel is used up with the queue not yet empty. -/
def dockedLoop (field : PlayField) :
    Nat → List (List Bool) → List Coordinate → Option (List (List Bool))
  | _, docked, [] => some docked
  | 0, _, _ :: _ => none
  | fuel + 1, docked, c :: rest =>
    if checkCoordinateInBounds field c.y c.x ≠ none then
      dockedLoop field fuel docked rest
    else if dockedAt docked c.y.toNat c.x.toNat = true then
      dockedLoop field fuel docked rest
    else if (spaceAt field c.y.toNat c.x.toNat).Content = SpaceContent.Empty then
      dockedLoop field fuel docked rest
    else
      dockedLoop field fuel (gridSet docked c.y.toNat c.x.toNat true)
        ((if checkCoordinateInBounds field (c.y - 1) c.x = none then
            rest ++ [⟨c.y - 1, c.x⟩] else rest) ++
          (if (spaceAt field c.y.toNat c.x.toNat).Linkage ≠ SpaceLinkage.Unlinked then
            [linkedCoordinateIgnoringError c.y c.x (spaceAt field c.y.toNat c.x.toNat).Linkage]
           else []))

/-- Number of cells of the field. -/
def cellCount (field : PlayField) : Nat :=
  (field.spaces.map List.length).sum

/-- Go `generateDockedField`.  The fuel is the length of the seeded queue plus two per cell:
every iteration removes one coordinate, and only an iteration that marks a new cell appends
coordinates, at most two. -/
def generateDockedField (field : PlayField) : Option (List (List Bool)) :=
  dockedLoop field ((seedQueue field).length + 2 * cellCount field)
    (emptyDockedField field) (seedQueue field)

/-! ## Board evaluator: fall detection and streak scan -/

/-- The initial `nextIterationField`: `NoAction` for every cell. -/
def emptyPlan (field : PlayField) : List (List NextIteration) :=
  field.spaces.map (fun row => row.map (fun _ => NextIteration.NoAction))

/-- Body of the fall-detection loops at `(y, x)`; the second component is
`undockedPieceFound`. -/
def fallScanStep (field : PlayField) (docked : List (List Bool)) (y x : Nat)
    (acc : List (List NextIteration) × Bool) : List (List NextIteration) × Bool :=
  if (spaceAt field y x).Content = SpaceContent.Pill ∧ dockedAt docked y x = false then
    (gridSet acc.1 y x NextIteration.Fall, true)
  else acc

/-- The loops `for y := range dockedField { for x, docked := range dockedField[y] {...} }`. -/
def fallScan (field : PlayField) (docked : List (List Bool))
    (plan : List (List NextIteration)) : List (List NextIteration) × Bool :=
  (List.range docked.length).foldl
    (fun acc y =>
      (List.range (gridRow docked y).length).foldl
        (fun acc x => fallScanStep field docked y x acc) acc)
    (plan, false)

/-- The variables of the streak scan: `currentStreak`, `currentColor`, `nextIter` and the
plan being filled in.  `currentStreak` only counts up from 0 or 1. -/
structure ScanState where
  currentStreak : Nat
  currentColor : SpaceColor
  nextIter : NextIteration
  plan : List (List NextIteration)

/-- The loop `for i := x - currentStreak; i < x; i++ { nextIterationField[y][i] = Clear }`,
from `start = x - currentStreak`. -/
def markRow (plan : List (List NextIteration)) (y start x : Nat) : List (List NextIteration) :=
  (List.range' start (x - start)).foldl (fun p i => gridSet p y i NextIteration.Clear) plan

/-- The loop `for i := y - currentStreak; i < y; i++ { nextIterationField[i][x] = Clear }`,
from `start = y - currentStreak`. -/
def markCol (plan : List (List NextIteration)) (x start y : Nat) : List (List NextIteration) :=
  (List.range' start (y - start)).foldl (fun p i => gridSet p i x NextIteration.Clear) plan

/-- The block `if currentStreak >= 4 && currentColor != Uncolored {...}` of the row scan at
column `x`.  The streak never exceeds the position (`scan_streak_le`), so the truncated
subtraction is the Go subtraction. -/
def flushRow (y x : Nat) (st : ScanState) : ScanState :=
  if 4 ≤ st.currentStreak ∧ st.currentColor ≠ SpaceColor.Uncolored then
    { st with nextIter := NextIteration.Clear,
              plan := markRow st.plan y (x - st.currentStreak) x }
  else st

/-- The block `if currentStreak >= 4 && currentColor != Uncolored {...}` of the column scan
at row `y`. -/
def flushCol (x y : Nat) (st : ScanState) : ScanState :=
  if 4 ≤ st.currentStreak ∧ st.currentColor ≠ SpaceColor.Uncolored then
    { st with nextIter := NextIteration.Clear,
              plan := markCol st.plan x (y - st.currentStreak) y }
  else st

/-- The inner `for { ... x += 1 }` of the row scan for row `y`, from column `x`; one
iteration per unit of fuel.  It ends at the first column that fails the bounds check, and
resets the streak for the next row. -/
def rowLoop (field : PlayField) (y : Nat) : Nat → Nat → ScanState → Option ScanState
  | 0, _, _ => none
  | fuel + 1, x, st =>
    if checkCoordinateInBounds field y x ≠ none then
      some { flushRow y x st with currentStreak := 0, currentColor := SpaceColor.Uncolored }
    else if (spaceAt field y x).Color = st.currentColor then
      rowLoop field y fuel (x + 1) { st with currentStreak := st.currentStreak + 1 }
    else
      rowLoop field y fuel (x + 1)
        { flushRow y x st with currentStreak := 1, currentColor := (spaceAt field y x).Color }

/-- The inner `for { ... y += 1 }` of the column scan for column `x`, from row `y`. -/
def colLoop (field : PlayField) (x : Nat) : Nat → Nat → ScanState → Option ScanState
  | 0, _, _ => none
  | fuel + 1, y, st =>
    if checkCoordinateInBounds field y x ≠ none then
      some (flushCol x y st)
    else if (spaceAt field y x).Color = st.currentColor then
      colLoop field x fuel (y + 1) { st with currentStreak := st.currentStreak + 1 }
    else
      colLoop field x fuel (y + 1)
        { flushCol x y st with currentStreak := 1, currentColor := (spaceAt field y x).Color }

/-- The loop `for y := range field.spaces` of the row scan.  A row of length `n` takes
`n + 1` iterations of the inner loop. -/
def rowScan (field : PlayField) (st : ScanState) : Option ScanState :=
  (List.range field.spaces.length).foldlM
    (fun st y => rowLoop field y ((gridRow field.spaces y).length + 1) 0 st) st

/-- The loop `for x := range field.spaces[0]` of the column scan; `field.spaces[0]` is a
runtime fault on a field without rows.  The streak is reset at the start of each column; a
column takes at most `len(field.spaces) + 1` iterations of the inner loop. -/
def colScan (field : PlayField) (st : ScanState) : Option ScanState :=
  match field.spaces with
  | [] => none
  | row0 :: _ =>
    (List.range row0.length).foldlM
      (fun st x => colLoop field x (field.spaces.length + 1) 0
        { st with currentStreak := 0, currentColor := SpaceColor.Uncolored }) st

/-- Go `EvaluateBoardIteration`: the plan and the dominant action. -/
def EvaluateBoardIteration (field : PlayField) :
    Option (List (List NextIteration) × NextIteration) :=
  match generateDockedField field with
  | none => none
  | some docked =>
    if (fallScan field docked (emptyPlan field)).2 = true then
      some ((fallScan field docked (emptyPlan field)).1, NextIteration.Fall)
    else
      match rowScan field
          ⟨0, SpaceColor.Uncolored, NextIteration.NoAction,
            (fallScan field docked (emptyPlan field)).1⟩ with
      | none => none
      | some st1 =>
        match colScan field st1 with
        | none => none
        | some st2 => some (st2.plan, st2.nextIter)

/-! ## Maker functions and virus count -/

/-- Go `MakeLinkedPillSpaces`. -/
def MakeLinkedPillSpaces (linkage : SpaceLinkage) (coordColor linkedColor : SpaceColor) :
    Except BoardError (Space × Space) :=
  if linkage = SpaceLinkage.Unlinked then Except.error BoardError.unlinkedPill
  else if coordColor = SpaceColor.Uncolored ∨ linkedColor = SpaceColor.Uncolored then
    Except.error BoardError.uncoloredSpace
  else
    Except.ok (⟨SpaceContent.Pill, linkage, coordColor⟩,
      ⟨SpaceContent.Pill, getOpposingLinkage linkage, linkedColor⟩)

/-- Go `MakeVirus`. -/
def MakeVirus (color : SpaceColor) : Except BoardError Space :=
  if color = SpaceColor.Uncolored then Except.error BoardError.uncoloredVirus
  else Except.ok ⟨SpaceContent.Virus, SpaceLinkage.Unlinked, color⟩

/-- Go `GetVirusCount`: the nested loops over rows and spaces, counting up from 0. -/
def GetVirusCount (field : PlayField) : Nat :=
  field.spaces.foldl
    (fun viruses row =>
      row.foldl
        (fun viruses space =>
          if space.Content = SpaceContent.Virus then viruses + 1 else viruses)
        viruses)
    0

/-! ## Board transition -/

/-- The inner loop `for x := range row` of the Clear pass of `IterateBoard` over the
remaining columns `xs` of row `y`: every cell whose plan entry is `Clear` is cleared, and the
first error of `clearSpace` ends the pass.  The plan is the one just computed from the
same field, so `iterField[y][x]` is in range. -/
def clearPassRow (iterField : List (List NextIteration)) (y : Nat) :
    List Nat → PlayField → PlayField × Option BoardError
  | [], field => (field, none)
  | x :: xs, field =>
    if planAt iterField y x = NextIteration.Clear then
      match clearSpace field y x with
      | (field1, some err) => (field1, some err)
      | (field1, none) => clearPassRow iterField y xs field1
    else clearPassRow iterField y xs field

/-- The outer loop `for y, row := range field.spaces` of the Clear pass over the remaining
rows `ys`. -/
def clearPass (iterField : List (List NextIteration)) :
    List Nat → PlayField → PlayField × Option BoardError
  | [], field => (field, none)
  | y :: ys, field =>
    match clearPassRow iterField y (List.range (gridRow field.spaces y).length) field with
    | (field1, some err) => (field1, some err)
    | (field1, none) => clearPass iterField ys field1

/-- The inner loop `for x, space := range field.spaces[y]` of the Fall pass over the
remaining columns `xs` of row `y`.  `space` is the element of row `y` read at iteration `x`;
the row is not written at `x` before that iteration, so it is the current cell.  The result
of the second `putSpaceAtCoordinate` is discarded, as in the source. -/
def fallPassRow (iterField : List (List NextIteration)) (y : Nat) :
    List Nat → PlayField → PlayField × Option BoardError
  | [], field => (field, none)
  | x :: xs, field =>
    if planAt iterField y x = NextIteration.Fall then
      match putSpaceAtCoordinate field ((y : Int) + 1) x (spaceAt field y x) with
      | (field1, some err) => (field1, some err)
      | (field1, none) =>
        fallPassRow iterField y xs (putSpaceAtCoordinate field1 y x Space.zero).1
    else fallPassRow iterField y xs field

/-- The outer loop `for y := field.GetBottomRowIndex() - 1; y >= 0; y--` of the Fall pass
over the remaining rows `ys` (in descending order). -/
def fallPass (iterField : List (List NextIteration)) :
    List Nat → PlayField → PlayField × Option BoardError
  | [], field => (field, none)
  | y :: ys, field =>
    match fallPassRow iterField y (List.range (gridRow field.spaces y).length) field with
    | (field1, some err) => (field1, some err)
    | (field1, none) => fallPass iterField ys field1

/-- The rows visited by the Fall pass: `GetBottomRowIndex() - 1` down to `0`. -/
def fallRows (field : PlayField) : List Nat :=
  (List.range (field.spaces.length - 1)).reverse

/-- Go `IterateBoard`: the field after the call and the error it returns; `none` when the
evaluation itself faults. -/
def IterateBoard (field : PlayField) : Option (PlayField × Option BoardError) :=
  match EvaluateBoardIteration field with
  | none => none
  | some (iterField, nextIter) =>
    if nextIter = NextIteration.NoAction then some (field, none)
    else if nextIter = NextIteration.Clear then
      some (clearPass iterField (List.range field.spaces.length) field)
    else some (fallPass iterField (fallRows field) field)

/-- Repeated calls of `IterateBoard`, each one on the field left by the previous one;
`none` when a call faults or returns an error. -/
def iterateTimes : Nat → PlayField → Option PlayField
  | 0, field => some field
  | n + 1, field =>
    match IterateBoard field with
    | some (field1, none) => iterateTimes n field1
    | _ => none

/-! ## Sample boards -/

/-- One row: a horizontal pill (red half linked right, blue half linked left) and a virus. -/
def samplePillRow : PlayField :=
  ⟨[[⟨SpaceContent.Pill, SpaceLinkage.Right, SpaceColor.Red⟩,
     ⟨SpaceContent.Pill, SpaceLinkage.Left, SpaceColor.Blue⟩,
     ⟨SpaceContent.Virus, SpaceLinkage.Unlinked, SpaceColor.Blue⟩]]⟩

/-- Two rows: an unlinked blue pill floating in the top row above an empty cell, and four
blue viruses in the bottom row. -/
def sampleFallAndRun : PlayField :=
  ⟨[[⟨SpaceContent.Empty, SpaceLinkage.Unlinked, SpaceColor.Uncolored⟩,
     ⟨SpaceContent.Empty, SpaceLinkage.Unlinked, SpaceColor.Uncolored⟩,
     ⟨SpaceContent.Empty, SpaceLinkage.Unlinked, SpaceColor.Uncolored⟩,
     ⟨SpaceContent.Empty, SpaceLinkage.Unlinked, SpaceColor.Uncolored⟩,
     ⟨SpaceContent.Pill, SpaceLinkage.Unlinked, SpaceColor.Blue⟩],
    [⟨SpaceContent.Virus, SpaceLinkage.Unlinked, SpaceColor.Blue⟩,
     ⟨SpaceContent.Virus, SpaceLinkage.Unlinked, SpaceColor.Blue⟩,
     ⟨SpaceContent.Virus, SpaceLinkage.Unlinked, SpaceColor.Blue⟩,
     ⟨SpaceContent.Virus, SpaceLinkage.Unlinked, SpaceColor.Blue⟩,
     ⟨SpaceContent.Empty, SpaceLinkage.Unlinked, SpaceColor.Uncolored⟩]]⟩

/-- One row: four unlinked blue pills followed by an unlinked red pill. -/
def sampleClearRow : PlayField :=
  ⟨[[⟨SpaceContent.Pill, SpaceLinkage.Unlinked, SpaceColor.Blue⟩,
     ⟨SpaceContent.Pill, SpaceLinkage.Unlinked, SpaceColor.Blue⟩,
     ⟨SpaceContent.Pill, SpaceLinkage.Unlinked, SpaceColor.Blue⟩,
     ⟨SpaceContent.Pill, SpaceLinkage.Unlinked, SpaceColor.Blue⟩,
     ⟨SpaceContent.Pill, SpaceLinkage.Unlinked, SpaceColor.Red⟩]]⟩

/-- The field of `TestSinglePillStackFallChecking` at its last evaluation: an 8 by 16 field
with unlinked blue pills placed at `(14, 0)`, `(13, 0)` and then `(15, 0)`. -/
def sampleStack : Option PlayField :=
  (NewPlayField 8 16).map (fun field =>
    (PutSpaceAtCoordinateIfEmpty
      (PutSpaceAtCoordinateIfEmpty
        (PutSpaceAtCoordinateIfEmpty field 14 0
          ⟨SpaceContent.Pill, SpaceLinkage.Unlinked, SpaceColor.Blue⟩).1 13 0
        ⟨SpaceContent.Pill, SpaceLinkage.Unlinked, SpaceColor.Blue⟩).1 15 0
      ⟨SpaceContent.Pill, SpaceLinkage.Unlinked, SpaceColor.Blue⟩).1)

/-- One row: a blue virus, two unlinked blue pills, and a horizontal pill whose blue half
links right to its red half. -/
def sampleClearLinked : PlayField :=
  ⟨[[⟨SpaceContent.Virus, SpaceLinkage.Unlinked, SpaceColor.Blue⟩,
     ⟨SpaceContent.Pill, SpaceLinkage.Unlinked, SpaceColor.Blue⟩,
     ⟨SpaceContent.Pill, SpaceLinkage.Unlinked, SpaceColor.Blue⟩,
     ⟨SpaceContent.Pill, SpaceLinkage.Right, SpaceColor.Blue⟩,
     ⟨SpaceContent.Pill, SpaceLinkage.Left, SpaceColor.Red⟩]]⟩

/-! ## Specification vocabulary -/

/-- The coordinate `(y, x)` addresses a cell of the field. -/
def InBounds (field : PlayField) (y x : Int) : Prop :=
  0 ≤ y ∧ y < field.spaces.length ∧ 0 ≤ x ∧ x < (gridRow field.spaces y.toNat).length

instance (field : PlayField) (y x : Int) : Decidable (InBounds field y x) := by
  unfold InBounds; infer_instance

/-- The acceptance condition of `PutTwoLinkedSpacesAtCoordinate`, with `(linkedY, linkedX)`
the coordinate of the second half. -/
def PairAccepted (field : PlayField) (y x : Int) (coordSpace linkedSpace : Space)
    (linkedY linkedX : Int) : Prop :=
  coordSpace.Linkage ≠ SpaceLinkage.Unlinked ∧
  coordSpace.Content = SpaceContent.Pill ∧ linkedSpace.Content = SpaceContent.Pill ∧
  linkedSpace.Linkage = getOpposingLinkage coordSpace.Linkage ∧
  GetLinkedCoordinate y x coordSpace.Linkage = Except.ok (linkedY, linkedX) ∧
  InBounds field y x ∧ (spaceAt field y.toNat x.toNat).Content = SpaceContent.Empty ∧
  InBounds field linkedY linkedX ∧
  (spaceAt field linkedY.toNat linkedX.toNat).Content = SpaceContent.Empty

/-- The cell at `(y, x)` is a pill that the docked field does not mark: the condition under
which the fall-detection loop writes `Fall`. -/
def Undocked (field : PlayField) (docked : List (List Bool)) (y x : Nat) : Prop :=
  (spaceAt field y x).Content = SpaceContent.Pill ∧ dockedAt docked y x = false

instance (field : PlayField) (docked : List (List Bool)) (y x : Nat) :
    Decidable (Undocked field docked y x) := by
  unfold Undocked; infer_instance

/-- Colour of the cell at `(y, x)`. -/
def colorAt (field : PlayField) (y x : Nat) : SpaceColor :=
  (spaceAt field y x).Color

/-- Position `i` of a line of `n` cells with colours `col` lies in a maximal run of at least
four consecutive cells of its own colour: the run is `[a, b)`, every cell of it has the
colour of cell `i`, and the cells just before `a` and at `b` (when they exist) do not. -/
def LineRun (n : Nat) (col : Nat → SpaceColor) (i : Nat) : Prop :=
  ∃ a b, a ≤ i ∧ i < b ∧ b ≤ n ∧ 4 ≤ b - a ∧
    (∀ j, a ≤ j → j < b → col j = col i) ∧
    (a = 0 ∨ col (a - 1) ≠ col i) ∧ (b = n ∨ col b ≠ col i)

/-- The cell `(y, x)` lies in a maximal run of at least four cells of its colour along row
`y`. -/
def RowRun (field : PlayField) (y x : Nat) : Prop :=
  LineRun (gridRow field.spaces y).length (fun i => colorAt field y i) x

/-- The cell `(y, x)` lies in a maximal run of at least four cells of its colour along
column `x`. -/
def ColRun (field : PlayField) (y x : Nat) : Prop :=
  LineRun field.spaces.length (fun i => colorAt field i x) y

/-- The cell `(y, x)` is coloured and lies in a run of four along its row. -/
def RowClear (field : PlayField) (y x : Nat) : Prop :=
  colorAt field y x ≠ SpaceColor.Uncolored ∧ RowRun field y x

/-- The cell `(y, x)` is coloured and lies in a run of four along its column. -/
def ColClear (field : PlayField) (y x : Nat) : Prop :=
  colorAt field y x ≠ SpaceColor.Uncolored ∧ ColRun field y x

/-- Every row of the field has the length of row 0. -/
def Rectangular (field : PlayField) : Prop :=
  ∀ y, y < field.spaces.length →
    (gridRow field.spaces y).length = (gridRow field.spaces 0).length

instance (field : PlayField) : Decidable (Rectangular field) := by
  unfold Rectangular; infer_instance

/-- Plan `q` has the shape of plan `p` and differs from it only in entries that are `Clear`
in `q`. -/
def PlanFrame (p q : List (List NextIteration)) : Prop :=
  shapeOf q = shapeOf p ∧
    ∀ y x, planAt q y x = planAt p y x ∨ planAt q y x = NextIteration.Clear

/-- The marking loop shared by `markRow` and `markCol`: positions `start .. stop - 1` of a
line whose `i`-th cell is `cell i` are set to `Clear`. -/
def markLine (cell : Nat → Nat × Nat) (plan : List (List NextIteration)) (start stop : Nat) :
    List (List NextIteration) :=
  (List.range' start (stop - start)).foldl
    (fun p i => gridSet p (cell i).1 (cell i).2 NextIteration.Clear) plan

/-- The flush block shared by `flushRow` and `flushCol`. -/
def flushLine (cell : Nat → Nat × Nat) (i : Nat) (st : ScanState) : ScanState :=
  if 4 ≤ st.currentStreak ∧ st.currentColor ≠ SpaceColor.Uncolored then
    { st with nextIter := NextIteration.Clear,
              plan := markLine cell st.plan (i - st.currentStreak) i }
  else st

/-- The scan loop shared by `rowLoop` and `colLoop`, over a line with out-of-bounds test
`oob`, colours `col` and cells `cell`; it returns the state after the final flush. -/
def lineLoop (oob : Nat → Bool) (col : Nat → SpaceColor) (cell : Nat → Nat × Nat) :
    Nat → Nat → ScanState → Option ScanState
  | 0, _, _ => none
  | fuel + 1, i, st =>
    if oob i = true then some (flushLine cell i st)
    else if col i = st.currentColor then
      lineLoop oob col cell fuel (i + 1) { st with currentStreak := st.currentStreak + 1 }
    else
      lineLoop oob col cell fuel (i + 1)
        { flushLine cell i st with currentStreak := 1, currentColor := col i }

/-- What the scan of a line has settled once every cell before position `s` is decided:
the plan `p` has the shape `shape`, every coloured cell before `s` that lies in a run of
four is `Clear`, and every coordinate that is not such a cell reads as in the plan `p0` the
scan started from. -/
def ScanDone (n : Nat) (col : Nat → SpaceColor) (cell : Nat → Nat × Nat)
    (p0 : List (List NextIteration)) (shape : List Nat) (s : Nat)
    (p : List (List NextIteration)) : Prop :=
  shapeOf p = shape ∧
  (∀ k, k < s → col k ≠ SpaceColor.Uncolored → LineRun n col k →
    planAt p (cell k).1 (cell k).2 = NextIteration.Clear) ∧
  (∀ y x, (∀ k, k < s → col k ≠ SpaceColor.Uncolored → LineRun n col k → cell k ≠ (y, x)) →
    planAt p y x = planAt p0 y x)

/-- The invariant of the scan of a line at position `i`: the current streak is the run of
colour `currentColor` that ends just before `i`, it cannot be extended to the left, and
everything before it is settled. -/
def ScanInv (n : Nat) (col : Nat → SpaceColor) (cell : Nat → Nat × Nat)
    (p0 : List (List NextIteration)) (shape : List Nat) (i : Nat) (st : ScanState) : Prop :=
  st.currentStreak ≤ i ∧ (i = 0 ∨ 1 ≤ st.currentStreak) ∧
  (∀ k, i - st.currentStreak ≤ k → k < i → col k = st.currentColor) ∧
  (i - st.currentStreak = 0 ∨ col (i - st.currentStreak - 1) ≠ st.currentColor) ∧
  ScanDone n col cell p0 shape (i - st.currentStreak) st.plan

/-- The end-of-row assignments `currentStreak = 0; currentColor = Uncolored`. -/
def resetStreak (st : ScanState) : ScanState :=
  { st with currentStreak := 0, currentColor := SpaceColor.Uncolored }

/-- Number of cells of a docked field that are still `false`. -/
def falseCount (docked : List (List Bool)) : Nat :=
  (docked.map (fun row => row.count false)).sum

/-- The message produced by `checkCoordinateInBoundsAndEmpty` for an occupied cell. -/
def BoardError.isOccupied : BoardError → Bool
  | BoardError.notEmpty => true
  | _ => false

/-- The cell at `(y, x)` is a seed of the docked search: a virus, or an occupied cell of
the bottom row. -/
def IsSeed (field : PlayField) (y x : Int) : Prop :=
  InBounds field y x ∧
    ((spaceAt field y.toNat x.toNat).Content = SpaceContent.Virus ∨
      (y = GetBottomRowIndex field ∧
        (spaceAt field y.toNat x.toNat).Content ≠ SpaceContent.Empty))

/-- The cell at `(y, x)` is anchored: it is a seed, or it is an occupied in-bounds cell
directly above an anchored cell, or an occupied in-bounds cell that an anchored cell is
linked to.  The coordinate a linkage points to is the one `GetLinkedCoordinate` returns; for
a linkage that is none of the constants the docked search goes on with the `0, 0` of the
failed call, which is what `linkedCoordinateIgnoringError` gives. -/
inductive Anchored (field : PlayField) : Int → Int → Prop
  | seed (y x : Int) : IsSeed field y x → Anchored field y x
  | above (y x : Int) : Anchored field y x → InBounds field (y - 1) x →
      (spaceAt field (y - 1).toNat x.toNat).Content ≠ SpaceContent.Empty →
      Anchored field (y - 1) x
  | linked (y x ly lx : Int) : Anchored field y x →
      (spaceAt field y.toNat x.toNat).Linkage ≠ SpaceLinkage.Unlinked →
      linkedCoordinateIgnoringError y x (spaceAt field y.toNat x.toNat).Linkage = ⟨ly, lx⟩ →
      InBounds field ly lx →
      (spaceAt field ly.toNat lx.toNat).Content ≠ SpaceContent.Empty →
      Anchored field ly lx

/-- The coordinate `(y, x)`, if it is an occupied cell of the field, is already docked or
still waits in the queue. -/
def Accounted (field : PlayField) (docked : List (List Bool)) (queue : List Coordinate)
    (y x : Int) : Prop :=
  InBounds field y x → (spaceAt field y.toNat x.toNat).Content ≠ SpaceContent.Empty →
    dockedAt docked y.toNat x.toNat = true ∨ (⟨y, x⟩ : Coordinate) ∈ queue

/-- The invariant of the docked loop. -/
def DockInv (field : PlayField) (docked : List (List Bool)) (queue : List Coordinate) : Prop :=
  shapeOf docked = shapeOf field.spaces ∧
  (∀ y x : Nat, dockedAt docked y x = true → Anchored field y x) ∧
  (∀ c ∈ queue, InBounds field c.y c.x →
    (spaceAt field c.y.toNat c.x.toNat).Content ≠ SpaceContent.Empty →
    Anchored field c.y c.x) ∧
  (∀ y x : Int, IsSeed field y x → Accounted field docked queue y x) ∧
  (∀ y x : Int, InBounds field y x → dockedAt docked y.toNat x.toNat = true →
    Accounted field docked queue (y - 1) x ∧
    ∀ ly lx, (spaceAt field y.toNat x.toNat).Linkage ≠ SpaceLinkage.Unlinked →
      linkedCoordinateIgnoringError y x (spaceAt field y.toNat x.toNat).Linkage = ⟨ly, lx⟩ →
      Accounted field docked queue ly lx)

/-- The dominant action of a scan state agrees with its plan: it is `NoAction` or `Clear`,
and it is `Clear` exactly when the plan holds a `Clear` mark. -/
def PlanAgrees (st : ScanState) : Prop :=
  (st.nextIter = NextIteration.NoAction ∨ st.nextIter = NextIteration.Clear) ∧
  (st.nextIter = NextIteration.Clear ↔ ∃ y x, planAt st.plan y x = NextIteration.Clear)

/-- What the scan of a line knows at position `i` without looking at colours: the plan has
the shape `shape`, the streak is not longer than the position, and every earlier position
passed the bounds test. -/
def ScanLight (oob : Nat → Bool) (shape : List Nat) (i : Nat) (st : ScanState) : Prop :=
  shapeOf st.plan = shape ∧ st.currentStreak ≤ i ∧ ∀ k, k < i → oob k = false

/-- The cell at `(y, x)` after the Fall pass has visited the rows `rows` of the field
`field0` under the plan `plan`: the cell from above if that one was marked `Fall` in a
visited row, else the empty cell if this one was marked `Fall` in a visited row, else the
cell as it was. -/
def fallTarget (field0 : PlayField) (plan : List (List NextIteration)) (rows : List Nat)
    (y x : Nat) : Space :=
  if 0 < y ∧ (y - 1) ∈ rows ∧ planAt plan (y - 1) x = NextIteration.Fall then
    spaceAt field0 (y - 1) x
  else if y ∈ rows ∧ planAt plan y x = NextIteration.Fall then Space.zero
  else spaceAt field0 y x

/-- The link invariant: every linked cell's partner coordinate is in bounds and holds a
pill linked back in the opposite direction. -/
def LinkConsistent (field : PlayField) : Prop :=
  ∀ y x : Int, InBounds field y x →
    (spaceAt field y.toNat x.toNat).Linkage ≠ SpaceLinkage.Unlinked →
    ∃ ly lx, GetLinkedCoordinate y x (spaceAt field y.toNat x.toNat).Linkage =
        Except.ok (ly, lx) ∧
      InBounds field ly lx ∧
      (spaceAt field ly.toNat lx.toNat).Content = SpaceContent.Pill ∧
      (spaceAt field ly.toNat lx.toNat).Linkage =
        getOpposingLinkage (spaceAt field y.toNat x.toNat).Linkage

/-- The coordinate one step from `(y, x)` in the direction `linkage`, when there is one with
non-negative row and column. -/
def partnerOf (y x : Nat) (linkage : SpaceLinkage) : Option (Nat × Nat) :=
  match GetLinkedCoordinate y x linkage with
  | Except.ok (ly, lx) => if 0 ≤ ly ∧ 0 ≤ lx then some (ly.toNat, lx.toNat) else none
  | Except.error _ => none

/-- The cell at `(y, x)` once `clearSpace` has been called on the cells `cleared` of the
field `field0`: the empty cell if it was cleared, the former cell with its linkage reset if
its partner was cleared, and the former cell otherwise. -/
def clearTarget (field0 : PlayField) (cleared : List (Nat × Nat)) (y x : Nat) : Space :=
  if (y, x) ∈ cleared then Space.zero
  else
    match partnerOf y x (spaceAt field0 y x).Linkage with
    | some q =>
      if q ∈ cleared then { spaceAt field0 y x with Linkage := SpaceLinkage.Unlinked }
      else spaceAt field0 y x
    | none => spaceAt field0 y x

/-- Number of virus cells of the field whose plan entry is `Clear`. -/
def clearedVirusCount (field : PlayField) (plan : List (List NextIteration)) : Nat :=
  ((List.range field.spaces.length).map (fun y =>
    (List.range (gridRow field.spaces y).length).countP (fun x =>
      decide ((spaceAt field y x).Content = SpaceContent.Virus ∧
        planAt plan y x = NextIteration.Clear)))).sum

/-- The link invariant at the cell `(y, x)`, in a form that can be evaluated. -/
def linkedBackAt (field : PlayField) (y x : Nat) : Bool :=
  match GetLinkedCoordinate y x (spaceAt field y x).Linkage with
  | Except.error _ => decide ((spaceAt field y x).Linkage = SpaceLinkage.Unlinked)
  | Except.ok (ly, lx) =>
    decide (InBounds field ly lx ∧
      (spaceAt field ly.toNat lx.toNat).Content = SpaceContent.Pill ∧
      (spaceAt field ly.toNat lx.toNat).Linkage =
        getOpposingLinkage (spaceAt field y x).Linkage)

/-- The link invariant checked cell by cell. -/
def linkedBackEverywhere (field : PlayField) : Bool :=
  (List.range field.spaces.length).all (fun y =>
    (List.range (gridRow field.spaces y).length).all (fun x => linkedBackAt field y x))

/-- Weight of a cell in the termination measure: one for a coloured cell, plus the number
of rows from its row to the floor (counting the row itself) for a pill. -/
def cellWeight (height y : Nat) (s : Space) : Nat :=
  (if s.Color ≠ SpaceColor.Uncolored then 1 else 0) +
    (if s.Content = SpaceContent.Pill then height - y else 0)

/-- The termination measure of the evaluate-and-step loop: the sum of the cell weights. -/
def boardMeasure (field : PlayField) : Nat :=
  Finset.sum (Finset.range field.spaces.length) (fun y =>
    Finset.sum (Finset.range (gridRow field.spaces y).length) (fun x =>
      cellWeight field.spaces.length y (spaceAt field y x)))

/-! ## Board evaluator with explicit index checks

The evaluator once more, with every slice index expression of the source checked before it
is used.  `none` is the index-out-of-range fault of the runtime or, in the loops that run on
fuel, the end of the fuel. -/

/-- The index expression `g[y]`. -/
def rowChecked {α : Type} (g : List (List α)) (y : Int) : Option (List α) :=
  if 0 ≤ y then g[y.toNat]? else none

/-- The read `g[y][x]`. -/
def cellChecked {α : Type} (g : List (List α)) (y x : Int) : Option α :=
  match rowChecked g y with
  | none => none
  | some row => if 0 ≤ x then row[x.toNat]? else none

/-- The assignment `g[y] = row`. -/
def setRowChecked {α : Type} (g : List (List α)) (y : Int) (row : List α) :
    Option (List (List α)) :=
  if 0 ≤ y ∧ y < g.length then some (g.set y.toNat row) else none

/-- The assignment `g[y][x] = v`. -/
def setCellChecked {α : Type} (g : List (List α)) (y x : Int) (v : α) :
    Option (List (List α)) :=
  match rowChecked g y with
  | none => none
  | some row =>
    if 0 ≤ x ∧ x < row.length then some (g.set y.toNat (row.set x.toNat v)) else none

/-- The allocation `g := make([][]T, len(field.spaces))` followed by
`for i := range g { g[i] = make([]T, len(field.spaces[i])) }`; `v` is the zero value of
`T`. -/
def makeGridChecked {α : Type} (field : PlayField) (v : α) : Option (List (List α)) :=
  (List.range field.spaces.length).foldlM
    (fun g (i : Nat) =>
      match rowChecked field.spaces i with
      | none => none
      | some row => setRowChecked g i (List.replicate row.length v))
    (List.replicate field.spaces.length [])

/-- Go `checkCoordinateInBounds` with the read `row := field.spaces[y]` checked. -/
def checkCoordinateInBoundsChecked (field : PlayField) (y x : Int) :
    Option (Option BoardError) :=
  if y < 0 ∨ y ≥ field.spaces.length then some (some BoardError.yOutOfBounds)
  else
    match rowChecked field.spaces y with
    | none => none
    | some row =>
      if x < 0 ∨ x ≥ row.length then some (some BoardError.xOutOfBounds) else some none

/-- Go `GetSpaceAtCoordinate` with its read checked. -/
def GetSpaceAtCoordinateChecked (field : PlayField) (y x : Int) :
    Option (Except BoardError Space) :=
  match checkCoordinateInBoundsChecked field y x with
  | none => none
  | some (some err) => some (Except.error err)
  | some none =>
    match cellChecked field.spaces y x with
    | none => none
    | some space => some (Except.ok space)

/-- Body of the seeding loops at `(y, x)`. -/
def seedStepChecked (field : PlayField) (y x : Nat) (queue : List Coordinate) :
    Option (List Coordinate) :=
  match GetSpaceAtCoordinateChecked field y x with
  | none => none
  | some (Except.ok space) =>
    if space.Content = SpaceContent.Virus then some (queue ++ [⟨y, x⟩])
    else if (y : Int) = GetBottomRowIndex field ∧ space.Content ≠ SpaceContent.Empty then
      some (queue ++ [⟨y, x⟩])
    else some queue
  | some (Except.error _) =>
    if Space.zero.Content = SpaceContent.Virus then some (queue ++ [⟨y, x⟩])
    else if (y : Int) = GetBottomRowIndex field ∧
        Space.zero.Content ≠ SpaceContent.Empty then
      some (queue ++ [⟨y, x⟩])
    else some queue

/-- The seeding loops `for y := range dockedField { for x := range dockedField[y] {...} }`. -/
def seedQueueChecked (field : PlayField) (docked : List (List Bool)) :
    Option (List Coordinate) :=
  (List.range docked.length).foldlM
    (fun queue (y : Nat) =>
      match rowChecked docked y with
      | none => none
      | some row =>
        (List.range row.length).foldlM (fun queue x => seedStepChecked field y x queue) queue)
    []

/-- The loop `for len(dockedCheckQueue) > 0`.  The head `dockedCheckQueue[0]` and the tail
`dockedCheckQueue[1:]` are taken from a non-empty queue only.  The three reads of
`field.spaces[dockedSpace.y][dockedSpace.x]` use the same index; the first one is checked
and its value kept. -/
def dockedLoopChecked (field : PlayField) :
    Nat → List (List Bool) → List Coordinate → Option (List (List Bool))
  | _, docked, [] => some docked
  | 0, _, _ :: _ => none
  | fuel + 1, docked, c :: rest =>
    match checkCoordinateInBoundsChecked field c.y c.x with
    | none => none
    | some (some _) => dockedLoopChecked field fuel docked rest
    | some none =>
      match cellChecked docked c.y c.x with
      | none => none
      | some true => dockedLoopChecked field fuel docked rest
      | some false =>
        match cellChecked field.spaces c.y c.x with
        | none => none
        | some space =>
          if space.Content = SpaceContent.Empty then dockedLoopChecked field fuel docked rest
          else
            match setCellChecked docked c.y c.x true with
            | none => none
            | some docked1 =>
              match checkCoordinateInBoundsChecked field (c.y - 1) c.x with
              | none => none
              | some err =>
                dockedLoopChecked field fuel docked1
                  ((if err = none then rest ++ [⟨c.y - 1, c.x⟩] else rest) ++
                    (if space.Linkage ≠ SpaceLinkage.Unlinked then
                      [linkedCoordinateIgnoringError c.y c.x space.Linkage]
                     else []))

/-- Go `generateDockedField`, with the fuel of `generateDockedField`. -/
def generateDockedFieldChecked (field : PlayField) : Option (List (List Bool)) :=
  match makeGridChecked field false with
  | none => none
  | some docked =>
    match seedQueueChecked field docked with
    | none => none
    | some queue =>
      dockedLoopChecked field (queue.length + 2 * cellCount field) docked queue

/-- Body of the fall-detection loops at `(y, x)`; `row` is `dockedField[y]`, whose element
`x` is the loop variable `docked`. -/
def fallScanStepChecked (field : PlayField) (row : List Bool) (y x : Nat)
    (acc : List (List NextIteration) × Bool) : Option (List (List NextIteration) × Bool) :=
  match row[x]? with
  | none => none
  | some docked =>
    match cellChecked field.spaces y x with
    | none => none
    | some space =>
      if space.Content = SpaceContent.Pill ∧ docked = false then
        match setCellChecked acc.1 y x NextIteration.Fall with
        | none => none
        | some plan => some (plan, true)
      else some acc

/-- The loops `for y := range dockedField { for x, docked := range dockedField[y] {...} }`. -/
def fallScanChecked (field : PlayField) (docked : List (List Bool))
    (plan : List (List NextIteration)) : Option (List (List NextIteration) × Bool) :=
  (List.range docked.length).foldlM
    (fun acc (y : Nat) =>
      match rowChecked docked y with
      | none => none
      | some row =>
        (List.range row.length).foldlM (fun acc x => fallScanStepChecked field row y x acc) acc)
    (plan, false)

/-- The loop `for i := x - currentStreak; i < x; i++ { nextIterationField[y][i] = Clear }`:
`currentStreak` iterations, the `k`-th at the index `x - currentStreak + k`. -/
def markRowChecked (plan : List (List NextIteration)) (y currentStreak x : Nat) :
    Option (List (List NextIteration)) :=
  (List.range currentStreak).foldlM
    (fun p (k : Nat) =>
      setCellChecked p y ((x : Int) - currentStreak + k) NextIteration.Clear) plan

/-- The loop `for i := y - currentStreak; i < y; i++ { nextIterationField[i][x] = Clear }`. -/
def markColChecked (plan : List (List NextIteration)) (x currentStreak y : Nat) :
    Option (List (List NextIteration)) :=
  (List.range currentStreak).foldlM
    (fun p (k : Nat) =>
      setCellChecked p ((y : Int) - currentStreak + k) x NextIteration.Clear) plan

/-- The flush block of the row scan at column `x`. -/
def flushRowChecked (y x : Nat) (st : ScanState) : Option ScanState :=
  if 4 ≤ st.currentStreak ∧ st.currentColor ≠ SpaceColor.Uncolored then
    match markRowChecked st.plan y st.currentStreak x with
    | none => none
    | some plan => some { st with nextIter := NextIteration.Clear, plan := plan }
  else some st

/-- The flush block of the column scan at row `y`. -/
def flushColChecked (x y : Nat) (st : ScanState) : Option ScanState :=
  if 4 ≤ st.currentStreak ∧ st.currentColor ≠ SpaceColor.Uncolored then
    match markColChecked st.plan x st.currentStreak y with
    | none => none
    | some plan => some { st with nextIter := NextIteration.Clear, plan := plan }
  else some st

/-- The inner loop of the row scan for row `y`, from column `x`.  The two reads of
`field.spaces[y][x]` use the same index; the first one is checked and its value kept. -/
def rowLoopChecked (field : PlayField) (y : Nat) : Nat → Nat → ScanState → Option ScanState
  | 0, _, _ => none
  | fuel + 1, x, st =>
    match checkCoordinateInBoundsChecked field y x with
    | none => none
    | some (some _) =>
      match flushRowChecked y x st with
      | none => none
      | some st1 =>
        some { st1 with currentStreak := 0, currentColor := SpaceColor.Uncolored }
    | some none =>
      match cellChecked field.spaces y x with
      | none => none
      | some space =>
        if space.Color = st.currentColor then
          rowLoopChecked field y fuel (x + 1) { st with currentStreak := st.currentStreak + 1 }
        else
          match flushRowChecked y x st with
          | none => none
          | some st1 =>
            rowLoopChecked field y fuel (x + 1)
              { st1 with currentStreak := 1, currentColor := space.Color }

/-- The inner loop of the column scan for column `x`, from row `y`. -/
def colLoopChecked (field : PlayField) (x : Nat) : Nat → Nat → ScanState → Option ScanState
  | 0, _, _ => none
  | fuel + 1, y, st =>
    match checkCoordinateInBoundsChecked field y x with
    | none => none
    | some (some _) => flushColChecked x y st
    | some none =>
      match cellChecked field.spaces y x with
      | none => none
      | some space =>
        if space.Color = st.currentColor then
          colLoopChecked field x fuel (y + 1) { st with currentStreak := st.currentStreak + 1 }
        else
          match flushColChecked x y st with
          | none => none
          | some st1 =>
            colLoopChecked field x fuel (y + 1)
              { st1 with currentStreak := 1, currentColor := space.Color }

/-- The loop `for y := range field.spaces` of the row scan, with the fuel of `rowScan`. -/
def rowScanChecked (field : PlayField) (st : ScanState) : Option ScanState :=
  (List.range field.spaces.length).foldlM
    (fun st y => rowLoopChecked field y ((gridRow field.spaces y).length + 1) 0 st) st

/-- The loop `for x := range field.spaces[0]` of the column scan, with the fuel of
`colScan`. -/
def colScanChecked (field : PlayField) (st : ScanState) : Option ScanState :=
  match rowChecked field.spaces 0 with
  | none => none
  | some row0 =>
    (List.range row0.length).foldlM
      (fun st x => colLoopChecked field x (field.spaces.length + 1) 0
        { st with currentStreak := 0, currentColor := SpaceColor.Uncolored }) st

/-- Go `EvaluateBoardIteration` with every slice index checked. -/
def EvaluateBoardIterationChecked (field : PlayField) :
    Option (List (List NextIteration) × NextIteration) :=
  match makeGridChecked field NextIteration.NoAction with
  | none => none
  | some plan0 =>
    match generateDockedFieldChecked field with
    | none => none
    | some docked =>
      match fallScanChecked field docked plan0 with
      | none => none
      | some (plan1, undockedPieceFound) =>
        if undockedPieceFound = true then some (plan1, NextIteration.Fall)
        else
          match rowScanChecked field
              ⟨0, SpaceColor.Uncolored, NextIteration.NoAction, plan1⟩ with
          | none => none
          | some st1 =>
            match colScanChecked field st1 with
            | none => none
            | some st2 => some (st2.plan, st2.nextIter)

/-- The non-empty cells of the field, each with its content, linkage and colour, as a
multiset: the coordinates are forgotten, the multiplicities kept. -/
def nonEmptyCells (field : PlayField) : Multiset Space :=
  ((field.spaces.flatten.filter (fun s => decide (s.Content ≠ SpaceContent.Empty)) :
    List Space) : Multiset Space)

/-- Every cell of the field has one of the three contents that the package names. -/
def KnownContents (field : PlayField) : Prop :=
  ∀ row ∈ field.spaces, ∀ space ∈ row,
    space.Content = SpaceContent.Empty ∨ space.Content = SpaceContent.Virus ∨
      space.Content = SpaceContent.Pill

instance (field : PlayField) : Decidable (KnownContents field) := by
  unfold KnownContents; infer_instance

/-- Three rows of one cell: an unlinked blue pill, below it a red cell whose content is
none of the three constants, and the empty cell at the bottom. -/
def sampleOverwrite : PlayField :=
  ⟨[[⟨SpaceContent.Pill, SpaceLinkage.Unlinked, SpaceColor.Blue⟩],
    [⟨SpaceContent.Other 0, SpaceLinkage.Unlinked, SpaceColor.Red⟩],
    [Space.zero]]⟩

/-- The plan that `EvaluateBoardIteration` returns for `sampleFallAndRun`: the floating pill
is marked `Fall`. -/
def sampleFallAndRunPlan : List (List NextIteration) :=
  [[NextIteration.NoAction, NextIteration.NoAction, NextIteration.NoAction,
    NextIteration.NoAction, NextIteration.Fall],
   [NextIteration.NoAction, NextIteration.NoAction, NextIteration.NoAction,
    NextIteration.NoAction, NextIteration.NoAction]]

/-- The link invariant of the board: every cell with a linkage is a pill whose neighbour in
that direction is in bounds, is a pill and links back in the opposite direction; empty cells
and viruses are unlinked. -/
def LinkInvariant (field : PlayField) : Prop :=
  ∀ y x : Int, InBounds field y x →
    ((spaceAt field y.toNat x.toNat).Linkage ≠ SpaceLinkage.Unlinked →
      (spaceAt field y.toNat x.toNat).Content = SpaceContent.Pill ∧
      ∃ ly lx, GetLinkedCoordinate y x (spaceAt field y.toNat x.toNat).Linkage =
          Except.ok (ly, lx) ∧
        InBounds field ly lx ∧
        (spaceAt field ly.toNat lx.toNat).Content = SpaceContent.Pill ∧
        (spaceAt field ly.toNat lx.toNat).Linkage =
          getOpposingLinkage (spaceAt field y.toNat x.toNat).Linkage) ∧
    ((spaceAt field y.toNat x.toNat).Content = SpaceContent.Empty ∨
        (spaceAt field y.toNat x.toNat).Content = SpaceContent.Virus →
      (spaceAt field y.toNat x.toNat).Linkage = SpaceLinkage.Unlinked)

/-- Every cell with a linkage is a pill. -/
def LinkedArePills (field : PlayField) : Prop :=
  ∀ y x : Nat, (spaceAt field y x).Linkage ≠ SpaceLinkage.Unlinked →
    (spaceAt field y x).Content = SpaceContent.Pill

/-- The boards that can be reached: the field returned by `NewPlayField`, and the field left
by any call, successful or failed, of `PutSpaceAtCoordinateIfEmpty`,
`PutTwoLinkedSpacesAtCoordinate`, `clearSpace`, `ClearBoard` or `IterateBoard` on a board
that can be reached. -/
inductive Reachable : PlayField → Prop
  | new (x y : Int) (field : PlayField) : NewPlayField x y = some field → Reachable field
  | putSpace (field : PlayField) (y x : Int) (space : Space) : Reachable field →
      Reachable (PutSpaceAtCoordinateIfEmpty field y x space).1
  | putTwo (field : PlayField) (y x : Int) (coordSpace linkedSpace : Space) :
      Reachable field →
      Reachable (PutTwoLinkedSpacesAtCoordinate field y x coordSpace linkedSpace).1
  | clear (field : PlayField) (y x : Int) : Reachable field →
      Reachable (clearSpace field y x).1
  | clearBoard (field : PlayField) : Reachable field → Reachable (ClearBoard field)
  | iterate (field : PlayField) (result : PlayField × Option BoardError) :
      Reachable field → IterateBoard field = some result → Reachable result.1

/-- A field with rows of different lengths, which no operation of the package builds: a
horizontal pill in a top row of two cells, above a row of one cell and a row of two. -/
def sampleJagged : PlayField :=
  ⟨[[⟨SpaceContent.Pill, SpaceLinkage.Right, SpaceColor.Red⟩,
     ⟨SpaceContent.Pill, SpaceLinkage.Left, SpaceColor.Blue⟩],
    [Space.zero],
    [Space.zero, Space.zero]]⟩

/-- The boards built from the field returned by `NewPlayField` by successful calls of
`PutSpaceAtCoordinateIfEmpty` and `PutTwoLinkedSpacesAtCoordinate` whose cell arguments all
satisfy `accepts`. -/
inductive Placed (accepts : Space → Prop) : PlayField → Prop
  | new (x y : Int) (field : PlayField) : NewPlayField x y = some field →
      Placed accepts field
  | putSpace (field : PlayField) (y x : Int) (space : Space) : Placed accepts field →
      accepts space → (PutSpaceAtCoordinateIfEmpty field y x space).2 = none →
      Placed accepts (PutSpaceAtCoordinateIfEmpty field y x space).1
  | putTwo (field : PlayField) (y x : Int) (coordSpace linkedSpace : Space) :
      Placed accepts field → accepts coordSpace → accepts linkedSpace →
      (PutTwoLinkedSpacesAtCoordinate field y x coordSpace linkedSpace).2 = none →
      Placed accepts (PutTwoLinkedSpacesAtCoordinate field y x coordSpace linkedSpace).1

/-- A cell value that is `Uncolored` whenever its content is `Empty`. -/
def EmptyIsUncolored (space : Space) : Prop :=
  space.Content = SpaceContent.Empty → space.Color = SpaceColor.Uncolored

instance (space : Space) : Decidable (EmptyIsUncolored space) := by
  unfold EmptyIsUncolored; infer_instance

/-- The cell `(y, x)` lies in a stretch of at least four cells of row `y` that all have its
colour and are all occupied. -/
def OccupiedRowRun (field : PlayField) (y x : Nat) : Prop :=
  ∃ a b, a ≤ x ∧ x < b ∧ b ≤ (gridRow field.spaces y).length ∧ 4 ≤ b - a ∧
    ∀ j, a ≤ j → j < b →
      colorAt field y j = colorAt field y x ∧
        (spaceAt field y j).Content ≠ SpaceContent.Empty

/-- The cell `(y, x)` lies in a stretch of at least four cells of column `x` that all have
its colour and are all occupied. -/
def OccupiedColRun (field : PlayField) (y x : Nat) : Prop :=
  ∃ a b, a ≤ y ∧ y < b ∧ b ≤ field.spaces.length ∧ 4 ≤ b - a ∧
    ∀ i, a ≤ i → i < b →
      colorAt field i x = colorAt field y x ∧
        (spaceAt field i x).Content ≠ SpaceContent.Empty

/-- One row of four cells whose content is `Empty` and whose colour is `Red`. -/
def sampleColouredEmpty : PlayField :=
  ⟨[[⟨SpaceContent.Empty, SpaceLinkage.Unlinked, SpaceColor.Red⟩,
     ⟨SpaceContent.Empty, SpaceLinkage.Unlinked, SpaceColor.Red⟩,
     ⟨SpaceContent.Empty, SpaceLinkage.Unlinked, SpaceColor.Red⟩,
     ⟨SpaceContent.Empty, SpaceLinkage.Unlinked, SpaceColor.Red⟩]]⟩

/-- One row: two unlinked red pills, a cell whose content is `Empty` and whose colour is
`Red`, and two more unlinked red pills. -/
def sampleJoinedRuns : PlayField :=
  ⟨[[⟨SpaceContent.Pill, SpaceLinkage.Unlinked, SpaceColor.Red⟩,
     ⟨SpaceContent.Pill, SpaceLinkage.Unlinked, SpaceColor.Red⟩,
     ⟨SpaceContent.Empty, SpaceLinkage.Unlinked, SpaceColor.Red⟩,
     ⟨SpaceContent.Pill, SpaceLinkage.Unlinked, SpaceColor.Red⟩,
     ⟨SpaceContent.Pill, SpaceLinkage.Unlinked, SpaceColor.Red⟩]]⟩

/-- One row: two unlinked red pills, the empty cell, and two more unlinked red pills. -/
def sampleBrokenRun : PlayField :=
  ⟨[[⟨SpaceContent.Pill, SpaceLinkage.Unlinked, SpaceColor.Red⟩,
     ⟨SpaceContent.Pill, SpaceLinkage.Unlinked, SpaceColor.Red⟩,
     Space.zero,
     ⟨SpaceContent.Pill, SpaceLinkage.Unlinked, SpaceColor.Red⟩,
     ⟨SpaceContent.Pill, SpaceLinkage.Unlinked, SpaceColor.Red⟩]]⟩

/-! ## Facts about two-dimensional slices -/

theorem gridRow_length_le {α : Type} (g : List (List α)) (y : Nat) (h : g.length ≤ y) :
    gridRow g y = [] := by
  simp [gridRow, List.getElem?_eq_none h]

theorem gridSet_length {α : Type} (g : List (List α)) (y x : Nat) (v : α) :
    (gridSet g y x v).length = g.length := by
  simp [gridSet]

theorem gridRow_gridSet {α : Type} (g : List (List α)) (y x : Nat) (v : α) (y1 : Nat) :
    gridRow (gridSet g y x v) y1 = if y1 = y then (gridRow g y).set x v else gridRow g y1 := by
  unfold gridSet
  by_cases h : y1 = y
  · subst h
    by_cases hy : y1 < g.length
    · simp [gridRow, List.getElem?_set, hy]
    · have hle : g.length ≤ y1 := Nat.le_of_not_lt hy
      simp [gridRow, List.getElem?_set, hy, List.getElem?_eq_none hle]
  · have h2 : y ≠ y1 := fun e => h e.symm
    simp [gridRow, List.getElem?_set, h, h2]

theorem gridRow_gridSet_length {α : Type} (g : List (List α)) (y x : Nat) (v : α) (y1 : Nat) :
    (gridRow (gridSet g y x v) y1).length = (gridRow g y1).length := by
  rw [gridRow_gridSet]
  split
  · next h => subst h; simp
  · rfl

theorem gridGet?_gridSet {α : Type} (g : List (List α)) (y x : Nat) (v : α) (y1 x1 : Nat) :
    gridGet? (gridSet g y x v) y1 x1 =
      if y1 = y ∧ x1 = x then (gridGet? g y x).map (fun _ => v) else gridGet? g y1 x1 := by
  unfold gridGet?
  rw [gridRow_gridSet]
  by_cases h : y1 = y
  · subst h
    by_cases hx : x1 = x
    · subst hx
      by_cases hlt : x1 < (gridRow g y1).length
      · simp [List.getElem?_set, hlt]
      · have hle : (gridRow g y1).length ≤ x1 := Nat.le_of_not_lt hlt
        simp [List.getElem?_set, hlt, List.getElem?_eq_none hle]
    · have h2 : x ≠ x1 := fun e => hx e.symm
      simp [List.getElem?_set, hx, h2]
  · simp [h]

theorem gridGet?_isSome_iff {α : Type} (g : List (List α)) (y x : Nat) :
    (gridGet? g y x).isSome = true ↔ x < (gridRow g y).length := by
  unfold gridGet?
  by_cases h : x < (gridRow g y).length
  · simp [List.getElem?_eq_getElem h, h]
  · have hle : (gridRow g y).length ≤ x := Nat.le_of_not_lt h
    simp [List.getElem?_eq_none hle, h]

theorem gridGet?_gridSet_same {α : Type} (g : List (List α)) (y x : Nat) (v : α)
    (h : x < (gridRow g y).length) : gridGet? (gridSet g y x v) y x = some v := by
  rw [gridGet?_gridSet]
  have h2 := (gridGet?_isSome_iff g y x).mpr h
  cases hg : gridGet? g y x with
  | none => rw [hg] at h2; simp at h2
  | some w => simp

theorem gridGet?_gridSet_other {α : Type} (g : List (List α)) (y x : Nat) (v : α) (y1 x1 : Nat)
    (h : ¬ (y1 = y ∧ x1 = x)) : gridGet? (gridSet g y x v) y1 x1 = gridGet? g y1 x1 := by
  rw [gridGet?_gridSet, if_neg h]

/-! ## Facts about the bounds check -/

theorem checkCoordinateInBounds_eq_none_iff (field : PlayField) (y x : Int) :
    checkCoordinateInBounds field y x = none ↔ InBounds field y x := by
  unfold checkCoordinateInBounds InBounds
  by_cases hy : y < 0 ∨ y ≥ field.spaces.length
  · rw [if_pos hy]; simp; intro h1 h2; omega
  · rw [if_neg hy]
    by_cases hx : x < 0 ∨ x ≥ (gridRow field.spaces y.toNat).length
    · rw [if_pos hx]; simp; intro _ _ h3; omega
    · rw [if_neg hx]; simp; omega

theorem checkCoordinateInBounds_isOutOfBounds (field : PlayField) (y x : Int) (err : BoardError)
    (h : checkCoordinateInBounds field y x = some err) : err.isOutOfBounds = true := by
  unfold checkCoordinateInBounds at h
  split at h
  · cases h; rfl
  · split at h
    · cases h; rfl
    · cases h

theorem checkCoordinateInBoundsAndEmpty_eq_none_iff (field : PlayField) (y x : Int) :
    checkCoordinateInBoundsAndEmpty field y x = none ↔
      InBounds field y x ∧ (spaceAt field y.toNat x.toNat).Content = SpaceContent.Empty := by
  unfold checkCoordinateInBoundsAndEmpty
  cases h : checkCoordinateInBounds field y x with
  | some err =>
    have hn : ¬ InBounds field y x := by
      rw [← checkCoordinateInBounds_eq_none_iff, h]; simp
    simp [hn]
  | none =>
    have hb : InBounds field y x := (checkCoordinateInBounds_eq_none_iff field y x).mp h
    by_cases hc : (spaceAt field y.toNat x.toNat).Content = SpaceContent.Empty
    · simp [hb, hc]
    · simp [hb, hc]

theorem inBounds_gridSet (field : PlayField) (a b : Nat) (v : Space) (y x : Int) :
    InBounds ⟨gridSet field.spaces a b v⟩ y x ↔ InBounds field y x := by
  unfold InBounds
  simp only [gridSet_length, gridRow_gridSet_length]

theorem checkCoordinateInBounds_gridSet (field : PlayField) (a b : Nat) (v : Space) (y x : Int) :
    checkCoordinateInBounds ⟨gridSet field.spaces a b v⟩ y x = checkCoordinateInBounds field y x := by
  unfold checkCoordinateInBounds
  simp only [gridSet_length, gridRow_gridSet_length]

theorem putSpaceAtCoordinate_of_inBounds (field : PlayField) (y x : Int) (space : Space)
    (h : InBounds field y x) :
    putSpaceAtCoordinate field y x space = (⟨gridSet field.spaces y.toNat x.toNat space⟩, none) := by
  unfold putSpaceAtCoordinate
  rw [(checkCoordinateInBounds_eq_none_iff field y x).mpr h]

theorem spaceAt_gridSet_same (field : PlayField) (y x : Int) (v : Space)
    (h : InBounds field y x) :
    spaceAt ⟨gridSet field.spaces y.toNat x.toNat v⟩ y.toNat x.toNat = v := by
  unfold spaceAt
  have hx : x.toNat < (gridRow field.spaces y.toNat).length := by
    obtain ⟨_, _, h3, h4⟩ := h; omega
  simp [gridGet?_gridSet_same _ _ _ _ hx]

theorem spaceAt_gridSet_other (field : PlayField) (a b : Nat) (v : Space) (y1 x1 : Nat)
    (h : ¬ (y1 = a ∧ x1 = b)) :
    spaceAt ⟨gridSet field.spaces a b v⟩ y1 x1 = spaceAt field y1 x1 := by
  unfold spaceAt
  simp [gridGet?_gridSet_other _ _ _ _ _ _ h]

theorem getSpace_gridSet_same (field : PlayField) (y x : Int) (v : Space)
    (h : InBounds field y x) :
    GetSpaceAtCoordinate ⟨gridSet field.spaces y.toNat x.toNat v⟩ y x = Except.ok v := by
  unfold GetSpaceAtCoordinate
  rw [checkCoordinateInBounds_gridSet, (checkCoordinateInBounds_eq_none_iff field y x).mpr h]
  simp only [spaceAt_gridSet_same field y x v h]

theorem getSpace_gridSet_other (field : PlayField) (y x : Int) (v : Space) (y1 x1 : Int)
    (h : InBounds field y x) (hne : ¬ (y1 = y ∧ x1 = x)) :
    GetSpaceAtCoordinate ⟨gridSet field.spaces y.toNat x.toNat v⟩ y1 x1 =
      GetSpaceAtCoordinate field y1 x1 := by
  unfold GetSpaceAtCoordinate
  rw [checkCoordinateInBounds_gridSet]
  cases hc : checkCoordinateInBounds field y1 x1 with
  | some err => rfl
  | none =>
    have hb := (checkCoordinateInBounds_eq_none_iff field y1 x1).mp hc
    have hne2 : ¬ (y1.toNat = y.toNat ∧ x1.toNat = x.toNat) := by
      obtain ⟨a1, _, a3, _⟩ := h
      obtain ⟨b1, _, b3, _⟩ := hb
      intro ⟨e1, e2⟩
      apply hne
      constructor <;> omega
    simp only [spaceAt_gridSet_other field _ _ v _ _ hne2]

theorem getSpace_ok_iff (field : PlayField) (y x : Int) (v : Space) :
    GetSpaceAtCoordinate field y x = Except.ok v ↔
      InBounds field y x ∧ spaceAt field y.toNat x.toNat = v := by
  unfold GetSpaceAtCoordinate
  cases hc : checkCoordinateInBounds field y x with
  | some err =>
    have hn : ¬ InBounds field y x := by
      rw [← checkCoordinateInBounds_eq_none_iff, hc]; simp
    simp [hn]
  | none =>
    have hb := (checkCoordinateInBounds_eq_none_iff field y x).mp hc
    simp [hb]

theorem getLinkedCoordinate_ne (y x : Int) (l : SpaceLinkage) (ly lx : Int)
    (h : GetLinkedCoordinate y x l = Except.ok (ly, lx)) : ¬ (ly = y ∧ lx = x) := by
  cases l <;> simp [GetLinkedCoordinate] at h <;> omega

/-- For a first linkage that `GetLinkedCoordinate` accepts (one of the four directions), the
`switch` passes exactly the opposite linkage. -/
theorem linkageSwitchRejects_eq_false_iff (a b : SpaceLinkage) (y x : Int) (c : Int × Int)
    (h : GetLinkedCoordinate y x a = Except.ok c) :
    linkageSwitchRejects a b = false ↔ b = getOpposingLinkage a := by
  cases a <;> cases b <;>
    simp [linkageSwitchRejects, getOpposingLinkage, GetLinkedCoordinate] at h ⊢

/-- The `switch` passes the opposite linkage, whatever the first linkage is. -/
theorem linkageSwitchRejects_of_opposite (a b : SpaceLinkage)
    (h : b = getOpposingLinkage a) : linkageSwitchRejects a b = false := by
  subst h
  cases a <;> simp [linkageSwitchRejects, getOpposingLinkage]

/-- The two outcomes of `PutTwoLinkedSpacesAtCoordinate`: both writes, or an error and the
field it was given. -/
theorem putTwoLinked_cases (field : PlayField) (y x : Int) (a b : Space) :
    (∃ ly lx, PairAccepted field y x a b ly lx ∧
      PutTwoLinkedSpacesAtCoordinate field y x a b =
        (⟨gridSet (gridSet field.spaces y.toNat x.toNat a) ly.toNat lx.toNat b⟩, none)) ∨
    (∃ err, PutTwoLinkedSpacesAtCoordinate field y x a b = (field, some err) ∧
      ∀ ly lx, ¬ PairAccepted field y x a b ly lx) := by
  unfold PutTwoLinkedSpacesAtCoordinate
  by_cases h1 : a.Linkage = SpaceLinkage.Unlinked
  · right
    refine ⟨BoardError.unlinkedPair, by rw [if_pos h1], ?_⟩
    intro ly lx hacc
    exact hacc.1 h1
  rw [if_neg h1]
  by_cases h2 : a.Content ≠ SpaceContent.Pill ∨ b.Content ≠ SpaceContent.Pill
  · right
    refine ⟨BoardError.notPill, by rw [if_pos h2], ?_⟩
    intro ly lx hacc
    rcases h2 with h2 | h2
    · exact h2 hacc.2.1
    · exact h2 hacc.2.2.1
  rw [if_neg h2]
  have hpill : a.Content = SpaceContent.Pill ∧ b.Content = SpaceContent.Pill := by
    constructor
    · by_contra hc; exact h2 (Or.inl hc)
    · by_contra hc; exact h2 (Or.inr hc)
  cases h3 : linkageSwitchRejects a.Linkage b.Linkage with
  | true =>
    right
    refine ⟨BoardError.badLinkage, by simp, ?_⟩
    intro ly lx hacc
    have := linkageSwitchRejects_of_opposite a.Linkage b.Linkage hacc.2.2.2.1
    rw [h3] at this
    cases this
  | false =>
    simp only [Bool.false_eq_true, if_false]
    cases h4 : checkCoordinateInBoundsAndEmpty field y x with
    | some err =>
      right
      refine ⟨err, rfl, ?_⟩
      intro ly lx hacc
      have := (checkCoordinateInBoundsAndEmpty_eq_none_iff field y x).mpr
        ⟨hacc.2.2.2.2.2.1, hacc.2.2.2.2.2.2.1⟩
      rw [h4] at this
      cases this
    | none =>
      have hprim := (checkCoordinateInBoundsAndEmpty_eq_none_iff field y x).mp h4
      cases h5 : GetLinkedCoordinate y x a.Linkage with
      | error err =>
        right
        refine ⟨err, rfl, ?_⟩
        intro ly lx hacc
        have := hacc.2.2.2.2.1
        rw [h5] at this
        cases this
      | ok c =>
        have hopp := (linkageSwitchRejects_eq_false_iff a.Linkage b.Linkage y x c h5).mp h3
        obtain ⟨ly, lx⟩ := c
        simp only
        cases h6 : checkCoordinateInBoundsAndEmpty field ly lx with
        | some err =>
          right
          refine ⟨err, rfl, ?_⟩
          intro ly2 lx2 hacc
          have e := hacc.2.2.2.2.1
          rw [h5] at e
          injection e with e
          injection e with e1 e2
          subst e1; subst e2
          have := (checkCoordinateInBoundsAndEmpty_eq_none_iff field ly lx).mpr
            ⟨hacc.2.2.2.2.2.2.2.1, hacc.2.2.2.2.2.2.2.2⟩
          rw [h6] at this
          cases this
        | none =>
          have hlink := (checkCoordinateInBoundsAndEmpty_eq_none_iff field ly lx).mp h6
          left
          refine ⟨ly, lx, ⟨h1, hpill.1, hpill.2, hopp, h5, hprim.1, hprim.2, hlink.1, hlink.2⟩, ?_⟩
          rw [putSpaceAtCoordinate_of_inBounds field y x a hprim.1]
          simp only
          rw [putSpaceAtCoordinate_of_inBounds _ ly lx b
            ((inBounds_gridSet field _ _ a ly lx).mpr hlink.1)]

/-! ## Placement and construction: the contract of the grid model -/

/-- C1: `PutTwoLinkedSpacesAtCoordinate` either reports success and then both halves are
in the field (the first at `(y, x)`, the second at the linked coordinate), or reports an
error and returns the field exactly as it was given; it never writes one half only. -/
theorem putTwoLinked_writes_both_or_nothing (field : PlayField) (y x : Int) (a b : Space) :
    (∃ ly lx, GetLinkedCoordinate y x a.Linkage = Except.ok (ly, lx) ∧
      (PutTwoLinkedSpacesAtCoordinate field y x a b).2 = none ∧
      GetSpaceAtCoordinate (PutTwoLinkedSpacesAtCoordinate field y x a b).1 y x = Except.ok a ∧
      GetSpaceAtCoordinate (PutTwoLinkedSpacesAtCoordinate field y x a b).1 ly lx = Except.ok b) ∨
    ((∃ err, (PutTwoLinkedSpacesAtCoordinate field y x a b).2 = some err) ∧
      (PutTwoLinkedSpacesAtCoordinate field y x a b).1 = field) := by
  rcases putTwoLinked_cases field y x a b with ⟨ly, lx, hacc, heq⟩ | ⟨err, heq, _⟩
  · left
    obtain ⟨_, _, _, _, hl, hb1, _, hb2, _⟩ := hacc
    refine ⟨ly, lx, hl, by rw [heq], ?_, ?_⟩
    · rw [heq]
      have hb1a : InBounds ⟨gridSet field.spaces y.toNat x.toNat a⟩ y x :=
        (inBounds_gridSet field _ _ a y x).mpr hb1
      have hb2a : InBounds ⟨gridSet field.spaces y.toNat x.toNat a⟩ ly lx :=
        (inBounds_gridSet field _ _ a ly lx).mpr hb2
      have hne : ¬ (y = ly ∧ x = lx) := by
        intro ⟨e1, e2⟩
        exact getLinkedCoordinate_ne y x a.Linkage ly lx hl ⟨e1.symm, e2.symm⟩
      rw [getSpace_gridSet_other ⟨gridSet field.spaces y.toNat x.toNat a⟩ ly lx b y x hb2a hne]
      exact getSpace_gridSet_same field y x a hb1
    · rw [heq]
      exact getSpace_gridSet_same ⟨gridSet field.spaces y.toNat x.toNat a⟩ ly lx b
        ((inBounds_gridSet field _ _ a ly lx).mpr hb2)
  · right
    rw [heq]
    exact ⟨⟨err, rfl⟩, rfl⟩

/-- C2: `PutTwoLinkedSpacesAtCoordinate y x cellA cellB` succeeds exactly when `cellA` is
linked, both cells are pills, `cellB` carries the opposite linkage, and both `(y, x)` and the
coordinate one step from it in the direction of `cellA.Linkage` are in bounds and empty; on
success the field holds `cellA` at `(y, x)`, `cellB` at that coordinate, and every other
coordinate reads as before. -/
theorem putTwoLinked_succeeds_iff (field : PlayField) (y x : Int) (a b : Space) :
    ((PutTwoLinkedSpacesAtCoordinate field y x a b).2 = none ↔
      ∃ ly lx, PairAccepted field y x a b ly lx) ∧
    ((PutTwoLinkedSpacesAtCoordinate field y x a b).2 = none →
      ∃ ly lx, GetLinkedCoordinate y x a.Linkage = Except.ok (ly, lx) ∧
        GetSpaceAtCoordinate (PutTwoLinkedSpacesAtCoordinate field y x a b).1 y x = Except.ok a ∧
        GetSpaceAtCoordinate (PutTwoLinkedSpacesAtCoordinate field y x a b).1 ly lx =
          Except.ok b ∧
        ∀ y1 x1, ¬ (y1 = y ∧ x1 = x) → ¬ (y1 = ly ∧ x1 = lx) →
          GetSpaceAtCoordinate (PutTwoLinkedSpacesAtCoordinate field y x a b).1 y1 x1 =
            GetSpaceAtCoordinate field y1 x1) := by
  rcases putTwoLinked_cases field y x a b with ⟨ly, lx, hacc, heq⟩ | ⟨err, heq, hno⟩
  · refine ⟨⟨fun _ => ⟨ly, lx, hacc⟩, fun _ => by rw [heq]⟩, fun _ => ?_⟩
    obtain ⟨_, _, _, _, hl, hb1, _, hb2, _⟩ := hacc
    have hb1a : InBounds ⟨gridSet field.spaces y.toNat x.toNat a⟩ y x :=
      (inBounds_gridSet field _ _ a y x).mpr hb1
    have hb2a : InBounds ⟨gridSet field.spaces y.toNat x.toNat a⟩ ly lx :=
      (inBounds_gridSet field _ _ a ly lx).mpr hb2
    have hne : ¬ (y = ly ∧ x = lx) := by
      intro ⟨e1, e2⟩
      exact getLinkedCoordinate_ne y x a.Linkage ly lx hl ⟨e1.symm, e2.symm⟩
    refine ⟨ly, lx, hl, ?_, ?_, ?_⟩
    · rw [heq, getSpace_gridSet_other ⟨gridSet field.spaces y.toNat x.toNat a⟩ ly lx b y x hb2a hne]
      exact getSpace_gridSet_same field y x a hb1
    · rw [heq]
      exact getSpace_gridSet_same ⟨gridSet field.spaces y.toNat x.toNat a⟩ ly lx b hb2a
    · intro y1 x1 h1 h2
      rw [heq, getSpace_gridSet_other ⟨gridSet field.spaces y.toNat x.toNat a⟩ ly lx b y1 x1 hb2a h2]
      exact getSpace_gridSet_other field y x a y1 x1 hb1 h1
  · refine ⟨⟨fun h => ?_, fun ⟨ly, lx, hacc⟩ => absurd hacc (hno ly lx)⟩, fun h => ?_⟩
    · rw [heq] at h; cases h
    · rw [heq] at h; cases h

/-- C3: for every field, every coordinate (in bounds or not) and every cell whose linkage
is not `Unlinked`, `PutSpaceAtCoordinateIfEmpty` fails with the error "cannot put a single
linked space" and returns the field unchanged. -/
theorem putSpace_linked_rejected (field : PlayField) (y x : Int) (space : Space)
    (h : space.Linkage ≠ SpaceLinkage.Unlinked) :
    PutSpaceAtCoordinateIfEmpty field y x space = (field, some BoardError.singleLinked) := by
  unfold PutSpaceAtCoordinateIfEmpty
  rw [if_pos h]

theorem putSpace_linked_rejected_witness :
    (Space.mk SpaceContent.Pill SpaceLinkage.Up SpaceColor.Red).Linkage ≠ SpaceLinkage.Unlinked ∧
    PutSpaceAtCoordinateIfEmpty ⟨[[Space.zero, Space.zero]]⟩ 0 7
        (Space.mk SpaceContent.Pill SpaceLinkage.Up SpaceColor.Red) =
      (⟨[[Space.zero, Space.zero]]⟩, some BoardError.singleLinked) :=
  ⟨by decide, putSpace_linked_rejected ⟨[[Space.zero, Space.zero]]⟩ 0 7
    (Space.mk SpaceContent.Pill SpaceLinkage.Up SpaceColor.Red) (by decide)⟩

/-- C4: for an `Unlinked` cell, `PutSpaceAtCoordinateIfEmpty y x cell` succeeds exactly when
`(y, x)` is in bounds and the cell there is `Empty`; on success the field holds the given
cell at `(y, x)` and every other coordinate reads as before; on failure the field is
returned unchanged. -/
theorem putSpace_unlinked_succeeds_iff (field : PlayField) (y x : Int) (space : Space)
    (h : space.Linkage = SpaceLinkage.Unlinked) :
    ((PutSpaceAtCoordinateIfEmpty field y x space).2 = none ↔
      InBounds field y x ∧ (spaceAt field y.toNat x.toNat).Content = SpaceContent.Empty) ∧
    ((PutSpaceAtCoordinateIfEmpty field y x space).2 = none →
      GetSpaceAtCoordinate (PutSpaceAtCoordinateIfEmpty field y x space).1 y x = Except.ok space ∧
      ∀ y1 x1, ¬ (y1 = y ∧ x1 = x) →
        GetSpaceAtCoordinate (PutSpaceAtCoordinateIfEmpty field y x space).1 y1 x1 =
          GetSpaceAtCoordinate field y1 x1) ∧
    ((PutSpaceAtCoordinateIfEmpty field y x space).2 ≠ none →
      (PutSpaceAtCoordinateIfEmpty field y x space).1 = field) := by
  have hn : ¬ space.Linkage ≠ SpaceLinkage.Unlinked := fun hc => hc h
  unfold PutSpaceAtCoordinateIfEmpty
  rw [if_neg hn]
  cases hc : checkCoordinateInBoundsAndEmpty field y x with
  | some err =>
    have hne : ¬ (InBounds field y x ∧
        (spaceAt field y.toNat x.toNat).Content = SpaceContent.Empty) := by
      rw [← checkCoordinateInBoundsAndEmpty_eq_none_iff, hc]; simp
    simp [hne]
  | none =>
    have hb := (checkCoordinateInBoundsAndEmpty_eq_none_iff field y x).mp hc
    show (((putSpaceAtCoordinate field y x space).2 = none ↔ _) ∧
      ((putSpaceAtCoordinate field y x space).2 = none → _) ∧
      ((putSpaceAtCoordinate field y x space).2 ≠ none → _))
    rw [putSpaceAtCoordinate_of_inBounds field y x space hb.1]
    refine ⟨⟨fun _ => hb, fun _ => rfl⟩, fun _ => ⟨?_, ?_⟩, fun hc2 => absurd rfl hc2⟩
    · exact getSpace_gridSet_same field y x space hb.1
    · intro y1 x1 hne
      exact getSpace_gridSet_other field y x space y1 x1 hb.1 hne

theorem putSpace_unlinked_succeeds_iff_witness :
    (Space.mk SpaceContent.Virus SpaceLinkage.Unlinked SpaceColor.Blue).Linkage =
      SpaceLinkage.Unlinked ∧
    (PutSpaceAtCoordinateIfEmpty ⟨[[Space.zero, Space.zero]]⟩ 0 1
        (Space.mk SpaceContent.Virus SpaceLinkage.Unlinked SpaceColor.Blue)).2 = none ∧
    GetSpaceAtCoordinate (PutSpaceAtCoordinateIfEmpty ⟨[[Space.zero, Space.zero]]⟩ 0 1
        (Space.mk SpaceContent.Virus SpaceLinkage.Unlinked SpaceColor.Blue)).1 0 1 =
      Except.ok (Space.mk SpaceContent.Virus SpaceLinkage.Unlinked SpaceColor.Blue) :=
  ⟨by decide, by decide,
    ((putSpace_unlinked_succeeds_iff ⟨[[Space.zero, Space.zero]]⟩ 0 1
      (Space.mk SpaceContent.Virus SpaceLinkage.Unlinked SpaceColor.Blue) (by decide)).2.1
        (by decide)).1⟩

theorem getSpace_error_of_not_inBounds (field : PlayField) (y x : Int)
    (h : ¬ InBounds field y x) :
    ∃ err, GetSpaceAtCoordinate field y x = Except.error err ∧ err.isOutOfBounds = true := by
  unfold GetSpaceAtCoordinate
  cases hc : checkCoordinateInBounds field y x with
  | some err => exact ⟨err, rfl, checkCoordinateInBounds_isOutOfBounds field y x err hc⟩
  | none => exact absurd ((checkCoordinateInBounds_eq_none_iff field y x).mp hc) h

theorem checkEmpty_error_of_not_inBounds (field : PlayField) (y x : Int)
    (h : ¬ InBounds field y x) :
    ∃ err, checkCoordinateInBoundsAndEmpty field y x = some err ∧ err.isOutOfBounds = true := by
  unfold checkCoordinateInBoundsAndEmpty
  cases hc : checkCoordinateInBounds field y x with
  | some err => exact ⟨err, rfl, checkCoordinateInBounds_isOutOfBounds field y x err hc⟩
  | none => exact absurd ((checkCoordinateInBounds_eq_none_iff field y x).mp hc) h

/-- C5 (the claim as stated fails): at a coordinate outside a one-cell field,
`PutSpaceAtCoordinateIfEmpty` with a linked cell fails with "cannot put a single linked
space" and `PutTwoLinkedSpacesAtCoordinate` with an unlinked first cell fails with "cannot
put an unlinked space"; neither is an out-of-bounds error. -/
theorem outOfBounds_error_depends_on_cells :
    ¬ InBounds ⟨[[Space.zero]]⟩ 5 5 ∧
    (PutSpaceAtCoordinateIfEmpty ⟨[[Space.zero]]⟩ 5 5
      (Space.mk SpaceContent.Pill SpaceLinkage.Up SpaceColor.Red)).2 =
        some BoardError.singleLinked ∧
    BoardError.singleLinked.isOutOfBounds = false ∧
    (PutTwoLinkedSpacesAtCoordinate ⟨[[Space.zero]]⟩ 5 5
      (Space.mk SpaceContent.Pill SpaceLinkage.Unlinked SpaceColor.Red)
      (Space.mk SpaceContent.Pill SpaceLinkage.Unlinked SpaceColor.Red)).2 =
        some BoardError.unlinkedPair ∧
    BoardError.unlinkedPair.isOutOfBounds = false := by
  decide

/-- C5 (amended): for every field and every coordinate that is not in bounds,
`GetSpaceAtCoordinate` fails with an out-of-bounds error; `PutSpaceAtCoordinateIfEmpty` fails
with an out-of-bounds error when the cell it is given is `Unlinked`; and
`PutTwoLinkedSpacesAtCoordinate` fails with an out-of-bounds error when its cells pass the
checks made before the coordinate is looked at (first cell linked, both pills, second cell
linked the opposite way).  Both placements return the field unchanged. -/
theorem outOfBounds_error_when_cells_valid (field : PlayField) (y x : Int)
    (h : ¬ InBounds field y x) :
    (∃ err, GetSpaceAtCoordinate field y x = Except.error err ∧ err.isOutOfBounds = true) ∧
    (∀ space : Space, space.Linkage = SpaceLinkage.Unlinked →
      ∃ err, PutSpaceAtCoordinateIfEmpty field y x space = (field, some err) ∧
        err.isOutOfBounds = true) ∧
    (∀ a b : Space, a.Linkage ≠ SpaceLinkage.Unlinked → a.Content = SpaceContent.Pill →
      b.Content = SpaceContent.Pill → b.Linkage = getOpposingLinkage a.Linkage →
      ∃ err, PutTwoLinkedSpacesAtCoordinate field y x a b = (field, some err) ∧
        err.isOutOfBounds = true) := by
  refine ⟨getSpace_error_of_not_inBounds field y x h, ?_, ?_⟩
  · intro space hs
    obtain ⟨err, he, ho⟩ := checkEmpty_error_of_not_inBounds field y x h
    refine ⟨err, ?_, ho⟩
    unfold PutSpaceAtCoordinateIfEmpty
    rw [if_neg (fun hc => hc hs), he]
  · intro a b h1 h2 h3 h4
    obtain ⟨err, he, ho⟩ := checkEmpty_error_of_not_inBounds field y x h
    refine ⟨err, ?_, ho⟩
    unfold PutTwoLinkedSpacesAtCoordinate
    have h5 : ¬ (a.Content ≠ SpaceContent.Pill ∨ b.Content ≠ SpaceContent.Pill) := by
      intro hc; rcases hc with hc | hc
      · exact hc h2
      · exact hc h3
    rw [if_neg h1, if_neg h5, linkageSwitchRejects_of_opposite a.Linkage b.Linkage h4, he]
    simp

theorem outOfBounds_error_when_cells_valid_witness :
    ¬ InBounds ⟨[[Space.zero]]⟩ 0 1 ∧
    ∃ err, PutTwoLinkedSpacesAtCoordinate ⟨[[Space.zero]]⟩ 0 1
        (Space.mk SpaceContent.Pill SpaceLinkage.Left SpaceColor.Red)
        (Space.mk SpaceContent.Pill SpaceLinkage.Right SpaceColor.Blue) =
          (⟨[[Space.zero]]⟩, some err) ∧ err.isOutOfBounds = true :=
  ⟨by decide, (outOfBounds_error_when_cells_valid ⟨[[Space.zero]]⟩ 0 1 (by decide)).2.2
    (Space.mk SpaceContent.Pill SpaceLinkage.Left SpaceColor.Red)
    (Space.mk SpaceContent.Pill SpaceLinkage.Right SpaceColor.Blue)
    (by decide) rfl rfl rfl⟩

theorem gridRow_replicate {α : Type} (n : Nat) (row : List α) (y : Nat) (h : y < n) :
    gridRow (List.replicate n row) y = row := by
  simp [gridRow, List.getElem?_replicate, h]

/-- C6: for width and height at least 1, `NewPlayField width height` returns a field with
`GetWidth = width`, `GetHeight = height`, `GetBottomRowIndex = height - 1`, on which
`GetSpaceAtCoordinate` succeeds at every in-bounds coordinate and returns the cell with
content `Empty`, colour `Uncolored` and linkage `Unlinked`. -/
theorem newPlayField_empty (width height : Int) (hw : 1 ≤ width) (hh : 1 ≤ height) :
    ∃ field, NewPlayField width height = some field ∧
      GetWidth field = some width ∧ GetHeight field = height ∧
      GetBottomRowIndex field = height - 1 ∧
      ∀ y x : Int, 0 ≤ y → y < height → 0 ≤ x → x < width →
        GetSpaceAtCoordinate field y x =
          Except.ok ⟨SpaceContent.Empty, SpaceLinkage.Unlinked, SpaceColor.Uncolored⟩ := by
  refine ⟨⟨List.replicate height.toNat (List.replicate width.toNat Space.zero)⟩, ?_, ?_, ?_, ?_, ?_⟩
  · unfold NewPlayField
    rw [if_neg (by omega), if_neg (by omega), if_neg (by omega)]
  · unfold GetWidth
    obtain ⟨n, hn⟩ : ∃ n, height.toNat = n + 1 := ⟨height.toNat - 1, by omega⟩
    simp only [hn, List.replicate_succ, List.length_replicate]
    congr 1
    omega
  · simp only [GetHeight, List.length_replicate]; omega
  · simp only [GetBottomRowIndex, List.length_replicate]; omega
  · intro y x h1 h2 h3 h4
    rw [getSpace_ok_iff]
    have hy : y.toNat < height.toNat := by omega
    have hx : x.toNat < width.toNat := by omega
    refine ⟨⟨h1, by simp only [List.length_replicate]; omega, h3, ?_⟩, ?_⟩
    · simp only [gridRow_replicate _ _ _ hy, List.length_replicate]; omega
    · simp [spaceAt, gridGet?, gridRow_replicate _ _ _ hy, List.getElem?_replicate, hx, Space.zero]

theorem newPlayField_empty_witness :
    (1 : Int) ≤ 8 ∧ (1 : Int) ≤ 16 ∧
    ∃ field, NewPlayField 8 16 = some field ∧
      GetWidth field = some 8 ∧ GetHeight field = 16 ∧
      GetBottomRowIndex field = 16 - 1 ∧
      ∀ y x : Int, 0 ≤ y → y < 16 → 0 ≤ x → x < 8 →
        GetSpaceAtCoordinate field y x =
          Except.ok ⟨SpaceContent.Empty, SpaceLinkage.Unlinked, SpaceColor.Uncolored⟩ :=
  ⟨by decide, by decide, newPlayField_empty 8 16 (by decide) (by decide)⟩

/-- With width 0 and height 5, and with width 5 and height 0, `NewPlayField` does not stop:
it returns a field, of five rows without cells and of no row. -/
theorem newPlayField_zero_dimension_returns :
    NewPlayField 0 5 = some ⟨[[], [], [], [], []]⟩ ∧ NewPlayField 5 0 = some ⟨[]⟩ := by
  decide

/-- C7: when a dimension is not positive, `NewPlayField` does not return a usable grid.  It
ends in a runtime fault, or the field it returns has no cell: no coordinate is in bounds,
`GetSpaceAtCoordinate` fails with an out-of-bounds error at every coordinate, and every
placement, of one cell or of two, fails. -/
theorem newPlayField_nonpositive (width height : Int) (h : width ≤ 0 ∨ height ≤ 0) :
    NewPlayField width height = none ∨
    ∃ field, NewPlayField width height = some field ∧
      (∀ y x : Int, ¬ InBounds field y x) ∧
      (∀ y x : Int, ∃ err, GetSpaceAtCoordinate field y x = Except.error err ∧
        err.isOutOfBounds = true) ∧
      (∀ (y x : Int) (space : Space),
        (PutSpaceAtCoordinateIfEmpty field y x space).2 ≠ none) ∧
      (∀ (y x : Int) (coordSpace linkedSpace : Space),
        (PutTwoLinkedSpacesAtCoordinate field y x coordSpace linkedSpace).2 ≠ none) := by
  have key : ∀ field : PlayField, (∀ y x : Int, ¬ InBounds field y x) →
      (∀ y x : Int, ¬ InBounds field y x) ∧
      (∀ y x : Int, ∃ err, GetSpaceAtCoordinate field y x = Except.error err ∧
        err.isOutOfBounds = true) ∧
      (∀ (y x : Int) (space : Space),
        (PutSpaceAtCoordinateIfEmpty field y x space).2 ≠ none) ∧
      (∀ (y x : Int) (coordSpace linkedSpace : Space),
        (PutTwoLinkedSpacesAtCoordinate field y x coordSpace linkedSpace).2 ≠ none) := by
    intro field hno
    refine ⟨hno, fun y x => getSpace_error_of_not_inBounds field y x (hno y x), ?_, ?_⟩
    · intro y x space
      unfold PutSpaceAtCoordinateIfEmpty
      split
      · simp
      · cases hc : checkCoordinateInBoundsAndEmpty field y x with
        | some err => simp
        | none =>
          exact absurd ((checkCoordinateInBoundsAndEmpty_eq_none_iff field y x).mp hc).1
            (hno y x)
    · intro y x a b
      rcases putTwoLinked_cases field y x a b with ⟨ly, lx, hacc, _⟩ | ⟨err, e, _⟩
      · exact absurd hacc.2.2.2.2.2.1 (hno y x)
      · rw [e]; simp
  unfold NewPlayField
  by_cases h1 : height < 0
  · left; rw [if_pos h1]
  rw [if_neg h1]
  by_cases h2 : height = 0
  · right
    rw [if_pos h2]
    refine ⟨_, rfl, key _ ?_⟩
    intro y x hb
    obtain ⟨a1, a2, _, _⟩ := hb
    simp at a2
    omega
  rw [if_neg h2]
  by_cases h3 : width < 0
  · left; rw [if_pos h3]
  rw [if_neg h3]
  right
  have hw : width = 0 := by omega
  subst hw
  refine ⟨_, rfl, key _ ?_⟩
  intro y x hb
  obtain ⟨a1, a2, a3, a4⟩ := hb
  simp only [List.length_replicate] at a2
  have hy : y.toNat < height.toNat := by omega
  simp [gridRow_replicate _ _ _ hy] at a4
  omega

theorem newPlayField_nonpositive_witness :
    ((0 : Int) ≤ 0 ∨ (5 : Int) ≤ 0) ∧
    (NewPlayField 0 5 = none ∨
    ∃ field, NewPlayField 0 5 = some field ∧
      (∀ y x : Int, ¬ InBounds field y x) ∧
      (∀ y x : Int, ∃ err, GetSpaceAtCoordinate field y x = Except.error err ∧
        err.isOutOfBounds = true) ∧
      (∀ (y x : Int) (space : Space),
        (PutSpaceAtCoordinateIfEmpty field y x space).2 ≠ none) ∧
      (∀ (y x : Int) (coordSpace linkedSpace : Space),
        (PutTwoLinkedSpacesAtCoordinate field y x coordSpace linkedSpace).2 ≠ none)) :=
  ⟨by decide, newPlayField_nonpositive 0 5 (by decide)⟩

/-- C8: when `(y, x)` is in bounds and holds a cell linked toward an in-bounds coordinate,
`clearSpace y x` succeeds; afterwards `(y, x)` holds the empty, uncoloured, unlinked cell,
the linked coordinate holds its former cell with the linkage reset to `Unlinked` (content
and colour as before), and every other coordinate reads as before. -/
theorem clearSpace_linked (field : PlayField) (y x ly lx : Int)
    (hb : InBounds field y x)
    (hlinked : (spaceAt field y.toNat x.toNat).Linkage ≠ SpaceLinkage.Unlinked)
    (hl : GetLinkedCoordinate y x (spaceAt field y.toNat x.toNat).Linkage = Except.ok (ly, lx))
    (hpb : InBounds field ly lx) :
    (clearSpace field y x).2 = none ∧
    GetSpaceAtCoordinate (clearSpace field y x).1 y x =
      Except.ok ⟨SpaceContent.Empty, SpaceLinkage.Unlinked, SpaceColor.Uncolored⟩ ∧
    GetSpaceAtCoordinate (clearSpace field y x).1 ly lx =
      Except.ok ⟨(spaceAt field ly.toNat lx.toNat).Content, SpaceLinkage.Unlinked,
        (spaceAt field ly.toNat lx.toNat).Color⟩ ∧
    ∀ y1 x1, ¬ (y1 = y ∧ x1 = x) → ¬ (y1 = ly ∧ x1 = lx) →
      GetSpaceAtCoordinate (clearSpace field y x).1 y1 x1 = GetSpaceAtCoordinate field y1 x1 := by
  have hg1 : GetSpaceAtCoordinate field y x = Except.ok (spaceAt field y.toNat x.toNat) :=
    (getSpace_ok_iff field y x _).mpr ⟨hb, rfl⟩
  have hg2 : GetSpaceAtCoordinate field ly lx = Except.ok (spaceAt field ly.toNat lx.toNat) :=
    (getSpace_ok_iff field ly lx _).mpr ⟨hpb, rfl⟩
  have hne : ¬ (ly = y ∧ lx = x) := getLinkedCoordinate_ne y x _ ly lx hl
  have hne2 : ¬ (y = ly ∧ x = lx) := fun ⟨e1, e2⟩ => hne ⟨e1.symm, e2.symm⟩
  have hb2 : InBounds ⟨gridSet field.spaces ly.toNat lx.toNat
      { spaceAt field ly.toNat lx.toNat with Linkage := SpaceLinkage.Unlinked }⟩ y x :=
    (inBounds_gridSet field _ _ _ y x).mpr hb
  have heq : clearSpace field y x =
      (⟨gridSet (gridSet field.spaces ly.toNat lx.toNat
        { spaceAt field ly.toNat lx.toNat with Linkage := SpaceLinkage.Unlinked })
        y.toNat x.toNat Space.zero⟩, none) := by
    unfold clearSpace
    rw [hg1]
    simp only [if_neg hlinked, hl, hg2]
    rw [putSpaceAtCoordinate_of_inBounds field ly lx _ hpb]
    simp only
    rw [putSpaceAtCoordinate_of_inBounds _ y x _ hb2]
  rw [heq]
  refine ⟨rfl, ?_, ?_, ?_⟩
  · exact getSpace_gridSet_same _ y x Space.zero hb2
  · rw [getSpace_gridSet_other _ y x Space.zero ly lx hb2 hne]
    exact getSpace_gridSet_same field ly lx _ hpb
  · intro y1 x1 h1 h2
    rw [getSpace_gridSet_other _ y x Space.zero y1 x1 hb2 h1]
    exact getSpace_gridSet_other field ly lx _ y1 x1 hpb h2

theorem clearSpace_linked_witness :
    InBounds samplePillRow 0 0 ∧
    (clearSpace samplePillRow 0 0).2 = none ∧
    GetSpaceAtCoordinate (clearSpace samplePillRow 0 0).1 0 0 =
      Except.ok ⟨SpaceContent.Empty, SpaceLinkage.Unlinked, SpaceColor.Uncolored⟩ ∧
    GetSpaceAtCoordinate (clearSpace samplePillRow 0 0).1 0 1 =
      Except.ok ⟨(spaceAt samplePillRow 0 1).Content, SpaceLinkage.Unlinked,
        (spaceAt samplePillRow 0 1).Color⟩ ∧
    ∀ y1 x1, ¬ (y1 = 0 ∧ x1 = 0) → ¬ (y1 = 0 ∧ x1 = 1) →
      GetSpaceAtCoordinate (clearSpace samplePillRow 0 0).1 y1 x1 =
        GetSpaceAtCoordinate samplePillRow y1 x1 :=
  ⟨by decide, clearSpace_linked samplePillRow 0 0 0 1 (by decide) (by decide) rfl
    (by decide)⟩

/-! ## Shapes -/

theorem shapeOf_length {α β : Type} (g : List (List α)) (h : List (List β))
    (e : shapeOf g = shapeOf h) : g.length = h.length := by
  have := congrArg List.length e
  simpa [shapeOf] using this

theorem shapeOf_gridRow_length {α β : Type} (g : List (List α)) (h : List (List β))
    (e : shapeOf g = shapeOf h) (y : Nat) : (gridRow g y).length = (gridRow h y).length := by
  have e2 : (shapeOf g)[y]? = (shapeOf h)[y]? := by rw [e]
  simp only [shapeOf, List.getElem?_map] at e2
  unfold gridRow
  cases hg : g[y]? with
  | none =>
    cases hh : h[y]? with
    | none => rfl
    | some r => rw [hg, hh] at e2; simp at e2
  | some r =>
    cases hh : h[y]? with
    | none => rw [hg, hh] at e2; simp at e2
    | some r2 => rw [hg, hh] at e2; simpa using e2

theorem shapeOf_gridSet {α : Type} (g : List (List α)) (y x : Nat) (v : α) :
    shapeOf (gridSet g y x v) = shapeOf g := by
  apply List.ext_getElem?
  intro i
  simp only [shapeOf, List.getElem?_map]
  have h1 := gridRow_gridSet_length g y x v i
  have hl := gridSet_length g y x v
  unfold gridRow at h1
  by_cases hi : i < g.length
  · have hi2 : i < (gridSet g y x v).length := by rw [hl]; exact hi
    rw [List.getElem?_eq_getElem hi, List.getElem?_eq_getElem hi2] at h1 ⊢
    simpa using h1
  · have hi1 : g.length ≤ i := Nat.le_of_not_lt hi
    have hi2 : (gridSet g y x v).length ≤ i := by rw [hl]; exact hi1
    rw [List.getElem?_eq_none hi1, List.getElem?_eq_none hi2]

theorem shapeOf_map_map {α β : Type} (g : List (List α)) (f : α → β) :
    shapeOf (g.map (fun row => row.map f)) = shapeOf g := by
  simp [shapeOf, Function.comp_def]

theorem gridGet?_eq_some_getD {α : Type} (g : List (List α)) (y x : Nat) (d : α)
    (h : x < (gridRow g y).length) : gridGet? g y x = some ((gridGet? g y x).getD d) := by
  have h2 := (gridGet?_isSome_iff g y x).mpr h
  cases hg : gridGet? g y x with
  | none => rw [hg] at h2; simp at h2
  | some w => rfl

/-! ## The docked-field search terminates -/

theorem count_false_set_true (l : List Bool) (x : Nat) (h : l[x]? = some false) :
    (l.set x true).count false + 1 = l.count false := by
  induction l generalizing x with
  | nil => simp at h
  | cons b bs ih =>
    cases x with
    | zero =>
      simp at h
      subst h
      simp
    | succ n =>
      simp at h
      have := ih n h
      cases b <;> simp [List.count_cons] <;> omega

theorem falseCount_gridSet (docked : List (List Bool)) (y x : Nat)
    (h : gridGet? docked y x = some false) :
    falseCount (gridSet docked y x true) + 1 = falseCount docked := by
  induction docked generalizing y with
  | nil => simp [gridGet?, gridRow] at h
  | cons r rs ih =>
    cases y with
    | zero =>
      simp [gridGet?, gridRow] at h
      have := count_false_set_true r x h
      simp [falseCount, gridSet, gridRow]
      omega
    | succ n =>
      have h2 : gridGet? rs n x = some false := by
        simpa [gridGet?, gridRow] using h
      have := ih n h2
      simp [falseCount, gridSet, gridRow] at this ⊢
      omega

theorem falseCount_emptyDockedField (field : PlayField) :
    falseCount (emptyDockedField field) = cellCount field := by
  unfold falseCount emptyDockedField cellCount
  induction field.spaces with
  | nil => rfl
  | cons r rs ih =>
    have hr : (r.map (fun _ => false)).count false = r.length := by
      induction r with
      | nil => rfl
      | cons a as iha => simp [List.count_cons, iha]
    simp only [List.map_cons, List.sum_cons, hr, ih]

theorem shapeOf_emptyDockedField (field : PlayField) :
    shapeOf (emptyDockedField field) = shapeOf field.spaces :=
  shapeOf_map_map field.spaces (fun _ => false)

theorem shapeOf_emptyPlan (field : PlayField) :
    shapeOf (emptyPlan field) = shapeOf field.spaces :=
  shapeOf_map_map field.spaces (fun _ => NextIteration.NoAction)

/-- With fuel for every queued coordinate and two more per unmarked cell, the docked loop
empties its queue, and the docked field keeps the shape of the play field. -/
theorem dockedLoop_terminates (field : PlayField) :
    ∀ (fuel : Nat) (docked : List (List Bool)) (queue : List Coordinate),
      shapeOf docked = shapeOf field.spaces →
      queue.length + 2 * falseCount docked ≤ fuel →
      ∃ d, dockedLoop field fuel docked queue = some d ∧ shapeOf d = shapeOf field.spaces := by
  intro fuel
  induction fuel with
  | zero =>
    intro docked queue hs hf
    cases queue with
    | nil => exact ⟨docked, rfl, hs⟩
    | cons c rest => simp at hf
  | succ fuel ih =>
    intro docked queue hs hf
    cases queue with
    | nil => exact ⟨docked, by simp [dockedLoop], hs⟩
    | cons c rest =>
      simp only [List.length_cons] at hf
      rw [dockedLoop]
      split
      · exact ih docked rest hs (by omega)
      · next hb =>
        split
        · exact ih docked rest hs (by omega)
        · next hd =>
          split
          · exact ih docked rest hs (by omega)
          · have hin : InBounds field c.y c.x := by
              rw [← checkCoordinateInBounds_eq_none_iff]
              by_contra hc; exact hb hc
            have hx : c.x.toNat < (gridRow docked c.y.toNat).length := by
              rw [shapeOf_gridRow_length docked field.spaces hs]
              obtain ⟨_, _, h3, h4⟩ := hin; omega
            have hget : gridGet? docked c.y.toNat c.x.toNat = some false := by
              rw [gridGet?_eq_some_getD docked _ _ false hx]
              have : dockedAt docked c.y.toNat c.x.toNat = false := by
                cases hv : dockedAt docked c.y.toNat c.x.toNat with
                | true => exact absurd hv hd
                | false => rfl
              unfold dockedAt at this
              rw [this]
            have hfc := falseCount_gridSet docked _ _ hget
            apply ih
            · rw [shapeOf_gridSet]; exact hs
            · simp only [List.length_append]
              split <;> split <;> simp <;> omega

theorem generateDockedField_total (field : PlayField) :
    ∃ docked, generateDockedField field = some docked ∧
      shapeOf docked = shapeOf field.spaces := by
  unfold generateDockedField
  apply dockedLoop_terminates
  · exact shapeOf_emptyDockedField field
  · rw [falseCount_emptyDockedField]

/-! ## Loops over index ranges -/

theorem foldl_range_invariant {σ : Type} (f : σ → Nat → σ) (P : Nat → σ → Prop) (n : Nat)
    (s0 : σ) (h0 : P 0 s0) (hstep : ∀ i s, i < n → P i s → P (i + 1) (f s i)) :
    P n ((List.range n).foldl f s0) := by
  induction n with
  | zero => simpa using h0
  | succ k ih =>
    rw [List.range_succ, List.foldl_append]
    simp only [List.foldl_cons, List.foldl_nil]
    apply hstep k _ (Nat.lt_succ_self k)
    exact ih (fun i s hi hp => hstep i s (Nat.lt_succ_of_lt hi) hp)

theorem foldlM_range_invariant {σ : Type} (f : σ → Nat → Option σ) (P : Nat → σ → Prop)
    (n : Nat) (s0 : σ) (h0 : P 0 s0)
    (hstep : ∀ i s, i < n → P i s → ∃ s1, f s i = some s1 ∧ P (i + 1) s1) :
    ∃ s1, (List.range n).foldlM f s0 = some s1 ∧ P n s1 := by
  induction n with
  | zero => exact ⟨s0, by simp, h0⟩
  | succ k ih =>
    obtain ⟨s1, h1, hp1⟩ := ih (fun i s hi hp => hstep i s (Nat.lt_succ_of_lt hi) hp)
    obtain ⟨s2, h2, hp2⟩ := hstep k s1 (Nat.lt_succ_self k) hp1
    refine ⟨s2, ?_, hp2⟩
    rw [List.range_succ, List.foldlM_append, h1]
    simp [h2]

/-! ## Reading a plan after a write -/

theorem planAt_gridSet_same (plan : List (List NextIteration)) (y x : Nat) (v : NextIteration)
    (h : x < (gridRow plan y).length) : planAt (gridSet plan y x v) y x = v := by
  unfold planAt
  rw [gridGet?_gridSet_same plan y x v h]
  rfl

theorem planAt_gridSet_other (plan : List (List NextIteration)) (y x : Nat) (v : NextIteration)
    (y1 x1 : Nat) (h : ¬ (y1 = y ∧ x1 = x)) :
    planAt (gridSet plan y x v) y1 x1 = planAt plan y1 x1 := by
  unfold planAt
  rw [gridGet?_gridSet_other plan y x v y1 x1 h]

theorem spaceAt_inRange (field : PlayField) (y x : Nat)
    (h : spaceAt field y x ≠ Space.zero) :
    y < field.spaces.length ∧ x < (gridRow field.spaces y).length := by
  have hx : x < (gridRow field.spaces y).length := by
    by_contra hc
    apply h
    unfold spaceAt gridGet?
    rw [List.getElem?_eq_none (Nat.le_of_not_lt hc)]
    rfl
  refine ⟨?_, hx⟩
  by_contra hc
  rw [gridRow_length_le _ _ (Nat.le_of_not_lt hc)] at hx
  simp at hx

theorem undocked_inRange (field : PlayField) (docked : List (List Bool)) (y x : Nat)
    (h : Undocked field docked y x) :
    y < field.spaces.length ∧ x < (gridRow field.spaces y).length := by
  apply spaceAt_inRange
  intro hz
  have := h.1
  rw [hz] at this
  cases this

/-! ## Fall detection -/

/-- The fall-detection loops write `Fall` at exactly the undocked pills, leave every other
entry of the plan as it was, and set the flag exactly when there is an undocked pill. -/
theorem fallScan_spec (field : PlayField) (docked : List (List Bool))
    (plan0 : List (List NextIteration))
    (hs : shapeOf plan0 = shapeOf docked) (hd : shapeOf docked = shapeOf field.spaces) :
    shapeOf (fallScan field docked plan0).1 = shapeOf plan0 ∧
    (∀ y x, Undocked field docked y x →
      planAt (fallScan field docked plan0).1 y x = NextIteration.Fall) ∧
    (∀ y x, ¬ Undocked field docked y x →
      planAt (fallScan field docked plan0).1 y x = planAt plan0 y x) ∧
    ((fallScan field docked plan0).2 = true ↔ ∃ y x, Undocked field docked y x) := by
  have hlen : docked.length = field.spaces.length := shapeOf_length docked field.spaces hd
  have hrow : ∀ y, (gridRow docked y).length = (gridRow field.spaces y).length :=
    shapeOf_gridRow_length docked field.spaces hd
  have key := foldl_range_invariant
    (fun acc y =>
      (List.range (gridRow docked y).length).foldl
        (fun acc x => fallScanStep field docked y x acc) acc)
    (fun y (acc : List (List NextIteration) × Bool) =>
      shapeOf acc.1 = shapeOf plan0 ∧
      (∀ y1 x1, y1 < y → Undocked field docked y1 x1 → planAt acc.1 y1 x1 = NextIteration.Fall) ∧
      (∀ y1 x1, ¬ (y1 < y ∧ Undocked field docked y1 x1) → planAt acc.1 y1 x1 = planAt plan0 y1 x1) ∧
      (acc.2 = true ↔ ∃ y1 x1, y1 < y ∧ Undocked field docked y1 x1))
    docked.length (plan0, false)
    ⟨rfl, fun y1 x1 h => absurd h (Nat.not_lt_zero y1), fun _ _ _ => rfl,
      by simp⟩
    (by
      intro y acc hy ⟨i1, i2, i3, i4⟩
      have inner := foldl_range_invariant
        (fun acc x => fallScanStep field docked y x acc)
        (fun x (acc : List (List NextIteration) × Bool) =>
          shapeOf acc.1 = shapeOf plan0 ∧
          (∀ y1 x1, (y1 < y ∨ (y1 = y ∧ x1 < x)) → Undocked field docked y1 x1 →
            planAt acc.1 y1 x1 = NextIteration.Fall) ∧
          (∀ y1 x1, ¬ ((y1 < y ∨ (y1 = y ∧ x1 < x)) ∧ Undocked field docked y1 x1) →
            planAt acc.1 y1 x1 = planAt plan0 y1 x1) ∧
          (acc.2 = true ↔ ∃ y1 x1, (y1 < y ∨ (y1 = y ∧ x1 < x)) ∧ Undocked field docked y1 x1))
        (gridRow docked y).length acc
        (by
          refine ⟨i1, ?_, ?_, ?_⟩
          · intro y1 x1 h hu
            exact i2 y1 x1 (by omega) hu
          · intro y1 x1 h
            apply i3
            intro ⟨h1, h2⟩
            exact h ⟨Or.inl h1, h2⟩
          · rw [i4]
            constructor
            · rintro ⟨y1, x1, h1, h2⟩; exact ⟨y1, x1, Or.inl h1, h2⟩
            · rintro ⟨y1, x1, h1, h2⟩; exact ⟨y1, x1, by omega, h2⟩)
        (by
          intro x acc2 hx ⟨j1, j2, j3, j4⟩
          simp only [fallScanStep]
          by_cases hc : (spaceAt field y x).Content = SpaceContent.Pill ∧ dockedAt docked y x = false
          · rw [if_pos hc]
            have hxl : x < (gridRow acc2.1 y).length := by
              rw [shapeOf_gridRow_length acc2.1 plan0 j1, shapeOf_gridRow_length plan0 docked hs]
              exact hx
            refine ⟨by simp only [shapeOf_gridSet]; exact j1, ?_, ?_, ?_⟩
            · intro y1 x1 h hu
              by_cases he : y1 = y ∧ x1 = x
              · obtain ⟨e1, e2⟩ := he
                subst e1; subst e2
                exact planAt_gridSet_same _ _ _ _ hxl
              · simp only [planAt_gridSet_other _ _ _ _ _ _ he]
                exact j2 y1 x1 (by omega) hu
            · intro y1 x1 h
              have he : ¬ (y1 = y ∧ x1 = x) := by
                intro ⟨e1, e2⟩
                subst e1; subst e2
                exact h ⟨Or.inr ⟨rfl, Nat.lt_succ_self _⟩, hc⟩
              simp only [planAt_gridSet_other _ _ _ _ _ _ he]
              apply j3
              intro ⟨h1, h2⟩
              exact h ⟨by omega, h2⟩
            · simp only [true_iff]
              exact ⟨y, x, Or.inr ⟨rfl, Nat.lt_succ_self _⟩, hc⟩
          · rw [if_neg hc]
            refine ⟨j1, ?_, ?_, ?_⟩
            · intro y1 x1 h hu
              have he : ¬ (y1 = y ∧ x1 = x) := by
                intro ⟨e1, e2⟩
                subst e1; subst e2
                exact hc hu
              exact j2 y1 x1 (by omega) hu
            · intro y1 x1 h
              apply j3
              intro ⟨h1, h2⟩
              exact h ⟨by omega, h2⟩
            · rw [j4]
              constructor
              · rintro ⟨y1, x1, h1, h2⟩; exact ⟨y1, x1, by omega, h2⟩
              · rintro ⟨y1, x1, h1, h2⟩
                have he : ¬ (y1 = y ∧ x1 = x) := by
                  intro ⟨e1, e2⟩
                  subst e1; subst e2
                  exact hc h2
                exact ⟨y1, x1, by omega, h2⟩)
      obtain ⟨k1, k2, k3, k4⟩ := inner
      have hrange : ∀ y1 x1, Undocked field docked y1 x1 → y1 = y →
          x1 < (gridRow docked y).length := by
        intro y1 x1 hu e
        subst e
        rw [hrow]
        exact (undocked_inRange field docked y1 x1 hu).2
      refine ⟨k1, ?_, ?_, ?_⟩
      · intro y1 x1 h hu
        apply k2 y1 x1 _ hu
        have := hrange y1 x1 hu
        omega
      · intro y1 x1 h
        apply k3
        intro ⟨h1, h2⟩
        exact h ⟨by omega, h2⟩
      · rw [k4]
        constructor
        · rintro ⟨y1, x1, h1, h2⟩; exact ⟨y1, x1, by omega, h2⟩
        · rintro ⟨y1, x1, h1, h2⟩
          have := hrange y1 x1 h2
          exact ⟨y1, x1, by omega, h2⟩)
  obtain ⟨r1, r2, r3, r4⟩ := key
  have hin : ∀ y x, Undocked field docked y x → y < docked.length := by
    intro y x hu
    rw [hlen]
    exact (undocked_inRange field docked y x hu).1
  refine ⟨r1, ?_, ?_, ?_⟩
  · intro y x hu
    exact r2 y x (hin y x hu) hu
  · intro y x hn
    exact r3 y x (fun ⟨_, h2⟩ => hn h2)
  · unfold fallScan
    rw [r4]
    constructor
    · rintro ⟨y1, x1, _, h2⟩; exact ⟨y1, x1, h2⟩
    · rintro ⟨y1, x1, h2⟩; exact ⟨y1, x1, hin y1 x1 h2, h2⟩

/-! ## The streak scan as a scan of one line -/

theorem markRow_eq_markLine (plan : List (List NextIteration)) (y start x : Nat) :
    markRow plan y start x = markLine (fun i => (y, i)) plan start x := rfl

theorem markCol_eq_markLine (plan : List (List NextIteration)) (x start y : Nat) :
    markCol plan x start y = markLine (fun i => (i, x)) plan start y := rfl

theorem flushRow_eq_flushLine (y x : Nat) (st : ScanState) :
    flushRow y x st = flushLine (fun i => (y, i)) x st := rfl

theorem flushCol_eq_flushLine (x y : Nat) (st : ScanState) :
    flushCol x y st = flushLine (fun i => (i, x)) y st := rfl

theorem rowLoop_eq_lineLoop (field : PlayField) (y : Nat) :
    ∀ (fuel x : Nat) (st : ScanState),
      rowLoop field y fuel x st =
        (lineLoop (fun i => decide (checkCoordinateInBounds field y i ≠ none))
          (fun i => colorAt field y i) (fun i => (y, i)) fuel x st).map resetStreak := by
  intro fuel
  induction fuel with
  | zero => intro x st; rfl
  | succ fuel ih =>
    intro x st
    rw [rowLoop, lineLoop]
    by_cases h1 : checkCoordinateInBounds field y x ≠ none
    · simp only [h1, if_true, decide_True, not_false_eq_true, Option.map_some',
        flushRow_eq_flushLine, resetStreak, ne_eq]
    · by_cases h2 : (spaceAt field y x).Color = st.currentColor
      · simp only [h1, h2, colorAt, if_true, if_false, decide_False, Bool.false_eq_true, ih]
      · simp only [h1, h2, colorAt, if_false, decide_False, Bool.false_eq_true, ih,
          flushRow_eq_flushLine]

theorem colLoop_eq_lineLoop (field : PlayField) (x : Nat) :
    ∀ (fuel y : Nat) (st : ScanState),
      colLoop field x fuel y st =
        lineLoop (fun i => decide (checkCoordinateInBounds field i x ≠ none))
          (fun i => colorAt field i x) (fun i => (i, x)) fuel y st := by
  intro fuel
  induction fuel with
  | zero => intro y st; rfl
  | succ fuel ih =>
    intro y st
    rw [colLoop, lineLoop]
    by_cases h1 : checkCoordinateInBounds field y x ≠ none
    · simp only [h1, if_true, decide_True, not_false_eq_true, flushCol_eq_flushLine, ne_eq]
    · by_cases h2 : (spaceAt field y x).Color = st.currentColor
      · simp only [h1, h2, colorAt, if_true, if_false, decide_False, Bool.false_eq_true, ih]
      · simp only [h1, h2, colorAt, if_false, decide_False, Bool.false_eq_true, ih,
          flushCol_eq_flushLine]

/-! ## The marking loop -/

theorem planFrame_refl (p : List (List NextIteration)) : PlanFrame p p :=
  ⟨rfl, fun _ _ => Or.inl rfl⟩

theorem planFrame_trans (p q r : List (List NextIteration)) (h1 : PlanFrame p q)
    (h2 : PlanFrame q r) : PlanFrame p r := by
  refine ⟨h2.1.trans h1.1, ?_⟩
  intro y x
  rcases h2.2 y x with h | h
  · rcases h1.2 y x with h3 | h3
    · left; rw [h, h3]
    · right; rw [h, h3]
  · right; exact h

theorem planFrame_gridSet (p : List (List NextIteration)) (y x : Nat) :
    PlanFrame p (gridSet p y x NextIteration.Clear) := by
  refine ⟨shapeOf_gridSet p y x _, ?_⟩
  intro y1 x1
  by_cases he : y1 = y ∧ x1 = x
  · obtain ⟨e1, e2⟩ := he
    subst e1; subst e2
    by_cases hx : x1 < (gridRow p y1).length
    · right; exact planAt_gridSet_same p y1 x1 _ hx
    · left
      unfold planAt
      rw [gridGet?_gridSet]
      have : gridGet? p y1 x1 = none := by
        unfold gridGet?
        exact List.getElem?_eq_none (Nat.le_of_not_lt hx)
      simp [this]
  · left; exact planAt_gridSet_other p y x _ y1 x1 he

/-- The marking loop over `m` positions from `a`: shape and frame, the positions it does
not visit, and the positions it visits. -/
theorem markFold_spec (cell : Nat → Nat × Nat) :
    ∀ (m a : Nat) (p : List (List NextIteration)),
      PlanFrame p ((List.range' a m).foldl
        (fun p i => gridSet p (cell i).1 (cell i).2 NextIteration.Clear) p) ∧
      (∀ y x, (∀ k, a ≤ k → k < a + m → cell k ≠ (y, x)) →
        planAt ((List.range' a m).foldl
          (fun p i => gridSet p (cell i).1 (cell i).2 NextIteration.Clear) p) y x =
          planAt p y x) ∧
      (∀ k, a ≤ k → k < a + m → (cell k).2 < (gridRow p (cell k).1).length →
        planAt ((List.range' a m).foldl
          (fun p i => gridSet p (cell i).1 (cell i).2 NextIteration.Clear) p)
          (cell k).1 (cell k).2 = NextIteration.Clear) := by
  intro m
  induction m with
  | zero =>
    intro a p
    refine ⟨planFrame_refl p, fun _ _ _ => rfl, ?_⟩
    intro k h1 h2
    omega
  | succ m ih =>
    intro a p
    simp only [List.range', List.foldl_cons]
    obtain ⟨f1, f2, f3⟩ := ih (a + 1) (gridSet p (cell a).1 (cell a).2 NextIteration.Clear)
    refine ⟨planFrame_trans _ _ _ (planFrame_gridSet p _ _) f1, ?_, ?_⟩
    · intro y x hne
      rw [f2 y x (fun k h1 h2 => hne k (by omega) (by omega))]
      apply planAt_gridSet_other
      intro ⟨e1, e2⟩
      exact hne a (Nat.le_refl a) (by omega) (Prod.ext e1.symm e2.symm)
    · intro k h1 h2 hk
      by_cases hka : k = a
      · subst hka
        rcases f1.2 (cell k).1 (cell k).2 with h | h
        · rw [h]
          exact planAt_gridSet_same p _ _ _ hk
        · exact h
      · apply f3 k (by omega) (by omega)
        rw [gridRow_gridSet_length]
        exact hk

theorem markLine_frame (cell : Nat → Nat × Nat) (p : List (List NextIteration)) (a b : Nat) :
    PlanFrame p (markLine cell p a b) :=
  (markFold_spec cell (b - a) a p).1

theorem markLine_other (cell : Nat → Nat × Nat) (p : List (List NextIteration)) (a b : Nat)
    (y x : Nat) (h : ∀ k, a ≤ k → k < b → cell k ≠ (y, x)) :
    planAt (markLine cell p a b) y x = planAt p y x :=
  (markFold_spec cell (b - a) a p).2.1 y x (fun k h1 h2 => h k h1 (by omega))

theorem markLine_marked (cell : Nat → Nat × Nat) (p : List (List NextIteration)) (a b : Nat)
    (k : Nat) (h1 : a ≤ k) (h2 : k < b) (hk : (cell k).2 < (gridRow p (cell k).1).length) :
    planAt (markLine cell p a b) (cell k).1 (cell k).2 = NextIteration.Clear :=
  (markFold_spec cell (b - a) a p).2.2 k h1 (by omega) hk

theorem flushLine_frame (cell : Nat → Nat × Nat) (i : Nat) (st : ScanState) :
    PlanFrame st.plan (flushLine cell i st).plan := by
  unfold flushLine
  split
  · exact markLine_frame cell st.plan _ _
  · exact planFrame_refl _

/-- Totality and frame of the scan of one line: if position `n` fails the bounds test, the
loop started at `i ≤ n` with `n + 1 - i` units of fuel returns, and its plan differs from
the one it started with only in entries it set to `Clear`. -/
theorem lineLoop_total (oob : Nat → Bool) (col : Nat → SpaceColor) (cell : Nat → Nat × Nat)
    (n : Nat) (hn : oob n = true) :
    ∀ (fuel i : Nat) (st : ScanState), i ≤ n → n + 1 ≤ fuel + i →
      ∃ st1, lineLoop oob col cell fuel i st = some st1 ∧ PlanFrame st.plan st1.plan := by
  intro fuel
  induction fuel with
  | zero => intro i st h1 h2; omega
  | succ fuel ih =>
    intro i st h1 h2
    rw [lineLoop]
    by_cases ho : oob i = true
    · rw [if_pos ho]
      exact ⟨_, rfl, flushLine_frame cell i st⟩
    · rw [if_neg ho]
      have hlt : i < n := by
        rcases Nat.lt_or_ge i n with h | h
        · exact h
        · have : i = n := Nat.le_antisymm h1 h
          subst this
          exact absurd hn ho
      split
      · exact ih (i + 1) _ (by omega) (by omega)
      · obtain ⟨st1, e1, f1⟩ := ih (i + 1)
          { flushLine cell i st with currentStreak := 1, currentColor := col i }
          (by omega) (by omega)
        exact ⟨st1, e1, planFrame_trans _ _ _ (flushLine_frame cell i st) f1⟩

/-! ## The scans return and only add `Clear` marks -/

theorem checkCoordinateInBounds_row_end (field : PlayField) (y : Nat) :
    checkCoordinateInBounds field y ((gridRow field.spaces y).length : Nat) ≠ none := by
  intro h
  obtain ⟨_, _, _, h4⟩ := (checkCoordinateInBounds_eq_none_iff field _ _).mp h
  simp at h4

theorem checkCoordinateInBounds_col_end (field : PlayField) (x : Nat) :
    checkCoordinateInBounds field (field.spaces.length : Nat) x ≠ none := by
  intro h
  obtain ⟨_, h2, _, _⟩ := (checkCoordinateInBounds_eq_none_iff field _ _).mp h
  simp at h2

theorem rowScan_total (field : PlayField) (st : ScanState) :
    ∃ st1, rowScan field st = some st1 ∧ PlanFrame st.plan st1.plan := by
  unfold rowScan
  apply foldlM_range_invariant
    (fun st y => rowLoop field y ((gridRow field.spaces y).length + 1) 0 st)
    (fun _ s => PlanFrame st.plan s.plan)
  · exact planFrame_refl _
  · intro y s _ hp
    obtain ⟨s1, e1, f1⟩ := lineLoop_total
      (fun i => decide (checkCoordinateInBounds field y i ≠ none))
      (fun i => colorAt field y i) (fun i => (y, i)) (gridRow field.spaces y).length
      (by simpa using checkCoordinateInBounds_row_end field y)
      ((gridRow field.spaces y).length + 1) 0 s (Nat.zero_le _) (by omega)
    refine ⟨resetStreak s1, ?_, planFrame_trans _ _ _ hp f1⟩
    simp only [rowLoop_eq_lineLoop, e1, Option.map_some']

theorem colScan_total (field : PlayField) (st : ScanState) (hne : field.spaces ≠ []) :
    ∃ st1, colScan field st = some st1 ∧ PlanFrame st.plan st1.plan := by
  unfold colScan
  cases hsp : field.spaces with
  | nil => exact absurd hsp hne
  | cons row0 rest =>
    simp only
    rw [← hsp]
    apply foldlM_range_invariant
      (fun st x => colLoop field x (field.spaces.length + 1) 0
        { st with currentStreak := 0, currentColor := SpaceColor.Uncolored })
      (fun _ s => PlanFrame st.plan s.plan)
    · exact planFrame_refl _
    · intro x s _ hp
      obtain ⟨s1, e1, f1⟩ := lineLoop_total
        (fun i => decide (checkCoordinateInBounds field i x ≠ none))
        (fun i => colorAt field i x) (fun i => (i, x)) field.spaces.length
        (by simpa using checkCoordinateInBounds_col_end field x)
        (field.spaces.length + 1) 0
        { s with currentStreak := 0, currentColor := SpaceColor.Uncolored }
        (Nat.zero_le _) (by omega)
      refine ⟨s1, ?_, planFrame_trans _ _ _ hp f1⟩
      simp only [colLoop_eq_lineLoop, e1]

theorem planAt_emptyPlan (field : PlayField) (y x : Nat) :
    planAt (emptyPlan field) y x = NextIteration.NoAction := by
  unfold planAt gridGet? gridRow emptyPlan
  cases h1 : field.spaces[y]? with
  | none => simp [h1]
  | some row =>
    simp only [List.getElem?_map, h1, Option.map_some', Option.getD_some]
    cases h2 : row[x]? with
    | none => simp
    | some v => simp

/-- The plan after fall detection holds `Fall` at the undocked pills and `NoAction`
elsewhere. -/
theorem fallScan_emptyPlan (field : PlayField) (docked : List (List Bool))
    (hd : shapeOf docked = shapeOf field.spaces) (y x : Nat) :
    (Undocked field docked y x →
      planAt (fallScan field docked (emptyPlan field)).1 y x = NextIteration.Fall) ∧
    (¬ Undocked field docked y x →
      planAt (fallScan field docked (emptyPlan field)).1 y x = NextIteration.NoAction) := by
  obtain ⟨_, h2, h3, _⟩ := fallScan_spec field docked (emptyPlan field)
    ((shapeOf_emptyPlan field).trans hd.symm) hd
  refine ⟨h2 y x, fun hn => ?_⟩
  rw [h3 y x hn]
  exact planAt_emptyPlan field y x

/-! ## Fall detection takes priority -/

/-- C9: on a field with at least one row, `EvaluateBoardIteration` returns a plan in which
a cell is marked `Fall` exactly when its content is `Pill` and the docked field computed by
`generateDockedField` does not mark it; and whenever some cell is marked `Fall`, the
dominant action is `Fall` and no cell of the plan is marked `Clear`, whatever runs of equal
colour the field contains. -/
theorem evaluate_fall_iff (field : PlayField) (hne : field.spaces ≠ []) :
    ∃ docked plan dominant,
      generateDockedField field = some docked ∧
      EvaluateBoardIteration field = some (plan, dominant) ∧
      (∀ y x, planAt plan y x = NextIteration.Fall ↔
        ((spaceAt field y x).Content = SpaceContent.Pill ∧ dockedAt docked y x = false)) ∧
      ((∃ y x, planAt plan y x = NextIteration.Fall) →
        dominant = NextIteration.Fall ∧ ∀ y x, planAt plan y x ≠ NextIteration.Clear) := by
  obtain ⟨docked, hdock, hshape⟩ := generateDockedField_total field
  have hplan := fallScan_emptyPlan field docked hshape
  obtain ⟨_, _, _, hflag⟩ := fallScan_spec field docked (emptyPlan field)
    ((shapeOf_emptyPlan field).trans hshape.symm) hshape
  unfold EvaluateBoardIteration
  rw [hdock]
  simp only
  by_cases hfound : (fallScan field docked (emptyPlan field)).2 = true
  · rw [if_pos hfound]
    refine ⟨docked, _, _, rfl, rfl, ?_, ?_⟩
    · intro y x
      constructor
      · intro hf
        by_contra hc
        rw [(hplan y x).2 hc] at hf
        cases hf
      · intro hu
        exact (hplan y x).1 hu
    · intro _
      refine ⟨rfl, ?_⟩
      intro y x hc
      by_cases hu : Undocked field docked y x
      · rw [(hplan y x).1 hu] at hc; cases hc
      · rw [(hplan y x).2 hu] at hc; cases hc
  · rw [if_neg hfound]
    have hnone : ∀ y x, ¬ Undocked field docked y x := by
      intro y x hu
      exact hfound (hflag.mpr ⟨y, x, hu⟩)
    obtain ⟨st1, e1, f1⟩ := rowScan_total field
      ⟨0, SpaceColor.Uncolored, NextIteration.NoAction,
        (fallScan field docked (emptyPlan field)).1⟩
    obtain ⟨st2, e2, f2⟩ := colScan_total field st1 hne
    rw [e1]
    simp only
    rw [e2]
    have hnofall : ∀ y x, planAt st2.plan y x ≠ NextIteration.Fall := by
      intro y x hf
      rcases (planFrame_trans _ _ _ f1 f2).2 y x with h | h
      · rw [h] at hf
        simp only at hf
        rw [(hplan y x).2 (hnone y x)] at hf
        cases hf
      · rw [h] at hf; cases hf
    refine ⟨docked, _, _, rfl, rfl, ?_, ?_⟩
    · intro y x
      constructor
      · intro hf; exact absurd hf (hnofall y x)
      · intro hu; exact absurd hu (hnone y x)
    · rintro ⟨y, x, hf⟩
      exact absurd hf (hnofall y x)

theorem evaluate_fall_iff_witness :
    sampleFallAndRun.spaces ≠ [] ∧
    ∃ docked plan dominant,
      generateDockedField sampleFallAndRun = some docked ∧
      EvaluateBoardIteration sampleFallAndRun = some (plan, dominant) ∧
      (∀ y x, planAt plan y x = NextIteration.Fall ↔
        ((spaceAt sampleFallAndRun y x).Content = SpaceContent.Pill ∧
          dockedAt docked y x = false)) ∧
      ((∃ y x, planAt plan y x = NextIteration.Fall) →
        dominant = NextIteration.Fall ∧ ∀ y x, planAt plan y x ≠ NextIteration.Clear) :=
  ⟨by decide, evaluate_fall_iff sampleFallAndRun (by decide)⟩

/-- On the sample with a floating pill above a row of four blue viruses the evaluator
answers `Fall`, and the plan holds a single `Fall` mark and no `Clear` mark. -/
theorem sampleFallAndRun_evaluation :
    EvaluateBoardIteration sampleFallAndRun =
      some ([[NextIteration.NoAction, NextIteration.NoAction, NextIteration.NoAction,
              NextIteration.NoAction, NextIteration.Fall],
             [NextIteration.NoAction, NextIteration.NoAction, NextIteration.NoAction,
              NextIteration.NoAction, NextIteration.NoAction]], NextIteration.Fall) := by
  decide

/-! ## The streak scan marks exactly the runs of four -/

/-- The streak never exceeds the position, so `x - currentStreak` in the flush block is
not negative. -/
theorem scan_streak_le (n : Nat) (col : Nat → SpaceColor) (cell : Nat → Nat × Nat)
    (p0 : List (List NextIteration)) (shape : List Nat) (i : Nat) (st : ScanState)
    (h : ScanInv n col cell p0 shape i st) : st.currentStreak ≤ i :=
  h.1

/-- A run that cannot be extended on either side is the only maximal run through each of
its cells. -/
theorem lineRun_unique (n : Nat) (col : Nat → SpaceColor) (s i k : Nat) (c : SpaceColor)
    (hs : s ≤ k) (hk : k < i) (hi : i ≤ n)
    (hall : ∀ j, s ≤ j → j < i → col j = c)
    (hleft : s = 0 ∨ col (s - 1) ≠ c) (hright : i = n ∨ col i ≠ c)
    (hrun : LineRun n col k) : 4 ≤ i - s := by
  obtain ⟨a, b, ha, hb, hbn, h4, hsame, hl, hr⟩ := hrun
  have hck : col k = c := hall k hs hk
  have hab : a = s := by
    rcases Nat.lt_trichotomy a s with h | h | h
    · exfalso
      rcases hleft with h0 | h0
      · omega
      · apply h0
        rw [← hck]
        exact hsame (s - 1) (by omega) (by omega)
    · exact h
    · exfalso
      rcases hl with h0 | h0
      · omega
      · apply h0
        rw [hck]
        exact hall (a - 1) (by omega) (by omega)
  have hbi : b = i := by
    rcases Nat.lt_trichotomy b i with h | h | h
    · exfalso
      rcases hr with h0 | h0
      · omega
      · apply h0
        rw [hck]
        exact hall b (by omega) h
    · exact h
    · exfalso
      rcases hright with h0 | h0
      · omega
      · apply h0
        rw [← hck]
        exact hsame i (by omega) h
  omega

/-- The flush block settles the streak that ends at position `i`, provided the streak
cannot be extended to the right. -/
theorem flushLine_done (n : Nat) (col : Nat → SpaceColor) (cell : Nat → Nat × Nat)
    (p0 : List (List NextIteration)) (shape : List Nat)
    (hcell : ∀ k, k < n → ∀ p : List (List NextIteration), shapeOf p = shape →
      (cell k).2 < (gridRow p (cell k).1).length)
    (i : Nat) (st : ScanState) (hi : i ≤ n)
    (hinv : ScanInv n col cell p0 shape i st)
    (hright : i = n ∨ col i ≠ st.currentColor) :
    ScanDone n col cell p0 shape i (flushLine cell i st).plan := by
  obtain ⟨h1, _, h3, h4, hG, hD1, hD2⟩ := hinv
  unfold flushLine
  by_cases hq : 4 ≤ st.currentStreak ∧ st.currentColor ≠ SpaceColor.Uncolored
  · rw [if_pos hq]
    simp only
    have hrun : ∀ k, i - st.currentStreak ≤ k → k < i →
        col k ≠ SpaceColor.Uncolored ∧ LineRun n col k := by
      intro k hk1 hk2
      have hck : col k = st.currentColor := h3 k hk1 hk2
      refine ⟨by rw [hck]; exact hq.2, i - st.currentStreak, i, hk1, hk2, hi, by omega, ?_, ?_, ?_⟩
      · intro j hj1 hj2
        rw [hck]; exact h3 j hj1 hj2
      · rw [hck]; exact h4
      · rw [hck]; exact hright
    refine ⟨(markLine_frame cell st.plan _ _).1.trans hG, ?_, ?_⟩
    · intro k hk hc hr
      by_cases hks : i - st.currentStreak ≤ k
      · exact markLine_marked cell st.plan _ _ k hks hk (hcell k (by omega) st.plan hG)
      · rcases (markLine_frame cell st.plan (i - st.currentStreak) i).2 (cell k).1 (cell k).2
          with h | h
        · rw [h]
          exact hD1 k (by omega) hc hr
        · exact h
    · intro y x hne
      rw [markLine_other cell st.plan _ _ y x
        (fun k hk1 hk2 => hne k hk2 (hrun k hk1 hk2).1 (hrun k hk1 hk2).2)]
      exact hD2 y x (fun k hk hc hr => hne k (by omega) hc hr)
  · rw [if_neg hq]
    have hbefore : ∀ k, k < i → col k ≠ SpaceColor.Uncolored → LineRun n col k →
        k < i - st.currentStreak := by
      intro k hk hc hr
      by_contra hks
      have hks2 : i - st.currentStreak ≤ k := Nat.le_of_not_lt hks
      have h4le := lineRun_unique n col (i - st.currentStreak) i k st.currentColor
        hks2 hk hi h3 h4 hright hr
      apply hq
      refine ⟨by omega, ?_⟩
      rw [← h3 k hks2 hk]
      exact hc
    refine ⟨hG, ?_, ?_⟩
    · intro k hk hc hr
      exact hD1 k (hbefore k hk hc hr) hc hr
    · intro y x hne
      exact hD2 y x (fun k hk hc hr => hne k (by omega) hc hr)

/-- The scan of a line of `n` cells, started anywhere with its invariant, returns with
every cell of the line settled. -/
theorem lineLoop_spec (oob : Nat → Bool) (col : Nat → SpaceColor) (cell : Nat → Nat × Nat)
    (n : Nat) (p0 : List (List NextIteration)) (shape : List Nat)
    (hoob : ∀ i, oob i = true ↔ n ≤ i)
    (hcell : ∀ k, k < n → ∀ p : List (List NextIteration), shapeOf p = shape →
      (cell k).2 < (gridRow p (cell k).1).length) :
    ∀ (fuel i : Nat) (st : ScanState), i ≤ n → n + 1 ≤ fuel + i →
      ScanInv n col cell p0 shape i st →
      ∃ st1, lineLoop oob col cell fuel i st = some st1 ∧
        ScanDone n col cell p0 shape n st1.plan := by
  intro fuel
  induction fuel with
  | zero => intro i st h1 h2; omega
  | succ fuel ih =>
    intro i st h1 h2 hinv
    rw [lineLoop]
    by_cases ho : oob i = true
    · rw [if_pos ho]
      have hin : i = n := Nat.le_antisymm h1 ((hoob i).mp ho)
      subst hin
      exact ⟨_, rfl, flushLine_done i col cell p0 shape hcell i st (Nat.le_refl i) hinv
        (Or.inl rfl)⟩
    · rw [if_neg ho]
      have hlt : i < n := by
        by_contra hc
        exact ho ((hoob i).mpr (Nat.le_of_not_lt hc))
      by_cases hc : col i = st.currentColor
      · rw [if_pos hc]
        apply ih (i + 1) _ (by omega) (by omega)
        obtain ⟨i1, i2, i3, i4, i5⟩ := hinv
        have e : i + 1 - (st.currentStreak + 1) = i - st.currentStreak := by omega
        unfold ScanInv
        simp only [e]
        refine ⟨by omega, Or.inr (by omega), ?_, i4, i5⟩
        intro k hk1 hk2
        by_cases hki : k = i
        · rw [hki]; exact hc
        · exact i3 k hk1 (by omega)
      · rw [if_neg hc]
        apply ih (i + 1) _ (by omega) (by omega)
        have hdone := flushLine_done n col cell p0 shape hcell i st (by omega) hinv (Or.inr hc)
        obtain ⟨i1, i2, i3, i4, i5⟩ := hinv
        unfold ScanInv
        simp only [Nat.add_sub_cancel]
        refine ⟨by omega, Or.inr (Nat.le_refl 1), ?_, ?_, hdone⟩
        · intro k hk1 hk2
          have : k = i := by omega
          rw [this]
        · rcases i2 with h0 | h0
          · left; exact h0
          · right
            intro hcontra
            apply hc
            rw [← hcontra]
            exact i3 (i - 1) (by omega) (by omega)

theorem inBounds_nat_iff (field : PlayField) (y x : Nat) :
    InBounds field (y : Int) (x : Int) ↔
      y < field.spaces.length ∧ x < (gridRow field.spaces y).length := by
  unfold InBounds
  simp only [Int.toNat_ofNat, Nat.cast_lt]
  constructor
  · rintro ⟨_, h2, _, h4⟩; exact ⟨h2, h4⟩
  · rintro ⟨h2, h4⟩; exact ⟨Int.ofNat_nonneg y, h2, Int.ofNat_nonneg x, h4⟩

theorem scanInv_start (n : Nat) (col : Nat → SpaceColor) (cell : Nat → Nat × Nat)
    (shape : List Nat) (st : ScanState) (hstreak : st.currentStreak = 0)
    (hshape : shapeOf st.plan = shape) : ScanInv n col cell st.plan shape 0 st := by
  unfold ScanInv ScanDone
  rw [hstreak]
  refine ⟨Nat.le_refl 0, Or.inl rfl, ?_, Or.inl rfl, hshape, ?_, fun _ _ _ => rfl⟩
  · intro k _ hk; omega
  · intro k hk; omega

/-- The scan of row `y` settles every cell of the row and leaves the streak reset. -/
theorem rowLoop_spec (field : PlayField) (y : Nat) (hy : y < field.spaces.length)
    (st : ScanState) (hstreak : st.currentStreak = 0)
    (hshape : shapeOf st.plan = shapeOf field.spaces) :
    ∃ st1, rowLoop field y ((gridRow field.spaces y).length + 1) 0 st = some st1 ∧
      st1.currentStreak = 0 ∧
      ScanDone (gridRow field.spaces y).length (fun i => colorAt field y i) (fun i => (y, i))
        st.plan (shapeOf field.spaces) (gridRow field.spaces y).length st1.plan := by
  obtain ⟨st1, e1, d1⟩ := lineLoop_spec
    (fun i => decide (checkCoordinateInBounds field y i ≠ none))
    (fun i => colorAt field y i) (fun i => (y, i)) (gridRow field.spaces y).length
    st.plan (shapeOf field.spaces)
    (by
      intro i
      simp only [decide_eq_true_eq, ne_eq, checkCoordinateInBounds_eq_none_iff,
        inBounds_nat_iff]
      constructor
      · intro h; by_contra hc; exact h ⟨hy, Nat.lt_of_not_le hc⟩
      · intro h ⟨_, h2⟩; omega)
    (by
      intro k hk p hp
      simp only
      rw [shapeOf_gridRow_length p field.spaces hp]
      exact hk)
    ((gridRow field.spaces y).length + 1) 0 st (Nat.zero_le _) (by omega)
    (scanInv_start _ _ _ _ st hstreak hshape)
  refine ⟨resetStreak st1, ?_, rfl, d1⟩
  simp only [rowLoop_eq_lineLoop, e1, Option.map_some']

/-- The scan of column `x` of a rectangular field settles every cell of the column. -/
theorem colLoop_spec (field : PlayField) (hrect : Rectangular field) (x : Nat)
    (hx : x < (gridRow field.spaces 0).length)
    (st : ScanState) (hstreak : st.currentStreak = 0)
    (hshape : shapeOf st.plan = shapeOf field.spaces) :
    ∃ st1, colLoop field x (field.spaces.length + 1) 0 st = some st1 ∧
      ScanDone field.spaces.length (fun i => colorAt field i x) (fun i => (i, x))
        st.plan (shapeOf field.spaces) field.spaces.length st1.plan := by
  obtain ⟨st1, e1, d1⟩ := lineLoop_spec
    (fun i => decide (checkCoordinateInBounds field i x ≠ none))
    (fun i => colorAt field i x) (fun i => (i, x)) field.spaces.length
    st.plan (shapeOf field.spaces)
    (by
      intro i
      simp only [decide_eq_true_eq, ne_eq, checkCoordinateInBounds_eq_none_iff,
        inBounds_nat_iff]
      constructor
      · intro h; by_contra hc
        have hi : i < field.spaces.length := Nat.lt_of_not_le hc
        exact h ⟨hi, by rw [hrect i hi]; exact hx⟩
      · intro h ⟨h1, _⟩; omega)
    (by
      intro k hk p hp
      simp only
      rw [shapeOf_gridRow_length p field.spaces hp, hrect k hk]
      exact hx)
    (field.spaces.length + 1) 0 st (Nat.zero_le _) (by omega)
    (scanInv_start _ _ _ _ st hstreak hshape)
  refine ⟨st1, ?_, d1⟩
  simp only [colLoop_eq_lineLoop, e1]

theorem rowClear_inRange (field : PlayField) (y x : Nat) (h : RowClear field y x) :
    x < (gridRow field.spaces y).length := by
  obtain ⟨_, a, b, _, h2, h3, _⟩ := h
  omega

theorem colClear_inRange (field : PlayField) (y x : Nat) (h : ColClear field y x) :
    y < field.spaces.length ∧ x < (gridRow field.spaces y).length := by
  apply spaceAt_inRange
  intro hz
  apply h.1
  unfold colorAt
  rw [hz]
  rfl

/-- The row scan marks exactly the coloured cells that lie in a run of four along their
row. -/
theorem rowScan_spec (field : PlayField) (st : ScanState) (hstreak : st.currentStreak = 0)
    (hshape : shapeOf st.plan = shapeOf field.spaces) :
    ∃ st1, rowScan field st = some st1 ∧
      shapeOf st1.plan = shapeOf field.spaces ∧
      (∀ y x, RowClear field y x → planAt st1.plan y x = NextIteration.Clear) ∧
      (∀ y x, ¬ RowClear field y x → planAt st1.plan y x = planAt st.plan y x) := by
  unfold rowScan
  obtain ⟨st1, e1, k1, k2, k3, k4⟩ := foldlM_range_invariant
    (fun st y => rowLoop field y ((gridRow field.spaces y).length + 1) 0 st)
    (fun y (s : ScanState) =>
      s.currentStreak = 0 ∧ shapeOf s.plan = shapeOf field.spaces ∧
      (∀ y1 x1, y1 < y → RowClear field y1 x1 → planAt s.plan y1 x1 = NextIteration.Clear) ∧
      (∀ y1 x1, ¬ (y1 < y ∧ RowClear field y1 x1) → planAt s.plan y1 x1 = planAt st.plan y1 x1))
    field.spaces.length st
    ⟨hstreak, hshape, fun y1 x1 h => absurd h (Nat.not_lt_zero y1), fun _ _ _ => rfl⟩
    (by
      intro y s hy ⟨i1, i2, i3, i4⟩
      obtain ⟨s1, es, hs0, hG, hD1, hD2⟩ := rowLoop_spec field y hy s i1 i2
      refine ⟨s1, es, hs0, hG, ?_, ?_⟩
      · intro y1 x1 hlt hc
        by_cases he : y1 = y
        · subst he
          exact hD1 x1 (rowClear_inRange field y1 x1 hc) hc.1 hc.2
        · rw [hD2 y1 x1 (fun k _ _ _ hk => he (congrArg Prod.fst hk).symm)]
          exact i3 y1 x1 (by omega) hc
      · intro y1 x1 hn
        rw [hD2 y1 x1 (by
          intro k hk hc hr hk2
          have e1 : y = y1 := congrArg Prod.fst hk2
          have e2 : k = x1 := congrArg Prod.snd hk2
          subst e1; subst e2
          exact hn ⟨Nat.lt_succ_self _, hc, hr⟩)]
        exact i4 y1 x1 (fun ⟨h1, h2⟩ => hn ⟨by omega, h2⟩))
  refine ⟨st1, e1, k2, ?_, ?_⟩
  · intro y x hc
    apply k3 y x _ hc
    by_contra hge
    have := rowClear_inRange field y x hc
    rw [gridRow_length_le _ _ (Nat.le_of_not_lt hge)] at this
    simp at this
  · intro y x hn
    exact k4 y x (fun ⟨_, h2⟩ => hn h2)

/-- The column scan of a rectangular field with at least one row marks exactly the
coloured cells that lie in a run of four along their column. -/
theorem colScan_spec (field : PlayField) (hne : field.spaces ≠ []) (hrect : Rectangular field)
    (st : ScanState) (hshape : shapeOf st.plan = shapeOf field.spaces) :
    ∃ st1, colScan field st = some st1 ∧
      shapeOf st1.plan = shapeOf field.spaces ∧
      (∀ y x, ColClear field y x → planAt st1.plan y x = NextIteration.Clear) ∧
      (∀ y x, ¬ ColClear field y x → planAt st1.plan y x = planAt st.plan y x) := by
  unfold colScan
  cases hsp : field.spaces with
  | nil => exact absurd hsp hne
  | cons row0 rest =>
    simp only
    rw [← hsp]
    have hw : row0.length = (gridRow field.spaces 0).length := by
      rw [hsp]; simp [gridRow]
    obtain ⟨st1, e1, k2, k3, k4⟩ := foldlM_range_invariant
      (fun st x => colLoop field x (field.spaces.length + 1) 0
        { st with currentStreak := 0, currentColor := SpaceColor.Uncolored })
      (fun x (s : ScanState) =>
        shapeOf s.plan = shapeOf field.spaces ∧
        (∀ y1 x1, x1 < x → ColClear field y1 x1 → planAt s.plan y1 x1 = NextIteration.Clear) ∧
        (∀ y1 x1, ¬ (x1 < x ∧ ColClear field y1 x1) →
          planAt s.plan y1 x1 = planAt st.plan y1 x1))
      row0.length st
      ⟨hshape, fun y1 x1 h => absurd h (Nat.not_lt_zero x1), fun _ _ _ => rfl⟩
      (by
        intro x s hx ⟨i2, i3, i4⟩
        obtain ⟨s1, es, hG, hD1, hD2⟩ := colLoop_spec field hrect x (by rw [← hw]; exact hx)
          { s with currentStreak := 0, currentColor := SpaceColor.Uncolored } rfl i2
        refine ⟨s1, es, hG, ?_, ?_⟩
        · intro y1 x1 hlt hc
          by_cases he : x1 = x
          · subst he
            exact hD1 y1 (colClear_inRange field y1 x1 hc).1 hc.1 hc.2
          · rw [hD2 y1 x1 (fun k _ _ _ hk => he (congrArg Prod.snd hk).symm)]
            exact i3 y1 x1 (by omega) hc
        · intro y1 x1 hn
          rw [hD2 y1 x1 (by
            intro k hk hc hr hk2
            have e1 : k = y1 := congrArg Prod.fst hk2
            have e2 : x = x1 := congrArg Prod.snd hk2
            subst e1; subst e2
            exact hn ⟨Nat.lt_succ_self _, hc, hr⟩)]
          exact i4 y1 x1 (fun ⟨h1, h2⟩ => hn ⟨by omega, h2⟩))
    refine ⟨st1, e1, k2, ?_, ?_⟩
    · intro y x hc
      apply k3 y x _ hc
      have hr := colClear_inRange field y x hc
      rw [hw, ← hrect y hr.1]
      exact hr.2
    · intro y x hn
      exact k4 y x (fun ⟨_, h2⟩ => hn h2)

theorem no_undocked_of_flag (field : PlayField) (docked : List (List Bool))
    (hd : shapeOf docked = shapeOf field.spaces)
    (hf : (fallScan field docked (emptyPlan field)).2 = false) :
    ∀ y x, ¬ ((spaceAt field y x).Content = SpaceContent.Pill ∧ dockedAt docked y x = false) := by
  intro y x hu
  have h := (fallScan_spec field docked (emptyPlan field)
    ((shapeOf_emptyPlan field).trans hd.symm) hd).2.2.2
  have : (fallScan field docked (emptyPlan field)).2 = true := h.mpr ⟨y, x, hu⟩
  rw [hf] at this
  cases this

/-- C10: on a rectangular field with at least one row in which no pill is undocked,
`EvaluateBoardIteration` returns a plan in which a cell is marked `Clear` exactly when its
colour is not `Uncolored` and it lies in a maximal run of at least four consecutive cells
of that colour along its row or along its column (runs that end at the last column or the
last row included); every other cell is `NoAction`. -/
theorem evaluate_clear_iff (field : PlayField) (docked : List (List Bool))
    (hne : field.spaces ≠ []) (hrect : Rectangular field)
    (hdock : generateDockedField field = some docked)
    (hnone : ∀ y x,
      ¬ ((spaceAt field y x).Content = SpaceContent.Pill ∧ dockedAt docked y x = false)) :
    ∃ plan dominant,
      EvaluateBoardIteration field = some (plan, dominant) ∧
      ∀ y x,
        (planAt plan y x = NextIteration.Clear ↔
          (spaceAt field y x).Color ≠ SpaceColor.Uncolored ∧
            (RowRun field y x ∨ ColRun field y x)) ∧
        (planAt plan y x ≠ NextIteration.Clear → planAt plan y x = NextIteration.NoAction) := by
  obtain ⟨docked2, hdock2, hshape⟩ := generateDockedField_total field
  rw [hdock] at hdock2
  injection hdock2 with hdock2
  subst hdock2
  have hplan := fallScan_emptyPlan field docked hshape
  obtain ⟨hsh1, _, _, hflag⟩ := fallScan_spec field docked (emptyPlan field)
    ((shapeOf_emptyPlan field).trans hshape.symm) hshape
  have hfound : ¬ (fallScan field docked (emptyPlan field)).2 = true := by
    intro hf
    obtain ⟨y, x, hu⟩ := hflag.mp hf
    exact hnone y x hu
  obtain ⟨st1, e1, g1, r1, r2⟩ := rowScan_spec field
    ⟨0, SpaceColor.Uncolored, NextIteration.NoAction,
      (fallScan field docked (emptyPlan field)).1⟩ rfl
    (hsh1.trans (shapeOf_emptyPlan field))
  obtain ⟨st2, e2, _, c1, c2⟩ := colScan_spec field hne hrect st1 g1
  refine ⟨st2.plan, st2.nextIter, ?_, ?_⟩
  · unfold EvaluateBoardIteration
    rw [hdock]
    simp only
    rw [if_neg hfound, e1]
    simp only
    rw [e2]
  · intro y x
    have hbase : planAt (fallScan field docked (emptyPlan field)).1 y x =
        NextIteration.NoAction := (hplan y x).2 (hnone y x)
    by_cases hc : ColClear field y x
    · refine ⟨⟨fun _ => ⟨hc.1, Or.inr hc.2⟩, fun _ => c1 y x hc⟩, fun h => absurd (c1 y x hc) h⟩
    · by_cases hr : RowClear field y x
      · have hcl : planAt st2.plan y x = NextIteration.Clear := by
          rw [c2 y x hc]; exact r1 y x hr
        exact ⟨⟨fun _ => ⟨hr.1, Or.inl hr.2⟩, fun _ => hcl⟩, fun h => absurd hcl h⟩
      · have hno : planAt st2.plan y x = NextIteration.NoAction := by
          rw [c2 y x hc, r2 y x hr]; exact hbase
        refine ⟨⟨fun h => ?_, fun ⟨h1, h2⟩ => ?_⟩, fun _ => hno⟩
        · rw [hno] at h; cases h
        · rcases h2 with h2 | h2
          · exact absurd ⟨h1, h2⟩ hr
          · exact absurd ⟨h1, h2⟩ hc

theorem evaluate_clear_iff_witness :
    sampleClearRow.spaces ≠ [] ∧ Rectangular sampleClearRow ∧
    generateDockedField sampleClearRow = some [[true, true, true, true, true]] ∧
    ∃ plan dominant,
      EvaluateBoardIteration sampleClearRow = some (plan, dominant) ∧
      ∀ y x,
        (planAt plan y x = NextIteration.Clear ↔
          (spaceAt sampleClearRow y x).Color ≠ SpaceColor.Uncolored ∧
            (RowRun sampleClearRow y x ∨ ColRun sampleClearRow y x)) ∧
        (planAt plan y x ≠ NextIteration.Clear → planAt plan y x = NextIteration.NoAction) :=
  ⟨by decide, by decide, by decide,
    evaluate_clear_iff sampleClearRow [[true, true, true, true, true]] (by decide) (by decide)
      (by decide)
      (no_undocked_of_flag sampleClearRow [[true, true, true, true, true]] (by decide)
        (by decide))⟩

/-- On the sample row the evaluator answers `Clear` and marks the four blue cells. -/
theorem sampleClearRow_evaluation :
    EvaluateBoardIteration sampleClearRow =
      some ([[NextIteration.Clear, NextIteration.Clear, NextIteration.Clear,
              NextIteration.Clear, NextIteration.NoAction]], NextIteration.Clear) := by
  decide

/-! ## Fields built through the interface are rectangular -/

theorem rectangular_gridSet (field : PlayField) (y x : Nat) (v : Space)
    (h : Rectangular field) : Rectangular ⟨gridSet field.spaces y x v⟩ := by
  intro y1 hy1
  simp only [gridSet_length] at hy1
  simp only [gridRow_gridSet_length]
  exact h y1 hy1

theorem rectangular_newPlayField (x y : Int) (field : PlayField)
    (h : NewPlayField x y = some field) : Rectangular field := by
  unfold NewPlayField at h
  split at h
  · cases h
  · split at h
    · injection h with h
      subst h
      intro y1 hy1
      simp at hy1
    · split at h
      · cases h
      · injection h with h
        subst h
        intro y1 hy1
        simp only [List.length_replicate] at hy1
        rw [gridRow_replicate _ _ _ hy1, gridRow_replicate _ _ _ (by omega)]

/-! ## Maker functions -/

theorem checkEmpty_error_kind (field : PlayField) (y x : Int) (err : BoardError)
    (h : checkCoordinateInBoundsAndEmpty field y x = some err) :
    err.isOutOfBounds = true ∨ err.isOccupied = true := by
  unfold checkCoordinateInBoundsAndEmpty at h
  cases hc : checkCoordinateInBounds field y x with
  | some e =>
    rw [hc] at h
    injection h with h
    subst h
    exact Or.inl (checkCoordinateInBounds_isOutOfBounds field y x e hc)
  | none =>
    rw [hc] at h
    simp only at h
    split at h
    · injection h with h; subst h; exact Or.inr rfl
    · cases h

/-- A pair of pills whose first half is linked in one of the four directions and whose
second half is linked the opposite way can only be refused for its coordinates. -/
theorem putTwoLinked_valid_pair_errors (field : PlayField) (y x : Int) (a b : Space)
    (hdir : a.Linkage = SpaceLinkage.Up ∨ a.Linkage = SpaceLinkage.Down ∨
      a.Linkage = SpaceLinkage.Left ∨ a.Linkage = SpaceLinkage.Right)
    (h2 : a.Content = SpaceContent.Pill)
    (h3 : b.Content = SpaceContent.Pill) (h4 : b.Linkage = getOpposingLinkage a.Linkage)
    (err : BoardError) (he : (PutTwoLinkedSpacesAtCoordinate field y x a b).2 = some err) :
    err.isOutOfBounds = true ∨ err.isOccupied = true := by
  have h1 : a.Linkage ≠ SpaceLinkage.Unlinked := by
    intro hc
    rw [hc] at hdir
    rcases hdir with h | h | h | h <;> cases h
  rcases putTwoLinked_cases field y x a b with ⟨ly, lx, _, heq⟩ | ⟨_, _, _⟩
  · rw [heq] at he; cases he
  · unfold PutTwoLinkedSpacesAtCoordinate at he
    have h5 : ¬ (a.Content ≠ SpaceContent.Pill ∨ b.Content ≠ SpaceContent.Pill) := by
      intro hc; rcases hc with hc | hc
      · exact hc h2
      · exact hc h3
    rw [if_neg h1, if_neg h5, linkageSwitchRejects_of_opposite a.Linkage b.Linkage h4]
      at he
    simp only [Bool.false_eq_true, if_false] at he
    cases hc1 : checkCoordinateInBoundsAndEmpty field y x with
    | some e =>
      rw [hc1] at he
      injection he with he
      subst he
      exact checkEmpty_error_kind field y x e hc1
    | none =>
      rw [hc1] at he
      simp only at he
      cases hl : GetLinkedCoordinate y x a.Linkage with
      | error e =>
        exfalso
        rcases hdir with h | h | h | h <;> simp [GetLinkedCoordinate, h] at hl
      | ok c =>
        obtain ⟨ly, lx⟩ := c
        rw [hl] at he
        simp only at he
        cases hc2 : checkCoordinateInBoundsAndEmpty field ly lx with
        | some e =>
          rw [hc2] at he
          injection he with he
          subst he
          exact checkEmpty_error_kind field ly lx e hc2
        | none =>
          exfalso
          rw [hc2] at he
          have hb1 := ((checkCoordinateInBoundsAndEmpty_eq_none_iff field y x).mp hc1).1
          have hb2 := ((checkCoordinateInBoundsAndEmpty_eq_none_iff field ly lx).mp hc2).1
          rw [putSpaceAtCoordinate_of_inBounds field y x a hb1] at he
          simp only at he
          rw [putSpaceAtCoordinate_of_inBounds _ ly lx b
            ((inBounds_gridSet field _ _ a ly lx).mpr hb2)] at he
          cases he

/-- C17 (the claim as stated fails): the makers check that the linkage is not `Unlinked`,
not that it is one of the four directions.  For a linkage that is none of the constants
`MakeLinkedPillSpaces` returns a pair whose second half is `Unlinked`, and
`PutTwoLinkedSpacesAtCoordinate` refuses that pair at an empty in-bounds coordinate with the
error of `GetLinkedCoordinate`, which is neither an out-of-bounds nor an occupied-cell
error. -/
theorem makers_other_linkage :
    MakeLinkedPillSpaces (SpaceLinkage.Other 0) SpaceColor.Red SpaceColor.Blue =
      Except.ok (⟨SpaceContent.Pill, SpaceLinkage.Other 0, SpaceColor.Red⟩,
        ⟨SpaceContent.Pill, SpaceLinkage.Unlinked, SpaceColor.Blue⟩) ∧
    (PutTwoLinkedSpacesAtCoordinate ⟨[[Space.zero, Space.zero], [Space.zero, Space.zero]]⟩ 1 0
      ⟨SpaceContent.Pill, SpaceLinkage.Other 0, SpaceColor.Red⟩
      ⟨SpaceContent.Pill, SpaceLinkage.Unlinked, SpaceColor.Blue⟩).2 =
        some BoardError.noLinkedCoordinate ∧
    BoardError.noLinkedCoordinate.isOutOfBounds = false ∧
    BoardError.noLinkedCoordinate.isOccupied = false := by
  refine ⟨rfl, by decide, rfl, rfl⟩

/-- C17 (amended): `MakeLinkedPillSpaces linkage c1 c2` fails exactly when the linkage is
`Unlinked` or one of the colours is `Uncolored`; otherwise it returns two pills with colours
`c1` and `c2`, the first linked as asked; when the linkage is one of `Up`, `Down`, `Left`,
`Right` the second is linked the opposite way (`Up` with `Down`, `Left` with `Right`), and
`PutTwoLinkedSpacesAtCoordinate` on that pair can only fail with an out-of-bounds or an
occupied-cell error.  `MakeVirus c` fails exactly when `c` is `Uncolored` and otherwise
returns the cell `(Virus, Unlinked, c)`. -/
theorem makers_spec (linkage : SpaceLinkage) (c1 c2 c : SpaceColor) :
    ((∃ err, MakeLinkedPillSpaces linkage c1 c2 = Except.error err) ↔
      (linkage = SpaceLinkage.Unlinked ∨ c1 = SpaceColor.Uncolored ∨
        c2 = SpaceColor.Uncolored)) ∧
    (¬ (linkage = SpaceLinkage.Unlinked ∨ c1 = SpaceColor.Uncolored ∨
        c2 = SpaceColor.Uncolored) →
      ∃ a b, MakeLinkedPillSpaces linkage c1 c2 = Except.ok (a, b) ∧
        a = ⟨SpaceContent.Pill, linkage, c1⟩ ∧
        b = ⟨SpaceContent.Pill, getOpposingLinkage linkage, c2⟩ ∧
        (linkage = SpaceLinkage.Up → b.Linkage = SpaceLinkage.Down) ∧
        (linkage = SpaceLinkage.Down → b.Linkage = SpaceLinkage.Up) ∧
        (linkage = SpaceLinkage.Left → b.Linkage = SpaceLinkage.Right) ∧
        (linkage = SpaceLinkage.Right → b.Linkage = SpaceLinkage.Left) ∧
        (linkage = SpaceLinkage.Up ∨ linkage = SpaceLinkage.Down ∨
            linkage = SpaceLinkage.Left ∨ linkage = SpaceLinkage.Right →
          ∀ (field : PlayField) (y x : Int) (err : BoardError),
            (PutTwoLinkedSpacesAtCoordinate field y x a b).2 = some err →
              err.isOutOfBounds = true ∨ err.isOccupied = true)) ∧
    ((∃ err, MakeVirus c = Except.error err) ↔ c = SpaceColor.Uncolored) ∧
    (c ≠ SpaceColor.Uncolored →
      MakeVirus c = Except.ok ⟨SpaceContent.Virus, SpaceLinkage.Unlinked, c⟩) := by
  refine ⟨?_, ?_, ?_, ?_⟩
  · unfold MakeLinkedPillSpaces
    by_cases h1 : linkage = SpaceLinkage.Unlinked
    · simp [h1]
    · by_cases h2 : c1 = SpaceColor.Uncolored ∨ c2 = SpaceColor.Uncolored
      · simp [h1, h2]
      · simp only [h1, h2, if_false, false_or, iff_false]
        rintro ⟨err, he⟩
        cases he
  · intro hn
    have h1 : ¬ linkage = SpaceLinkage.Unlinked := fun h => hn (Or.inl h)
    have h2 : ¬ (c1 = SpaceColor.Uncolored ∨ c2 = SpaceColor.Uncolored) :=
      fun h => hn (Or.inr h)
    refine ⟨_, _, ?_, rfl, rfl, ?_, ?_, ?_, ?_, ?_⟩
    · unfold MakeLinkedPillSpaces
      rw [if_neg h1, if_neg h2]
    · intro h; subst h; rfl
    · intro h; subst h; rfl
    · intro h; subst h; rfl
    · intro h; subst h; rfl
    · intro hdir field y x err he
      exact putTwoLinked_valid_pair_errors field y x _ _ hdir rfl rfl rfl err he
  · unfold MakeVirus
    by_cases h : c = SpaceColor.Uncolored
    · simp [h]
    · simp only [h, if_false, iff_false]
      rintro ⟨err, he⟩
      cases he
  · intro h
    unfold MakeVirus
    rw [if_neg h]

theorem makers_spec_witness :
    MakeLinkedPillSpaces SpaceLinkage.Up SpaceColor.Red SpaceColor.Blue =
      Except.ok (⟨SpaceContent.Pill, SpaceLinkage.Up, SpaceColor.Red⟩,
        ⟨SpaceContent.Pill, SpaceLinkage.Down, SpaceColor.Blue⟩) ∧
    (∀ (field : PlayField) (y x : Int) (err : BoardError),
      (PutTwoLinkedSpacesAtCoordinate field y x
        ⟨SpaceContent.Pill, SpaceLinkage.Up, SpaceColor.Red⟩
        ⟨SpaceContent.Pill, SpaceLinkage.Down, SpaceColor.Blue⟩).2 = some err →
          err.isOutOfBounds = true ∨ err.isOccupied = true) ∧
    MakeVirus SpaceColor.Yellow =
      Except.ok ⟨SpaceContent.Virus, SpaceLinkage.Unlinked, SpaceColor.Yellow⟩ := by
  obtain ⟨_, hpair, _, hvirus⟩ :=
    makers_spec SpaceLinkage.Up SpaceColor.Red SpaceColor.Blue SpaceColor.Yellow
  obtain ⟨a, b, hm, ha, hb, _, _, _, _, hput⟩ := hpair (by decide)
  subst ha hb
  exact ⟨hm, hput (Or.inl rfl), hvirus (by decide)⟩

/-! ## Board transition: the quiescent board -/

/-- C12: when `EvaluateBoardIteration` returns the dominant action `NoAction`,
`IterateBoard` returns success and the field it leaves is the field it was given (every
coordinate reads as before), and evaluating again returns `NoAction`. -/
theorem iterateBoard_quiescent (field : PlayField) (plan : List (List NextIteration))
    (h : EvaluateBoardIteration field = some (plan, NextIteration.NoAction)) :
    ∃ field1, IterateBoard field = some (field1, none) ∧ field1 = field ∧
      (∀ y x : Int, GetSpaceAtCoordinate field1 y x = GetSpaceAtCoordinate field y x) ∧
      EvaluateBoardIteration field1 = some (plan, NextIteration.NoAction) := by
  refine ⟨field, ?_, rfl, fun _ _ => rfl, h⟩
  unfold IterateBoard
  rw [h]
  simp


theorem iterateBoard_quiescent_witness :
    EvaluateBoardIteration samplePillRow =
      some ([[NextIteration.NoAction, NextIteration.NoAction, NextIteration.NoAction]],
        NextIteration.NoAction) ∧
    ∃ field1, IterateBoard samplePillRow = some (field1, none) ∧ field1 = samplePillRow ∧
      (∀ y x : Int,
        GetSpaceAtCoordinate field1 y x = GetSpaceAtCoordinate samplePillRow y x) ∧
      EvaluateBoardIteration field1 =
        some ([[NextIteration.NoAction, NextIteration.NoAction, NextIteration.NoAction]],
          NextIteration.NoAction) :=
  ⟨by decide, iterateBoard_quiescent samplePillRow _ (by decide)⟩

/-! ## The stack of three pills on the floor -/

set_option maxRecDepth 100000 in
/-- On the 8 by 16 field holding three unlinked blue pills in column 0 at rows 13, 14 and
15, placed in the order 14, 13, 15, the dominant action returned by
`EvaluateBoardIteration` is not `Fall`, the action that the last assertion of
`TestSinglePillStackFallChecking` expects. -/
theorem sampleStack_not_fall :
    (sampleStack.bind EvaluateBoardIteration).map Prod.snd ≠ some NextIteration.Fall := by
  decide

set_option maxRecDepth 100000 in
/-- C19: on the field of `TestSinglePillStackFallChecking`, where the test expects `Fall`,
`EvaluateBoardIteration` returns the dominant action `NoAction` and a plan whose 16 rows of
8 entries are all `NoAction`: the pill on the bottom row is docked, the two pills above it
are docked through it, and a run of three is not cleared. -/
theorem sampleStack_no_action :
    sampleStack.bind EvaluateBoardIteration =
      some (List.replicate 16 (List.replicate 8 NextIteration.NoAction),
        NextIteration.NoAction) := by
  decide

/-! ## The docked-field search marks exactly the anchored cells -/

theorem anchored_occupied (field : PlayField) (y x : Int) (h : Anchored field y x) :
    InBounds field y x ∧ (spaceAt field y.toNat x.toNat).Content ≠ SpaceContent.Empty := by
  cases h with
  | seed _ _ hs =>
    refine ⟨hs.1, ?_⟩
    rcases hs.2 with h | h
    · rw [h]; decide
    · exact h.2
  | above y0 _ _ hb hc => exact ⟨hb, hc⟩
  | linked _ _ _ _ _ _ _ hb hc => exact ⟨hb, hc⟩

theorem inBounds_cast (field : PlayField) (y x : Int) (h : InBounds field y x) :
    y = (y.toNat : Int) ∧ x = (x.toNat : Int) := by
  obtain ⟨h1, _, h3, _⟩ := h
  omega

theorem getSpaceIgnoringError_nat (field : PlayField) (y x : Nat) :
    getSpaceIgnoringError field y x = spaceAt field y x := by
  unfold getSpaceIgnoringError GetSpaceAtCoordinate
  cases hc : checkCoordinateInBounds field y x with
  | some err =>
    simp only
    have hn : ¬ InBounds field y x := by
      rw [← checkCoordinateInBounds_eq_none_iff, hc]; simp
    rw [inBounds_nat_iff] at hn
    unfold spaceAt gridGet?
    by_cases hy : y < field.spaces.length
    · have hx : (gridRow field.spaces y).length ≤ x := by
        by_contra hcx; exact hn ⟨hy, Nat.lt_of_not_le hcx⟩
      rw [List.getElem?_eq_none hx]; rfl
    · rw [gridRow_length_le _ _ (Nat.le_of_not_lt hy)]; rfl
  | none => simp

/-- The queue built by the seeding loops holds exactly the seeds. -/
theorem mem_seedQueue (field : PlayField) (c : Coordinate) :
    c ∈ seedQueue field ↔ IsSeed field c.y c.x := by
  have hlen : (emptyDockedField field).length = field.spaces.length :=
    shapeOf_length _ _ (shapeOf_emptyDockedField field)
  have hrow : ∀ y, (gridRow (emptyDockedField field) y).length =
      (gridRow field.spaces y).length :=
    shapeOf_gridRow_length _ _ (shapeOf_emptyDockedField field)
  have key := foldl_range_invariant
    (fun queue y =>
      (List.range (gridRow (emptyDockedField field) y).length).foldl
        (fun queue x => seedStep field y x queue) queue)
    (fun y (q : List Coordinate) => ∀ c : Coordinate, c ∈ q ↔
      ∃ a b : Nat, c = ⟨a, b⟩ ∧ a < y ∧ b < (gridRow field.spaces a).length ∧
        ((spaceAt field a b).Content = SpaceContent.Virus ∨
          ((a : Int) = GetBottomRowIndex field ∧
            (spaceAt field a b).Content ≠ SpaceContent.Empty)))
    (emptyDockedField field).length []
    (by intro c; simp)
    (by
      intro y q hy hq
      have inner := foldl_range_invariant
        (fun queue x => seedStep field y x queue)
        (fun x (q2 : List Coordinate) => ∀ c : Coordinate, c ∈ q2 ↔
          ∃ a b : Nat, c = ⟨a, b⟩ ∧
            ((a < y ∧ b < (gridRow field.spaces a).length) ∨ (a = y ∧ b < x)) ∧
            ((spaceAt field a b).Content = SpaceContent.Virus ∨
              ((a : Int) = GetBottomRowIndex field ∧
                (spaceAt field a b).Content ≠ SpaceContent.Empty)))
        (gridRow (emptyDockedField field) y).length q
        (by
          intro c
          rw [hq c]
          constructor
          · rintro ⟨a, b, e, h1, h2, h3⟩; exact ⟨a, b, e, Or.inl ⟨h1, h2⟩, h3⟩
          · rintro ⟨a, b, e, h1, h3⟩
            rcases h1 with h1 | h1
            · exact ⟨a, b, e, h1.1, h1.2, h3⟩
            · omega)
        (by
          intro x q2 hx hq2 c
          simp only [seedStep, getSpaceIgnoringError_nat]
          by_cases hv : (spaceAt field y x).Content = SpaceContent.Virus
          · rw [if_pos hv, List.mem_append, hq2 c]
            constructor
            · rintro (⟨a, b, e, h1, h3⟩ | hm)
              · exact ⟨a, b, e, by omega, h3⟩
              · simp only [List.mem_singleton] at hm
                exact ⟨y, x, hm, Or.inr ⟨rfl, Nat.lt_succ_self x⟩, Or.inl hv⟩
            · rintro ⟨a, b, e, h1, h3⟩
              by_cases hab : a = y ∧ b = x
              · right
                obtain ⟨e1, e2⟩ := hab
                subst e1; subst e2
                simp [e]
              · left
                exact ⟨a, b, e, by omega, h3⟩
          · rw [if_neg hv]
            by_cases hb : (y : Int) = GetBottomRowIndex field ∧
                (spaceAt field y x).Content ≠ SpaceContent.Empty
            · rw [if_pos hb, List.mem_append, hq2 c]
              constructor
              · rintro (⟨a, b, e, h1, h3⟩ | hm)
                · exact ⟨a, b, e, by omega, h3⟩
                · simp only [List.mem_singleton] at hm
                  exact ⟨y, x, hm, Or.inr ⟨rfl, Nat.lt_succ_self x⟩, Or.inr hb⟩
              · rintro ⟨a, b, e, h1, h3⟩
                by_cases hab : a = y ∧ b = x
                · right
                  obtain ⟨e1, e2⟩ := hab
                  subst e1; subst e2
                  simp [e]
                · left
                  exact ⟨a, b, e, by omega, h3⟩
            · rw [if_neg hb, hq2 c]
              constructor
              · rintro ⟨a, b, e, h1, h3⟩
                exact ⟨a, b, e, by omega, h3⟩
              · rintro ⟨a, b, e, h1, h3⟩
                have hab : ¬ (a = y ∧ b = x) := by
                  rintro ⟨e1, e2⟩
                  subst e1; subst e2
                  rcases h3 with h3 | h3
                  · exact hv h3
                  · exact hb h3
                exact ⟨a, b, e, by omega, h3⟩)
      intro c
      rw [inner c]
      rw [hrow y]
      constructor
      · rintro ⟨a, b, e, h1, h3⟩
        refine ⟨a, b, e, by omega, ?_, h3⟩
        rcases h1 with h1 | h1
        · exact h1.2
        · rw [h1.1]; exact h1.2
      · rintro ⟨a, b, e, h1, h2, h3⟩
        refine ⟨a, b, e, ?_, h3⟩
        by_cases hay : a = y
        · right; subst hay; exact ⟨rfl, h2⟩
        · left; exact ⟨by omega, h2⟩)
  unfold seedQueue
  rw [key c, hlen]
  constructor
  · rintro ⟨a, b, e, h1, h2, h3⟩
    subst e
    refine ⟨(inBounds_nat_iff field a b).mpr ⟨h1, h2⟩, ?_⟩
    simpa using h3
  · rintro ⟨hb, hs⟩
    obtain ⟨e1, e2⟩ := inBounds_cast field c.y c.x hb
    have hb2 := hb
    rw [e1, e2, inBounds_nat_iff] at hb2
    refine ⟨c.y.toNat, c.x.toNat, ?_, hb2.1, hb2.2, ?_⟩
    · cases c; simp only at e1 e2 ⊢; rw [← e1, ← e2]
    · rw [← e1]; exact hs


theorem accounted_skip (field : PlayField) (docked : List (List Bool)) (c : Coordinate)
    (rest : List Coordinate) (y x : Int)
    (hdead : ¬ InBounds field c.y c.x ∨ dockedAt docked c.y.toNat c.x.toNat = true ∨
      (spaceAt field c.y.toNat c.x.toNat).Content = SpaceContent.Empty)
    (h : Accounted field docked (c :: rest) y x) : Accounted field docked rest y x := by
  intro hb hc
  rcases h hb hc with h | h
  · exact Or.inl h
  · rcases List.mem_cons.mp h with h | h
    · have e1 : c.y = y := by rw [← h]
      have e2 : c.x = x := by rw [← h]
      rw [e1, e2] at hdead
      rcases hdead with hd | hd | hd
      · exact absurd hb hd
      · exact Or.inl hd
      · exact absurd hd hc
    · exact Or.inr h

theorem dockedAt_gridSet_true (docked : List (List Bool)) (a b y x : Nat) :
    dockedAt (gridSet docked a b true) y x = true ↔
      ((y = a ∧ x = b ∧ b < (gridRow docked a).length) ∨ dockedAt docked y x = true) := by
  unfold dockedAt
  rw [gridGet?_gridSet]
  by_cases he : y = a ∧ x = b
  · obtain ⟨e1, e2⟩ := he
    subst e1; subst e2
    simp only [and_self, if_true, true_and]
    by_cases hx : x < (gridRow docked y).length
    · rw [gridGet?_eq_some_getD docked y x false hx]
      simp [hx]
    · have : gridGet? docked y x = none := by
        unfold gridGet?
        exact List.getElem?_eq_none (Nat.le_of_not_lt hx)
      simp [this, hx]
  · rw [if_neg he]
    constructor
    · intro h; exact Or.inr h
    · rintro (⟨e1, e2, _⟩ | h)
      · exact absurd ⟨e1, e2⟩ he
      · exact h

theorem accounted_mark (field : PlayField) (docked : List (List Bool)) (c : Coordinate)
    (rest queue2 : List Coordinate) (y x : Int)
    (hs : shapeOf docked = shapeOf field.spaces) (hc : InBounds field c.y c.x)
    (hsub : ∀ e, e ∈ rest → e ∈ queue2)
    (h : Accounted field docked (c :: rest) y x) :
    Accounted field (gridSet docked c.y.toNat c.x.toNat true) queue2 y x := by
  intro hb hne
  have hx : c.x.toNat < (gridRow docked c.y.toNat).length := by
    rw [shapeOf_gridRow_length docked field.spaces hs]
    obtain ⟨_, _, h3, h4⟩ := hc; omega
  rcases h hb hne with h | h
  · left
    rw [dockedAt_gridSet_true]
    exact Or.inr h
  · rcases List.mem_cons.mp h with h | h
    · left
      have e1 : c.y = y := by rw [← h]
      have e2 : c.x = x := by rw [← h]
      rw [dockedAt_gridSet_true, ← e1, ← e2]
      exact Or.inl ⟨rfl, rfl, hx⟩
    · right
      exact hsub _ h

theorem linkedCoordinateIgnoringError_eq (y x ly lx : Int) (l : SpaceLinkage)
    (h : GetLinkedCoordinate y x l = Except.ok (ly, lx)) :
    linkedCoordinateIgnoringError y x l = ⟨ly, lx⟩ := by
  unfold linkedCoordinateIgnoringError
  rw [h]

theorem getLinkedCoordinate_ok (y x : Int) (l : SpaceLinkage)
    (h : l = SpaceLinkage.Up ∨ l = SpaceLinkage.Down ∨ l = SpaceLinkage.Left ∨
      l = SpaceLinkage.Right) :
    ∃ ly lx, GetLinkedCoordinate y x l = Except.ok (ly, lx) := by
  rcases h with h | h | h | h <;> subst h
  · exact ⟨y - 1, x, rfl⟩
  · exact ⟨y + 1, x, rfl⟩
  · exact ⟨y, x - 1, rfl⟩
  · exact ⟨y, x + 1, rfl⟩

/-- The docked loop keeps its invariant, so the docked field it returns satisfies the
invariant with an empty queue. -/
theorem dockedLoop_inv (field : PlayField) :
    ∀ (fuel : Nat) (docked : List (List Bool)) (queue : List Coordinate)
      (d : List (List Bool)),
      DockInv field docked queue → dockedLoop field fuel docked queue = some d →
      DockInv field d [] := by
  intro fuel
  induction fuel with
  | zero =>
    intro docked queue d hinv hd
    cases queue with
    | nil =>
      simp only [dockedLoop] at hd
      injection hd with hd
      subst hd; exact hinv
    | cons c rest => simp [dockedLoop] at hd
  | succ fuel ih =>
    intro docked queue d hinv hd
    cases queue with
    | nil =>
      simp only [dockedLoop] at hd
      injection hd with hd
      subst hd; exact hinv
    | cons c rest =>
      obtain ⟨iA, iB, iC, iD, iE⟩ := hinv
      rw [dockedLoop] at hd
      have skip : ∀ (hdead : ¬ InBounds field c.y c.x ∨
          dockedAt docked c.y.toNat c.x.toNat = true ∨
          (spaceAt field c.y.toNat c.x.toNat).Content = SpaceContent.Empty),
          DockInv field docked rest := by
        intro hdead
        refine ⟨iA, iB, fun c2 hc2 => iC c2 (List.mem_cons_of_mem _ hc2), ?_, ?_⟩
        · intro y x hs
          exact accounted_skip field docked c rest y x hdead (iD y x hs)
        · intro y x hb hdk
          obtain ⟨e1, e2⟩ := iE y x hb hdk
          refine ⟨accounted_skip field docked c rest _ _ hdead e1, ?_⟩
          intro ly lx hl hg
          exact accounted_skip field docked c rest _ _ hdead (e2 ly lx hl hg)
      split at hd
      · next hb =>
        apply ih docked rest d _ hd
        apply skip
        left
        intro hin
        exact hb ((checkCoordinateInBounds_eq_none_iff field c.y c.x).mpr hin)
      · next hb =>
        have hin : InBounds field c.y c.x := by
          rw [← checkCoordinateInBounds_eq_none_iff]
          by_contra hc; exact hb hc
        split at hd
        · next hdk => exact ih docked rest d (skip (Or.inr (Or.inl hdk))) hd
        · next hdk =>
          split at hd
          · next hem => exact ih docked rest d (skip (Or.inr (Or.inr hem))) hd
          · next hem =>
            apply ih _ _ d _ hd
            have hanc : Anchored field c.y c.x := iC c (List.mem_cons_self _ _) hin hem
            obtain ⟨ec1, ec2⟩ := inBounds_cast field c.y c.x hin
            have hxr : c.x.toNat < (gridRow docked c.y.toNat).length := by
              rw [shapeOf_gridRow_length docked field.spaces iA]
              obtain ⟨_, _, h3, h4⟩ := hin; omega
            have hsub : ∀ e, e ∈ rest → e ∈
                ((if checkCoordinateInBounds field (c.y - 1) c.x = none then
                    rest ++ [⟨c.y - 1, c.x⟩] else rest) ++
                  (if (spaceAt field c.y.toNat c.x.toNat).Linkage ≠ SpaceLinkage.Unlinked then
                    [linkedCoordinateIgnoringError c.y c.x
                      (spaceAt field c.y.toNat c.x.toNat).Linkage]
                   else [])) := by
              intro e he
              apply List.mem_append_left
              split
              · exact List.mem_append_left _ he
              · exact he
            refine ⟨by rw [shapeOf_gridSet]; exact iA, ?_, ?_, ?_, ?_⟩
            · intro y x hdd
              rw [dockedAt_gridSet_true] at hdd
              rcases hdd with ⟨e1, e2, _⟩ | hdd
              · rw [e1, e2, ← ec1, ← ec2]; exact hanc
              · exact iB y x hdd
            · intro c2 hc2 hb2 hne2
              rcases List.mem_append.mp hc2 with hm | hm
              · split at hm
                · rcases List.mem_append.mp hm with hm | hm
                  · exact iC c2 (List.mem_cons_of_mem _ hm) hb2 hne2
                  · simp only [List.mem_singleton] at hm
                    subst hm
                    exact Anchored.above c.y c.x hanc hb2 hne2
                · exact iC c2 (List.mem_cons_of_mem _ hm) hb2 hne2
              · split at hm
                · next hl =>
                  simp only [List.mem_singleton] at hm
                  exact Anchored.linked c.y c.x c2.y c2.x hanc hl (by rw [hm]) hb2 hne2
                · simp at hm
            · intro y x hs
              exact accounted_mark field docked c rest _ y x iA hin hsub (iD y x hs)
            · intro y x hb2 hdd
              rw [dockedAt_gridSet_true] at hdd
              rcases hdd with ⟨e1, e2, _⟩ | hdd
              · have ey : y = c.y := by
                  have := (inBounds_cast field y x hb2).1; omega
                have ex : x = c.x := by
                  have := (inBounds_cast field y x hb2).2; omega
                subst ey; subst ex
                constructor
                · intro hb3 hne3
                  right
                  apply List.mem_append_left
                  rw [if_pos ((checkCoordinateInBounds_eq_none_iff field _ _).mpr hb3)]
                  exact List.mem_append_right _ (List.mem_singleton.mpr rfl)
                · intro ly lx hl hg hb3 hne3
                  right
                  apply List.mem_append_right
                  rw [if_pos hl, hg]
                  exact List.mem_singleton.mpr rfl
              · obtain ⟨e1, e2⟩ := iE y x hb2 hdd
                refine ⟨accounted_mark field docked c rest _ _ _ iA hin hsub e1, ?_⟩
                intro ly lx hl hg
                exact accounted_mark field docked c rest _ _ _ iA hin hsub (e2 ly lx hl hg)


theorem dockedAt_emptyDockedField (field : PlayField) (y x : Nat) :
    dockedAt (emptyDockedField field) y x = false := by
  unfold dockedAt gridGet? gridRow emptyDockedField
  cases h1 : field.spaces[y]? with
  | none => simp [h1]
  | some row =>
    simp only [List.getElem?_map, h1, Option.map_some', Option.getD_some]
    cases h2 : row[x]? with
    | none => simp
    | some v => simp

theorem dockInv_start (field : PlayField) :
    DockInv field (emptyDockedField field) (seedQueue field) := by
  refine ⟨shapeOf_emptyDockedField field, ?_, ?_, ?_, ?_⟩
  · intro y x h
    rw [dockedAt_emptyDockedField] at h
    cases h
  · intro c hc _ _
    exact Anchored.seed c.y c.x ((mem_seedQueue field c).mp hc)
  · intro y x hs _ _
    right
    exact (mem_seedQueue field ⟨y, x⟩).mpr hs
  · intro y x _ h
    rw [dockedAt_emptyDockedField] at h
    cases h

theorem dockInv_final (field : PlayField) (d : List (List Bool)) (h : DockInv field d [])
    (y x : Int) (ha : Anchored field y x) : dockedAt d y.toNat x.toNat = true := by
  obtain ⟨_, _, _, iD, iE⟩ := h
  induction ha with
  | seed y x hs =>
    have hocc := anchored_occupied field y x (Anchored.seed y x hs)
    rcases iD y x hs hocc.1 hocc.2 with h | h
    · exact h
    · simp at h
  | above y x ha hb hne ih =>
    rcases (iE y x (anchored_occupied field y x ha).1 ih).1 hb hne with h | h
    · exact h
    · simp at h
  | linked y x ly lx ha hl hg hb hne ih =>
    rcases (iE y x (anchored_occupied field y x ha).1 ih).2 ly lx hl hg hb hne with h | h
    · exact h
    · simp at h

/-- The docked field returned by `generateDockedField` satisfies the loop invariant with an
empty queue. -/
theorem generateDockedField_dockInv (field : PlayField) :
    ∃ docked, generateDockedField field = some docked ∧
      shapeOf docked = shapeOf field.spaces ∧ DockInv field docked [] := by
  obtain ⟨docked, hd, hs⟩ := generateDockedField_total field
  refine ⟨docked, hd, hs, ?_⟩
  unfold generateDockedField at hd
  exact dockedLoop_inv field _ _ _ docked (dockInv_start field) hd

/-- With the queue empty, the invariant says that the marked cells are the anchored
cells. -/
theorem dockInv_iff (field : PlayField) (docked : List (List Bool))
    (hinv : DockInv field docked []) (y x : Nat) :
    dockedAt docked y x = true ↔ Anchored field y x := by
  constructor
  · exact hinv.2.1 y x
  · intro ha
    have := dockInv_final field docked hinv y x ha
    simpa using this

/-- C20: for every field `generateDockedField` terminates, and it marks a coordinate
exactly when the cell there is anchored: it is occupied and can be reached from a seed (a
virus, or an occupied cell of the bottom row) through occupied in-bounds cells, each step
going from an anchored cell to the cell directly above it or to the coordinate its linkage
points to.  Empty cells are never marked. -/
theorem generateDockedField_anchored (field : PlayField) :
    ∃ docked, generateDockedField field = some docked ∧
      shapeOf docked = shapeOf field.spaces ∧
      (∀ y x : Nat, dockedAt docked y x = true ↔ Anchored field y x) ∧
      (∀ y x : Nat, (spaceAt field y x).Content = SpaceContent.Empty →
        dockedAt docked y x = false) := by
  obtain ⟨docked, hd, hs, hinv⟩ := generateDockedField_dockInv field
  refine ⟨docked, hd, hs, dockInv_iff field docked hinv, ?_⟩
  intro y x he
  cases hv : dockedAt docked y x with
  | false => rfl
  | true =>
    have hocc := anchored_occupied field y x ((dockInv_iff field docked hinv y x).mp hv)
    simp only [Int.toNat_ofNat] at hocc
    exact absurd he hocc.2

/-! ## The dominant action agrees with the plan -/

theorem flushLine_agrees (oob : Nat → Bool) (cell : Nat → Nat × Nat) (shape : List Nat)
    (hcell : ∀ k, oob k = false → ∀ p : List (List NextIteration), shapeOf p = shape →
      (cell k).2 < (gridRow p (cell k).1).length)
    (i : Nat) (st : ScanState) (hl : ScanLight oob shape i st) (ha : PlanAgrees st) :
    PlanAgrees (flushLine cell i st) ∧ shapeOf (flushLine cell i st).plan = shape := by
  obtain ⟨h1, h2, h3⟩ := hl
  refine ⟨?_, (flushLine_frame cell i st).1.trans h1⟩
  unfold flushLine
  by_cases hq : 4 ≤ st.currentStreak ∧ st.currentColor ≠ SpaceColor.Uncolored
  · rw [if_pos hq]
    refine ⟨Or.inr rfl, ?_⟩
    simp only [true_iff]
    refine ⟨(cell (i - 1)).1, (cell (i - 1)).2, ?_⟩
    exact markLine_marked cell st.plan _ _ (i - 1) (by omega) (by omega)
      (hcell (i - 1) (h3 (i - 1) (by omega)) st.plan h1)
  · rw [if_neg hq]
    exact ha

theorem lineLoop_agrees (oob : Nat → Bool) (col : Nat → SpaceColor) (cell : Nat → Nat × Nat)
    (shape : List Nat)
    (hcell : ∀ k, oob k = false → ∀ p : List (List NextIteration), shapeOf p = shape →
      (cell k).2 < (gridRow p (cell k).1).length) :
    ∀ (fuel i : Nat) (st st1 : ScanState), ScanLight oob shape i st → PlanAgrees st →
      lineLoop oob col cell fuel i st = some st1 →
      PlanAgrees st1 ∧ shapeOf st1.plan = shape := by
  intro fuel
  induction fuel with
  | zero => intro i st st1 _ _ h; simp [lineLoop] at h
  | succ fuel ih =>
    intro i st st1 hl ha h
    rw [lineLoop] at h
    by_cases ho : oob i = true
    · rw [if_pos ho] at h
      injection h with h
      subst h
      exact flushLine_agrees oob cell shape hcell i st hl ha
    · rw [if_neg ho] at h
      have ho2 : oob i = false := by
        cases hv : oob i with
        | true => exact absurd hv ho
        | false => rfl
      have hprev : ∀ k, k < i + 1 → oob k = false := by
        intro k hk
        by_cases hki : k = i
        · rw [hki]; exact ho2
        · exact hl.2.2 k (by omega)
      by_cases hc : col i = st.currentColor
      · rw [if_pos hc] at h
        have h21 := hl.2.1
        exact ih (i + 1) { st with currentStreak := st.currentStreak + 1 } st1
          ⟨hl.1, Nat.succ_le_succ h21, hprev⟩ ha h
      · rw [if_neg hc] at h
        obtain ⟨fa, fs⟩ := flushLine_agrees oob cell shape hcell i st hl ha
        exact ih (i + 1)
          { flushLine cell i st with currentStreak := 1, currentColor := col i } st1
          ⟨fs, Nat.succ_le_succ (Nat.zero_le i), hprev⟩ fa h

theorem rowScan_agrees (field : PlayField) (st : ScanState)
    (hs : shapeOf st.plan = shapeOf field.spaces) (hz : st.currentStreak = 0)
    (ha : PlanAgrees st) :
    ∃ st1, rowScan field st = some st1 ∧ PlanAgrees st1 ∧
      shapeOf st1.plan = shapeOf field.spaces ∧ PlanFrame st.plan st1.plan := by
  unfold rowScan
  obtain ⟨st1, e1, p1, p2, _, p4⟩ := foldlM_range_invariant
    (fun st y => rowLoop field y ((gridRow field.spaces y).length + 1) 0 st)
    (fun _ (s : ScanState) => PlanAgrees s ∧ shapeOf s.plan = shapeOf field.spaces ∧
      s.currentStreak = 0 ∧ PlanFrame st.plan s.plan)
    field.spaces.length st ⟨ha, hs, hz, planFrame_refl _⟩
    (by
      intro y s hy ⟨i1, i2, i3, i4⟩
      obtain ⟨s1, e1, f1⟩ := lineLoop_total
        (fun i => decide (checkCoordinateInBounds field y i ≠ none))
        (fun i => colorAt field y i) (fun i => (y, i)) (gridRow field.spaces y).length
        (by simpa using checkCoordinateInBounds_row_end field y)
        ((gridRow field.spaces y).length + 1) 0 s (Nat.zero_le _) (by omega)
      obtain ⟨a1, a2⟩ := lineLoop_agrees
        (fun i => decide (checkCoordinateInBounds field y i ≠ none))
        (fun i => colorAt field y i) (fun i => (y, i)) (shapeOf field.spaces)
        (by
          intro k hk p hp
          simp only [decide_eq_false_iff_not, ne_eq, not_not,
            checkCoordinateInBounds_eq_none_iff, inBounds_nat_iff] at hk
          simp only
          rw [shapeOf_gridRow_length p field.spaces hp]
          exact hk.2)
        _ 0 s s1 ⟨i2, by omega, fun k hk => absurd hk (Nat.not_lt_zero k)⟩ i1 e1
      refine ⟨resetStreak s1, ?_, a1, a2, rfl, planFrame_trans _ _ _ i4 f1⟩
      simp only [rowLoop_eq_lineLoop, e1, Option.map_some'])
  exact ⟨st1, e1, p1, p2, p4⟩

theorem colScan_agrees (field : PlayField) (hne : field.spaces ≠ []) (st : ScanState)
    (hs : shapeOf st.plan = shapeOf field.spaces) (ha : PlanAgrees st) :
    ∃ st1, colScan field st = some st1 ∧ PlanAgrees st1 ∧
      shapeOf st1.plan = shapeOf field.spaces ∧ PlanFrame st.plan st1.plan := by
  unfold colScan
  cases hsp : field.spaces with
  | nil => exact absurd hsp hne
  | cons row0 rest =>
    simp only
    rw [← hsp]
    obtain ⟨st1, e1, p1, p2, p4⟩ := foldlM_range_invariant
      (fun st x => colLoop field x (field.spaces.length + 1) 0
        { st with currentStreak := 0, currentColor := SpaceColor.Uncolored })
      (fun _ (s : ScanState) => PlanAgrees s ∧ shapeOf s.plan = shapeOf field.spaces ∧
        PlanFrame st.plan s.plan)
      row0.length st ⟨ha, hs, planFrame_refl _⟩
      (by
        intro x s hx ⟨i1, i2, i4⟩
        obtain ⟨s1, e1, f1⟩ := lineLoop_total
          (fun i => decide (checkCoordinateInBounds field i x ≠ none))
          (fun i => colorAt field i x) (fun i => (i, x)) field.spaces.length
          (by simpa using checkCoordinateInBounds_col_end field x)
          (field.spaces.length + 1) 0
          { s with currentStreak := 0, currentColor := SpaceColor.Uncolored }
          (Nat.zero_le _) (by omega)
        obtain ⟨a1, a2⟩ := lineLoop_agrees
          (fun i => decide (checkCoordinateInBounds field i x ≠ none))
          (fun i => colorAt field i x) (fun i => (i, x)) (shapeOf field.spaces)
          (by
            intro k hk p hp
            simp only [decide_eq_false_iff_not, ne_eq, not_not,
              checkCoordinateInBounds_eq_none_iff, inBounds_nat_iff] at hk
            simp only
            rw [shapeOf_gridRow_length p field.spaces hp]
            exact hk.2)
          _ 0 { s with currentStreak := 0, currentColor := SpaceColor.Uncolored } s1
          ⟨i2, Nat.le_refl 0, fun k hk => absurd hk (Nat.not_lt_zero k)⟩ i1 e1
        refine ⟨s1, ?_, a1, a2, planFrame_trans _ _ _ i4 f1⟩
        simp only [colLoop_eq_lineLoop, e1])
    exact ⟨st1, e1, p1, p2, p4⟩

/-- The shape of the evaluator's answer on a field with at least one row: the docked field
marks exactly the anchored cells; the plan has the shape of the field and holds `Fall` at
exactly the undocked pills; with an undocked pill the dominant action is `Fall` and nothing
is `Clear`; without one every entry is `NoAction` or `Clear` and the dominant action is
`Clear` exactly when some entry is. -/
theorem evaluate_structure (field : PlayField) (hne : field.spaces ≠ []) :
    ∃ docked plan dominant,
      generateDockedField field = some docked ∧
      shapeOf docked = shapeOf field.spaces ∧
      (∀ y x : Nat, dockedAt docked y x = true ↔ Anchored field y x) ∧
      EvaluateBoardIteration field = some (plan, dominant) ∧
      shapeOf plan = shapeOf field.spaces ∧
      (∀ y x, planAt plan y x = NextIteration.Fall ↔ Undocked field docked y x) ∧
      ((∃ y x, Undocked field docked y x) →
        dominant = NextIteration.Fall ∧
        ∀ y x, planAt plan y x = NextIteration.Fall ∨ planAt plan y x = NextIteration.NoAction) ∧
      ((¬ ∃ y x, Undocked field docked y x) →
        (dominant = NextIteration.NoAction ∨ dominant = NextIteration.Clear) ∧
        (dominant = NextIteration.Clear ↔ ∃ y x, planAt plan y x = NextIteration.Clear) ∧
        ∀ y x, planAt plan y x = NextIteration.NoAction ∨
          planAt plan y x = NextIteration.Clear) := by
  obtain ⟨docked, hdock, hshape, hinv⟩ := generateDockedField_dockInv field
  have hanch := dockInv_iff field docked hinv
  have hplan := fallScan_emptyPlan field docked hshape
  obtain ⟨hsh1, _, _, hflag⟩ := fallScan_spec field docked (emptyPlan field)
    ((shapeOf_emptyPlan field).trans hshape.symm) hshape
  have hsh2 : shapeOf (fallScan field docked (emptyPlan field)).1 = shapeOf field.spaces :=
    hsh1.trans (shapeOf_emptyPlan field)
  unfold EvaluateBoardIteration
  rw [hdock]
  simp only
  by_cases hfound : (fallScan field docked (emptyPlan field)).2 = true
  · rw [if_pos hfound]
    refine ⟨docked, _, _, rfl, hshape, hanch, rfl, hsh2, ?_, ?_, ?_⟩
    · intro y x
      constructor
      · intro hf
        by_contra hc
        rw [(hplan y x).2 hc] at hf
        cases hf
      · exact (hplan y x).1
    · intro _
      refine ⟨rfl, ?_⟩
      intro y x
      by_cases hu : Undocked field docked y x
      · exact Or.inl ((hplan y x).1 hu)
      · exact Or.inr ((hplan y x).2 hu)
    · intro hno
      exact absurd (hflag.mp hfound) hno
  · rw [if_neg hfound]
    have hnone : ∀ y x, ¬ Undocked field docked y x := by
      intro y x hu
      exact hfound (hflag.mpr ⟨y, x, hu⟩)
    have hbase : ∀ y x, planAt (fallScan field docked (emptyPlan field)).1 y x =
        NextIteration.NoAction := fun y x => (hplan y x).2 (hnone y x)
    obtain ⟨st1, e1, a1, s1, f1⟩ := rowScan_agrees field
      ⟨0, SpaceColor.Uncolored, NextIteration.NoAction,
        (fallScan field docked (emptyPlan field)).1⟩ hsh2 rfl
      ⟨Or.inl rfl, by
        simp only [false_iff, not_exists]
        constructor
        · intro h; cases h
        · rintro ⟨y, x, h⟩
          rw [hbase y x] at h
          cases h⟩
    obtain ⟨st2, e2, a2, s2, f2⟩ := colScan_agrees field hne st1 s1 a1
    rw [e1]
    simp only
    rw [e2]
    have hcells : ∀ y x, planAt st2.plan y x = NextIteration.NoAction ∨
        planAt st2.plan y x = NextIteration.Clear := by
      intro y x
      rcases (planFrame_trans _ _ _ f1 f2).2 y x with h | h
      · left; rw [h]; exact hbase y x
      · right; exact h
    refine ⟨docked, _, _, rfl, hshape, hanch, rfl, s2, ?_, ?_, ?_⟩
    · intro y x
      constructor
      · intro hf
        rcases hcells y x with h | h
        · rw [h] at hf; cases hf
        · rw [h] at hf; cases hf
      · intro hu; exact absurd hu (hnone y x)
    · rintro ⟨y, x, hu⟩
      exact absurd hu (hnone y x)
    · intro _
      exact ⟨a2.1, a2.2, hcells⟩

/-- C11: on a field with at least one row the dominant action returned by
`EvaluateBoardIteration` agrees with the plan: it is `Fall` exactly when some cell is marked
`Fall`, `Clear` exactly when no cell is marked `Fall` and some cell is marked `Clear`, and
`NoAction` exactly when every entry of the plan is `NoAction`. -/
theorem evaluate_dominant_agrees (field : PlayField) (hne : field.spaces ≠ []) :
    ∃ plan dominant,
      EvaluateBoardIteration field = some (plan, dominant) ∧
      (dominant = NextIteration.Fall ↔ ∃ y x, planAt plan y x = NextIteration.Fall) ∧
      (dominant = NextIteration.Clear ↔
        (¬ ∃ y x, planAt plan y x = NextIteration.Fall) ∧
          ∃ y x, planAt plan y x = NextIteration.Clear) ∧
      (dominant = NextIteration.NoAction ↔
        ∀ y x, planAt plan y x = NextIteration.NoAction) := by
  obtain ⟨docked, plan, dominant, _, _, _, he, _, hfall, hyes, hno⟩ :=
    evaluate_structure field hne
  refine ⟨plan, dominant, he, ?_⟩
  by_cases hu : ∃ y x, Undocked field docked y x
  · obtain ⟨hd, hcells⟩ := hyes hu
    obtain ⟨y0, x0, hu0⟩ := hu
    have hf0 : planAt plan y0 x0 = NextIteration.Fall := (hfall y0 x0).mpr hu0
    subst hd
    refine ⟨⟨fun _ => ⟨y0, x0, hf0⟩, fun _ => rfl⟩, ⟨(fun h => by cases h), ?_⟩,
      ⟨(fun h => by cases h), ?_⟩⟩
    · rintro ⟨h1, _⟩
      exact absurd ⟨y0, x0, hf0⟩ h1
    · intro h
      rw [h y0 x0] at hf0
      cases hf0
  · obtain ⟨hd, hiff, hcells⟩ := hno hu
    have hnofall : ¬ ∃ y x, planAt plan y x = NextIteration.Fall := by
      rintro ⟨y, x, h⟩
      exact hu ⟨y, x, (hfall y x).mp h⟩
    refine ⟨⟨?_, fun h => absurd h hnofall⟩, ⟨fun h => ⟨hnofall, hiff.mp h⟩,
      fun h => hiff.mpr h.2⟩, ⟨?_, ?_⟩⟩
    · intro h
      rcases hd with hd | hd
      · rw [hd] at h; cases h
      · rw [hd] at h; cases h
    · intro h y x
      rcases hcells y x with hc | hc
      · exact hc
      · have := hiff.mpr ⟨y, x, hc⟩
        rw [h] at this
        cases this
    · intro h
      rcases hd with hd | hd
      · exact hd
      · obtain ⟨y, x, hc⟩ := hiff.mp hd
        rw [h y x] at hc
        cases hc

theorem evaluate_dominant_agrees_witness :
    sampleClearRow.spaces ≠ [] ∧
    ∃ plan dominant,
      EvaluateBoardIteration sampleClearRow = some (plan, dominant) ∧
      (dominant = NextIteration.Fall ↔ ∃ y x, planAt plan y x = NextIteration.Fall) ∧
      (dominant = NextIteration.Clear ↔
        (¬ ∃ y x, planAt plan y x = NextIteration.Fall) ∧
          ∃ y x, planAt plan y x = NextIteration.Clear) ∧
      (dominant = NextIteration.NoAction ↔
        ∀ y x, planAt plan y x = NextIteration.NoAction) :=
  ⟨by decide, evaluate_dominant_agrees sampleClearRow (by decide)⟩

/-! ## The Fall pass -/

theorem putSpace_nat (field : PlayField) (y x : Nat) (space : Space)
    (hy : y < field.spaces.length) (hx : x < (gridRow field.spaces y).length) :
    putSpaceAtCoordinate field (y : Int) (x : Int) space =
      (⟨gridSet field.spaces y x space⟩, none) := by
  rw [putSpaceAtCoordinate_of_inBounds field y x space
    ((inBounds_nat_iff field y x).mpr ⟨hy, hx⟩)]
  simp

theorem spaceAt_gridSet_nat_same (field : PlayField) (y x : Nat) (v : Space)
    (hx : x < (gridRow field.spaces y).length) :
    spaceAt ⟨gridSet field.spaces y x v⟩ y x = v := by
  unfold spaceAt
  simp [gridGet?_gridSet_same _ _ _ _ hx]

theorem planAt_inRange (plan : List (List NextIteration)) (y x : Nat)
    (h : planAt plan y x ≠ NextIteration.NoAction) :
    y < plan.length ∧ x < (gridRow plan y).length := by
  have hx : x < (gridRow plan y).length := by
    by_contra hc
    apply h
    unfold planAt gridGet?
    rw [List.getElem?_eq_none (Nat.le_of_not_lt hc)]
    rfl
  refine ⟨?_, hx⟩
  by_contra hc
  rw [gridRow_length_le _ _ (Nat.le_of_not_lt hc)] at hx
  simp at hx

/-- One row of the Fall pass: every marked cell among the columns `xs` is copied one row
down and emptied; no write fails. -/
theorem fallPassRow_spec (plan : List (List NextIteration)) (y : Nat) :
    ∀ (xs : List Nat) (field : PlayField), xs.Nodup →
      y + 1 < field.spaces.length →
      (∀ x, x ∈ xs → x < (gridRow field.spaces y).length ∧
        x < (gridRow field.spaces (y + 1)).length) →
      ∃ field1, fallPassRow plan y xs field = (field1, none) ∧
        shapeOf field1.spaces = shapeOf field.spaces ∧
        ∀ a b, spaceAt field1 a b =
          if a = y + 1 ∧ b ∈ xs ∧ planAt plan y b = NextIteration.Fall then spaceAt field y b
          else if a = y ∧ b ∈ xs ∧ planAt plan y b = NextIteration.Fall then Space.zero
          else spaceAt field a b := by
  intro xs
  induction xs with
  | nil =>
    intro field _ _ _
    exact ⟨field, rfl, rfl, fun a b => by simp⟩
  | cons x xs ih =>
    intro field hnd hy hxs
    have hx := hxs x (List.mem_cons_self _ _)
    have hnd2 : xs.Nodup := (List.nodup_cons.mp hnd).2
    have hxn : x ∉ xs := (List.nodup_cons.mp hnd).1
    rw [fallPassRow]
    by_cases hf : planAt plan y x = NextIteration.Fall
    · rw [if_pos hf]
      have e1 : putSpaceAtCoordinate field ((y : Int) + 1) x (spaceAt field y x) =
          (⟨gridSet field.spaces (y + 1) x (spaceAt field y x)⟩, none) := by
        have := putSpace_nat field (y + 1) x (spaceAt field y x) hy hx.2
        simpa using this
      rw [e1]
      simp only
      have e2 : putSpaceAtCoordinate
          ⟨gridSet field.spaces (y + 1) x (spaceAt field y x)⟩ (y : Int) (x : Int)
            Space.zero =
          (⟨gridSet (gridSet field.spaces (y + 1) x (spaceAt field y x)) y x Space.zero⟩,
            none) := by
        apply putSpace_nat
        · simp only [gridSet_length]; omega
        · simp only [gridRow_gridSet_length]; exact hx.1
      rw [e2]
      simp only
      obtain ⟨f1, r1, r2, r3⟩ := ih
        ⟨gridSet (gridSet field.spaces (y + 1) x (spaceAt field y x)) y x Space.zero⟩
        hnd2 (by simp only [gridSet_length]; exact hy)
        (by
          intro x2 hx2
          simp only [gridRow_gridSet_length]
          exact hxs x2 (List.mem_cons_of_mem _ hx2))
      refine ⟨f1, r1, by rw [r2]; simp only [shapeOf_gridSet], ?_⟩
      intro a b
      rw [r3 a b]
      have hread : ∀ a2 b2, spaceAt
          ⟨gridSet (gridSet field.spaces (y + 1) x (spaceAt field y x)) y x Space.zero⟩ a2 b2 =
          if a2 = y ∧ b2 = x then Space.zero
          else if a2 = y + 1 ∧ b2 = x then spaceAt field y x
          else spaceAt field a2 b2 := by
        intro a2 b2
        by_cases h1 : a2 = y ∧ b2 = x
        · rw [if_pos h1]
          rw [h1.1, h1.2]
          apply spaceAt_gridSet_nat_same
            ⟨gridSet field.spaces (y + 1) x (spaceAt field y x)⟩
          simp only [gridRow_gridSet_length]; exact hx.1
        · rw [if_neg h1, spaceAt_gridSet_other
            ⟨gridSet field.spaces (y + 1) x (spaceAt field y x)⟩ y x _ a2 b2 h1]
          by_cases h2 : a2 = y + 1 ∧ b2 = x
          · rw [if_pos h2]
            rw [h2.1, h2.2]
            exact spaceAt_gridSet_nat_same field _ _ _ hx.2
          · rw [if_neg h2, spaceAt_gridSet_other field _ _ _ a2 b2 h2]
      simp only [hread, List.mem_cons]
      by_cases hb : b = x
      · subst hb
        by_cases ha1 : a = y + 1
        · subst ha1
          simp [hxn, hf]
        · by_cases ha2 : a = y
          · subst ha2
            simp [hxn, hf]
          · simp [ha1, ha2]
      · by_cases hbm : b ∈ xs
        · by_cases ha1 : a = y + 1
          · subst ha1
            simp [hb, hbm]
          · by_cases ha2 : a = y
            · subst ha2
              simp [hb, hbm]
            · simp [ha1, ha2, hb]
        · simp [hb, hbm]
    · rw [if_neg hf]
      obtain ⟨f1, r1, r2, r3⟩ := ih field hnd2 hy
        (fun x2 hx2 => hxs x2 (List.mem_cons_of_mem _ hx2))
      refine ⟨f1, r1, r2, ?_⟩
      intro a b
      rw [r3 a b]
      simp only [List.mem_cons]
      by_cases hb : b = x
      · subst hb
        simp [hxn, hf]
      · simp [hb]


theorem rectangular_of_shape (field field1 : PlayField)
    (h : shapeOf field1.spaces = shapeOf field.spaces) (hr : Rectangular field) :
    Rectangular field1 := by
  intro y hy
  rw [shapeOf_length _ _ h] at hy
  rw [shapeOf_gridRow_length _ _ h, shapeOf_gridRow_length _ _ h]
  exact hr y hy

/-- The Fall pass over rows visited in descending order: no write fails, the shape is
kept, and every cell is the one given by `fallTarget`. -/
theorem fallPass_spec (plan : List (List NextIteration)) :
    ∀ (ys : List Nat) (field : PlayField), ys.Pairwise (fun a b => b < a) →
      Rectangular field → shapeOf plan = shapeOf field.spaces →
      (∀ y, y ∈ ys → y + 1 < field.spaces.length) →
      ∃ field1, fallPass plan ys field = (field1, none) ∧
        shapeOf field1.spaces = shapeOf field.spaces ∧
        ∀ a b, spaceAt field1 a b = fallTarget field plan ys a b := by
  intro ys
  induction ys with
  | nil =>
    intro field _ _ _ _
    exact ⟨field, rfl, rfl, fun a b => by simp [fallTarget]⟩
  | cons y ys ih =>
    intro field hsorted hrect hps hys
    have hy := hys y (List.mem_cons_self _ _)
    have hlt : ∀ z, z ∈ ys → z < y := (List.pairwise_cons.mp hsorted).1
    obtain ⟨f1, r1, r2, r3⟩ := fallPassRow_spec plan y
      (List.range (gridRow field.spaces y).length) field (List.nodup_range _) hy
      (by
        intro x hx
        rw [List.mem_range] at hx
        refine ⟨hx, ?_⟩
        rw [hrect (y + 1) hy, ← hrect y (by omega)]
        exact hx)
    have d1 : ∀ a b, spaceAt f1 a b =
        if a = y + 1 ∧ planAt plan y b = NextIteration.Fall then spaceAt field y b
        else if a = y ∧ planAt plan y b = NextIteration.Fall then Space.zero
        else spaceAt field a b := by
      intro a b
      rw [r3 a b]
      by_cases hf : planAt plan y b = NextIteration.Fall
      · have hb : b ∈ List.range (gridRow field.spaces y).length := by
          rw [List.mem_range, ← shapeOf_gridRow_length plan field.spaces hps]
          exact (planAt_inRange plan y b (by rw [hf]; decide)).2
        simp [hb, hf]
      · simp [hf]
    obtain ⟨f2, q1, q2, q3⟩ := ih f1 (List.pairwise_cons.mp hsorted).2
      (rectangular_of_shape field f1 r2 hrect) (hps.trans r2.symm)
      (by
        intro z hz
        rw [shapeOf_length _ _ r2]
        exact hys z (List.mem_cons_of_mem _ hz))
    refine ⟨f2, ?_, q2.trans r2, ?_⟩
    · rw [fallPass, r1]
      simp only
      exact q1
    · intro a b
      rw [q3 a b]
      unfold fallTarget
      by_cases c1 : 0 < a ∧ (a - 1) ∈ ys ∧ planAt plan (a - 1) b = NextIteration.Fall
      · have hz := hlt _ c1.2.1
        rw [if_pos c1, if_pos ⟨c1.1, List.mem_cons_of_mem _ c1.2.1, c1.2.2⟩, d1]
        rw [if_neg (by omega), if_neg (by omega)]
      · rw [if_neg c1]
        by_cases c2 : a ∈ ys ∧ planAt plan a b = NextIteration.Fall
        · have hz := hlt _ c2.1
          rw [if_pos c2]
          have n1 : ¬ (0 < a ∧ (a - 1) ∈ y :: ys ∧
              planAt plan (a - 1) b = NextIteration.Fall) := by
            rintro ⟨h0, hm, hf⟩
            rcases List.mem_cons.mp hm with hm | hm
            · omega
            · exact c1 ⟨h0, hm, hf⟩
          rw [if_neg n1, if_pos ⟨List.mem_cons_of_mem _ c2.1, c2.2⟩]
        · rw [if_neg c2, d1]
          by_cases c3 : a = y + 1 ∧ planAt plan y b = NextIteration.Fall
          · rw [if_pos c3]
            have e : a - 1 = y := by omega
            rw [if_pos ⟨by omega, by rw [e]; exact List.mem_cons_self _ _, by rw [e]; exact c3.2⟩,
              e]
          · rw [if_neg c3]
            have n1 : ¬ (0 < a ∧ (a - 1) ∈ y :: ys ∧
                planAt plan (a - 1) b = NextIteration.Fall) := by
              rintro ⟨h0, hm, hf⟩
              rcases List.mem_cons.mp hm with hm | hm
              · apply c3
                rw [hm] at hf
                exact ⟨by omega, hf⟩
              · exact c1 ⟨h0, hm, hf⟩
            rw [if_neg n1]
            by_cases c4 : a = y ∧ planAt plan y b = NextIteration.Fall
            · rw [if_pos c4, if_pos ⟨by rw [c4.1]; exact List.mem_cons_self _ _,
                by rw [c4.1]; exact c4.2⟩]
            · rw [if_neg c4]
              have n2 : ¬ (a ∈ y :: ys ∧ planAt plan a b = NextIteration.Fall) := by
                rintro ⟨hm, hf⟩
                rcases List.mem_cons.mp hm with hm | hm
                · apply c4
                  rw [hm] at hf
                  exact ⟨hm, hf⟩
                · exact c2 ⟨hm, hf⟩
              rw [if_neg n2]

theorem fallRows_sorted (field : PlayField) :
    (fallRows field).Pairwise (fun a b => b < a) := by
  unfold fallRows
  rw [List.pairwise_reverse]
  exact List.pairwise_lt_range _

theorem mem_fallRows (field : PlayField) (y : Nat) :
    y ∈ fallRows field ↔ y + 1 < field.spaces.length := by
  unfold fallRows
  rw [List.mem_reverse, List.mem_range]
  omega

/-- A pill of the bottom row is never undocked: it is a seed of the docked search. -/
theorem bottom_row_docked (field : PlayField) (docked : List (List Bool))
    (hanch : ∀ y x : Nat, dockedAt docked y x = true ↔ Anchored field y x)
    (y x : Nat) (hy : y + 1 = field.spaces.length) : ¬ Undocked field docked y x := by
  intro hu
  have hr := undocked_inRange field docked y x hu
  have hs : IsSeed field (y : Int) (x : Int) := by
    refine ⟨(inBounds_nat_iff field y x).mpr hr, Or.inr ⟨?_, ?_⟩⟩
    · unfold GetBottomRowIndex; omega
    · simp only [Int.toNat_ofNat]
      rw [hu.1]; decide
  have hd := (hanch y x).mpr (Anchored.seed _ _ hs)
  rw [hu.2] at hd
  cases hd

/-- The evaluator only returns on a field with at least one row. -/
theorem evaluate_some_nonempty (field : PlayField)
    (r : List (List NextIteration) × NextIteration)
    (he : EvaluateBoardIteration field = some r) : field.spaces ≠ [] := by
  intro h0
  have : EvaluateBoardIteration field = none := by
    unfold EvaluateBoardIteration colScan rowScan
    obtain ⟨docked, hd, hs⟩ := generateDockedField_total field
    rw [hd]
    have hf : (fallScan field docked (emptyPlan field)).2 = false := by
      unfold fallScan
      have : docked.length = 0 := by
        rw [shapeOf_length docked field.spaces hs, h0]; rfl
      rw [this]
      rfl
    simp [hf, h0]
  rw [this] at he
  cases he

/-- The Fall branch of `IterateBoard` on a rectangular field: it succeeds, and every cell
marked `Fall` has moved down one row. -/
theorem fallStep_cells (field : PlayField) (plan : List (List NextIteration))
    (hrect : Rectangular field)
    (he : EvaluateBoardIteration field = some (plan, NextIteration.Fall)) :
    ∃ field1, IterateBoard field = some (field1, none) ∧
      shapeOf field1.spaces = shapeOf field.spaces ∧
      ∀ y x : Nat, spaceAt field1 y x =
        if 0 < y ∧ planAt plan (y - 1) x = NextIteration.Fall then spaceAt field (y - 1) x
        else if planAt plan y x = NextIteration.Fall then Space.zero
        else spaceAt field y x := by
  have hne : field.spaces ≠ [] := evaluate_some_nonempty field _ he
  obtain ⟨docked, plan2, dom2, _, _, hanch, he2, hps, hfall, _, _⟩ :=
    evaluate_structure field hne
  rw [he] at he2
  injection he2 with he2
  injection he2 with e1 e2
  subst e1
  obtain ⟨f1, r1, r2, r3⟩ := fallPass_spec plan (fallRows field) field
    (fallRows_sorted field) hrect hps (fun y hy => (mem_fallRows field y).mp hy)
  refine ⟨f1, ?_, r2, ?_⟩
  · unfold IterateBoard
    rw [he]
    simp only [r1]
    rfl
  · intro y x
    rw [r3 y x]
    unfold fallTarget
    have hrow : ∀ a b, planAt plan a b = NextIteration.Fall → a ∈ fallRows field := by
      intro a b hf
      rw [mem_fallRows]
      have hr := planAt_inRange plan a b (by rw [hf]; decide)
      rw [shapeOf_length plan field.spaces hps] at hr
      by_contra hc
      exact bottom_row_docked field docked hanch a b (by omega) ((hfall a b).mp hf)
    by_cases c1 : 0 < y ∧ planAt plan (y - 1) x = NextIteration.Fall
    · rw [if_pos c1, if_pos ⟨c1.1, hrow _ _ c1.2, c1.2⟩]
    · rw [if_neg c1, if_neg (fun h => c1 ⟨h.1, h.2.2⟩)]
      by_cases c2 : planAt plan y x = NextIteration.Fall
      · rw [if_pos c2, if_pos ⟨hrow _ _ c2, c2⟩]
      · rw [if_neg c2, if_neg (fun h => c2 h.2)]

/-- C13: on a rectangular field whose evaluation has dominant action `Fall` with plan `p`,
`IterateBoard` returns success and leaves a field of the same shape in which the cell at
`(y, x)` is the former cell of `(y - 1, x)` if `y > 0` and `p[y-1][x] = Fall`; otherwise the
empty cell if `p[y][x] = Fall`; otherwise the former cell of `(y, x)`. -/
theorem iterateBoard_fall (field : PlayField) (plan : List (List NextIteration))
    (hrect : Rectangular field)
    (he : EvaluateBoardIteration field = some (plan, NextIteration.Fall)) :
    ∃ field1, IterateBoard field = some (field1, none) ∧
      shapeOf field1.spaces = shapeOf field.spaces ∧
      ∀ y x : Nat, spaceAt field1 y x =
        if 0 < y ∧ planAt plan (y - 1) x = NextIteration.Fall then spaceAt field (y - 1) x
        else if planAt plan y x = NextIteration.Fall then
          ⟨SpaceContent.Empty, SpaceLinkage.Unlinked, SpaceColor.Uncolored⟩
        else spaceAt field y x := by
  obtain ⟨field1, h1, h2, h3⟩ := fallStep_cells field plan hrect he
  refine ⟨field1, h1, h2, ?_⟩
  intro y x
  rw [h3 y x]
  rfl

theorem iterateBoard_fall_witness :
    Rectangular sampleFallAndRun ∧
    ∃ field1, IterateBoard sampleFallAndRun = some (field1, none) ∧
      shapeOf field1.spaces = shapeOf sampleFallAndRun.spaces ∧
      ∀ y x : Nat, spaceAt field1 y x =
        if 0 < y ∧ planAt [[NextIteration.NoAction, NextIteration.NoAction,
              NextIteration.NoAction, NextIteration.NoAction, NextIteration.Fall],
             [NextIteration.NoAction, NextIteration.NoAction, NextIteration.NoAction,
              NextIteration.NoAction, NextIteration.NoAction]] (y - 1) x =
            NextIteration.Fall then spaceAt sampleFallAndRun (y - 1) x
        else if planAt [[NextIteration.NoAction, NextIteration.NoAction,
              NextIteration.NoAction, NextIteration.NoAction, NextIteration.Fall],
             [NextIteration.NoAction, NextIteration.NoAction, NextIteration.NoAction,
              NextIteration.NoAction, NextIteration.NoAction]] y x = NextIteration.Fall then
          ⟨SpaceContent.Empty, SpaceLinkage.Unlinked, SpaceColor.Uncolored⟩
        else spaceAt sampleFallAndRun y x :=
  ⟨by decide, iterateBoard_fall sampleFallAndRun _ (by decide) (by decide)⟩

/-! ## The Clear pass -/

theorem partnerOf_unlinked (y x : Nat) : partnerOf y x SpaceLinkage.Unlinked = none := rfl

theorem partnerOf_ne_self (y x : Nat) (l : SpaceLinkage) (q : Nat × Nat)
    (h : partnerOf y x l = some q) : q ≠ (y, x) := by
  cases l <;> simp [partnerOf, GetLinkedCoordinate] at h
  all_goals
    obtain ⟨_, h2⟩ := h
    rw [← h2]
    intro hc
    injection hc with h3 h4
    omega

/-- Stepping in a direction and then in the opposite direction comes back. -/
theorem partnerOf_symm (y x : Nat) (l : SpaceLinkage) (q : Nat × Nat)
    (h : partnerOf y x l = some q) : partnerOf q.1 q.2 (getOpposingLinkage l) = some (y, x) := by
  cases l <;> simp [partnerOf, GetLinkedCoordinate] at h
  all_goals
    obtain ⟨h1, h2⟩ := h
    rw [← h2]
    simp only [partnerOf, GetLinkedCoordinate, getOpposingLinkage]
    have e1 : ((y : Int) - 1).toNat = y - 1 := by omega
    have e2 : ((x : Int) - 1).toNat = x - 1 := by omega
    have e3 : ((y : Int) + 1).toNat = y + 1 := by omega
    have e4 : ((x : Int) + 1).toNat = x + 1 := by omega
    simp only [e1, e2, e3, e4, Int.toNat_ofNat]
    rw [if_pos (by omega)]
    simp only [Option.some.injEq, Prod.mk.injEq, and_true, true_and]
    omega

/-- The link invariant at a cell given by natural-number indices. -/
theorem linkConsistent_nat (field : PlayField) (hlc : LinkConsistent field) (y x : Nat)
    (hy : y < field.spaces.length) (hx : x < (gridRow field.spaces y).length)
    (hl : (spaceAt field y x).Linkage ≠ SpaceLinkage.Unlinked) :
    ∃ qy qx : Nat,
      GetLinkedCoordinate y x (spaceAt field y x).Linkage = Except.ok ((qy : Int), (qx : Int)) ∧
      partnerOf y x (spaceAt field y x).Linkage = some (qy, qx) ∧
      qy < field.spaces.length ∧ qx < (gridRow field.spaces qy).length ∧
      (spaceAt field qy qx).Content = SpaceContent.Pill ∧
      (spaceAt field qy qx).Linkage = getOpposingLinkage (spaceAt field y x).Linkage := by
  have hb := (inBounds_nat_iff field y x).mpr ⟨hy, hx⟩
  obtain ⟨ly, lx, hg, hb2, hc, hk⟩ := hlc y x hb (by simpa using hl)
  simp only [Int.toNat_ofNat] at hg hc hk
  obtain ⟨e1, e2⟩ := inBounds_cast field ly lx hb2
  have hb3 := hb2
  rw [e1, e2, inBounds_nat_iff] at hb3
  refine ⟨ly.toNat, lx.toNat, by rw [← e1, ← e2]; exact hg, ?_, hb3.1, hb3.2, hc, hk⟩
  unfold partnerOf
  rw [hg]
  simp only
  rw [if_pos ⟨hb2.1, hb2.2.2.1⟩]


theorem getSpace_nat (field : PlayField) (y x : Nat)
    (hy : y < field.spaces.length) (hx : x < (gridRow field.spaces y).length) :
    GetSpaceAtCoordinate field (y : Int) (x : Int) = Except.ok (spaceAt field y x) := by
  rw [getSpace_ok_iff]
  exact ⟨(inBounds_nat_iff field y x).mpr ⟨hy, hx⟩, by simp⟩

theorem clearSpace_unlinked_nat (field : PlayField) (y x : Nat)
    (hy : y < field.spaces.length) (hx : x < (gridRow field.spaces y).length)
    (hl : (spaceAt field y x).Linkage = SpaceLinkage.Unlinked) :
    clearSpace field (y : Int) (x : Int) = (⟨gridSet field.spaces y x Space.zero⟩, none) := by
  unfold clearSpace
  rw [getSpace_nat field y x hy hx]
  simp only [hl, if_true]
  rw [putSpace_nat field y x _ hy hx]

theorem clearSpace_linked_nat (field : PlayField) (y x qy qx : Nat)
    (hy : y < field.spaces.length) (hx : x < (gridRow field.spaces y).length)
    (hl : (spaceAt field y x).Linkage ≠ SpaceLinkage.Unlinked)
    (hg : GetLinkedCoordinate y x (spaceAt field y x).Linkage =
      Except.ok ((qy : Int), (qx : Int)))
    (hqy : qy < field.spaces.length) (hqx : qx < (gridRow field.spaces qy).length) :
    clearSpace field (y : Int) (x : Int) =
      (⟨gridSet (gridSet field.spaces qy qx
          { spaceAt field qy qx with Linkage := SpaceLinkage.Unlinked }) y x Space.zero⟩,
        none) := by
  unfold clearSpace
  rw [getSpace_nat field y x hy hx]
  simp only [hl, if_false, hg]
  rw [getSpace_nat field qy qx hqy hqx]
  simp only
  rw [putSpace_nat field qy qx _ hqy hqx]
  simp only
  rw [putSpace_nat _ y x _ (by simp only [gridSet_length]; exact hy)
    (by simp only [gridRow_gridSet_length]; exact hx)]

theorem spaceAt_zero_of_not_inRange (field : PlayField) (y x : Nat)
    (h : ¬ (y < field.spaces.length ∧ x < (gridRow field.spaces y).length)) :
    spaceAt field y x = Space.zero := by
  by_contra hc
  exact h (spaceAt_inRange field y x hc)

theorem spaceAt_gridSet_nat (field : PlayField) (a b : Nat) (v : Space) (y x : Nat)
    (hb : b < (gridRow field.spaces a).length) :
    spaceAt ⟨gridSet field.spaces a b v⟩ y x =
      if y = a ∧ x = b then v else spaceAt field y x := by
  by_cases h : y = a ∧ x = b
  · rw [if_pos h, h.1, h.2]
    exact spaceAt_gridSet_nat_same field a b v hb
  · rw [if_neg h]
    exact spaceAt_gridSet_other field a b v y x h

/-- If the partner of a linked cell is `c`, then the partner of `c` is that cell. -/
theorem partner_back (field : PlayField) (hlc : LinkConsistent field) (a b : Nat)
    (c : Nat × Nat) (h : partnerOf a b (spaceAt field a b).Linkage = some c) :
    (spaceAt field c.1 c.2).Linkage ≠ SpaceLinkage.Unlinked ∧
    partnerOf c.1 c.2 (spaceAt field c.1 c.2).Linkage = some (a, b) := by
  have hl : (spaceAt field a b).Linkage ≠ SpaceLinkage.Unlinked := by
    intro h0
    rw [h0, partnerOf_unlinked] at h
    cases h
  have hr : a < field.spaces.length ∧ b < (gridRow field.spaces a).length := by
    apply spaceAt_inRange
    intro hz
    apply hl
    rw [hz]; rfl
  obtain ⟨qy, qx, _, hp, _, _, _, hk⟩ := linkConsistent_nat field hlc a b hr.1 hr.2 hl
  rw [hp] at h
  injection h with h
  subst h
  simp only
  have hs := partnerOf_symm a b _ _ hp
  simp only at hs
  refine ⟨?_, by rw [hk]; exact hs⟩
  rw [hk]
  intro h0
  rw [h0, partnerOf_unlinked] at hs
  cases hs


theorem clearTarget_self (field0 : PlayField) (cleared : List (Nat × Nat)) (y x : Nat) :
    clearTarget field0 ((y, x) :: cleared) y x = Space.zero := by
  unfold clearTarget
  rw [if_pos (List.mem_cons_self _ _)]

theorem clearTarget_cons (field0 : PlayField) (cleared : List (Nat × Nat)) (c : Nat × Nat)
    (a b : Nat) (hne : (a, b) ≠ c)
    (hp : partnerOf a b (spaceAt field0 a b).Linkage = some c → (a, b) ∈ cleared) :
    clearTarget field0 (c :: cleared) a b = clearTarget field0 cleared a b := by
  unfold clearTarget
  by_cases hm : (a, b) ∈ cleared
  · rw [if_pos hm, if_pos (List.mem_cons_of_mem _ hm)]
  · have hm2 : (a, b) ∉ c :: cleared := by
      intro h
      rcases List.mem_cons.mp h with h | h
      · exact hne h
      · exact hm h
    rw [if_neg hm, if_neg hm2]
    cases hq : partnerOf a b (spaceAt field0 a b).Linkage with
    | none => rfl
    | some q =>
      simp only
      have hqc : q ≠ c := by
        intro h
        rw [h] at hq
        exact hm (hp hq)
      by_cases hqm : q ∈ cleared
      · rw [if_pos hqm, if_pos (List.mem_cons_of_mem _ hqm)]
      · have : q ∉ c :: cleared := by
          intro h
          rcases List.mem_cons.mp h with h | h
          · exact hqc h
          · exact hqm h
        rw [if_neg hqm, if_neg this]

/-- One call of `clearSpace` in the Clear pass: on a field that is the link-consistent field
`field0` with the cells `cleared` already cleared, clearing one more in-range cell succeeds
and gives `field0` with that cell cleared as well. -/
theorem clearSpace_step (field0 : PlayField) (hlc : LinkConsistent field0) (field : PlayField)
    (cleared : List (Nat × Nat))
    (hshape : shapeOf field.spaces = shapeOf field0.spaces)
    (hinv : ∀ a b, spaceAt field a b = clearTarget field0 cleared a b)
    (y x : Nat) (hy : y < field0.spaces.length) (hx : x < (gridRow field0.spaces y).length)
    (hnd : (y, x) ∉ cleared) :
    ∃ field1, clearSpace field (y : Int) (x : Int) = (field1, none) ∧
      shapeOf field1.spaces = shapeOf field0.spaces ∧
      ∀ a b, spaceAt field1 a b = clearTarget field0 ((y, x) :: cleared) a b := by
  have hyf : y < field.spaces.length := by rw [shapeOf_length _ _ hshape]; exact hy
  have hxf : x < (gridRow field.spaces y).length := by
    rw [shapeOf_gridRow_length _ _ hshape]; exact hx
  have hv := hinv y x
  unfold clearTarget at hv
  rw [if_neg hnd] at hv
  by_cases hL0 : (spaceAt field0 y x).Linkage = SpaceLinkage.Unlinked
  · rw [hL0, partnerOf_unlinked] at hv
    simp only at hv
    refine ⟨_, clearSpace_unlinked_nat field y x hyf hxf (by rw [hv]; exact hL0),
      by simp only [shapeOf_gridSet]; exact hshape, ?_⟩
    intro a b
    rw [spaceAt_gridSet_nat field y x _ a b hxf]
    by_cases hab : a = y ∧ b = x
    · rw [if_pos hab, hab.1, hab.2, clearTarget_self]
    · rw [if_neg hab, hinv a b]
      symm
      apply clearTarget_cons
      · intro h; injection h with h1 h2; exact hab ⟨h1, h2⟩
      · intro hp
        exact absurd hL0 (partner_back field0 hlc a b (y, x) hp).1
  · obtain ⟨qy, qx, hg, hp, hqy, hqx, _, hk⟩ := linkConsistent_nat field0 hlc y x hy hx hL0
    have hqc : (qy, qx) ≠ (y, x) := partnerOf_ne_self y x _ _ hp
    have hback : partnerOf qy qx (spaceAt field0 qy qx).Linkage = some (y, x) := by
      rw [hk]; exact partnerOf_symm y x _ _ hp
    rw [hp] at hv
    simp only at hv
    by_cases hq : (qy, qx) ∈ cleared
    · rw [if_pos hq] at hv
      refine ⟨_, clearSpace_unlinked_nat field y x hyf hxf (by rw [hv]),
        by simp only [shapeOf_gridSet]; exact hshape, ?_⟩
      intro a b
      rw [spaceAt_gridSet_nat field y x _ a b hxf]
      by_cases hab : a = y ∧ b = x
      · rw [if_pos hab, hab.1, hab.2, clearTarget_self]
      · rw [if_neg hab, hinv a b]
        symm
        apply clearTarget_cons
        · intro h; injection h with h1 h2; exact hab ⟨h1, h2⟩
        · intro hp2
          have hb2 := (partner_back field0 hlc a b (y, x) hp2).2
          simp only at hb2
          rw [hp] at hb2
          injection hb2 with hb2
          rw [← hb2]
          exact hq
    · rw [if_neg hq] at hv
      have hqyf : qy < field.spaces.length := by rw [shapeOf_length _ _ hshape]; exact hqy
      have hqxf : qx < (gridRow field.spaces qy).length := by
        rw [shapeOf_gridRow_length _ _ hshape]; exact hqx
      have hvq : spaceAt field qy qx = spaceAt field0 qy qx := by
        rw [hinv qy qx]
        unfold clearTarget
        rw [if_neg hq, hback]
        simp only
        rw [if_neg hnd]
      refine ⟨_, clearSpace_linked_nat field y x qy qx hyf hxf (by rw [hv]; exact hL0)
        (by rw [hv]; exact hg) hqyf hqxf, by simp only [shapeOf_gridSet]; exact hshape, ?_⟩
      intro a b
      rw [spaceAt_gridSet_nat _ y x _ a b (by simp only [gridRow_gridSet_length]; exact hxf)]
      by_cases hab : a = y ∧ b = x
      · rw [if_pos hab, hab.1, hab.2, clearTarget_self]
      · rw [if_neg hab, spaceAt_gridSet_nat field qy qx _ a b hqxf]
        by_cases haq : a = qy ∧ b = qx
        · rw [if_pos haq, haq.1, haq.2, hvq]
          unfold clearTarget
          have hm : (qy, qx) ∉ (y, x) :: cleared := by
            intro h
            rcases List.mem_cons.mp h with h | h
            · exact hqc h
            · exact hq h
          rw [if_neg hm, hback]
          simp only
          rw [if_pos (List.mem_cons_self _ _)]
        · rw [if_neg haq, hinv a b]
          symm
          apply clearTarget_cons
          · intro h; injection h with h1 h2; exact hab ⟨h1, h2⟩
          · intro hp2
            have hb2 := (partner_back field0 hlc a b (y, x) hp2).2
            simp only at hb2
            rw [hp] at hb2
            injection hb2 with hb2
            injection hb2 with h1 h2
            exact absurd ⟨h1.symm, h2.symm⟩ haq


/-- One row of the Clear pass. -/
theorem clearPassRow_spec (field0 : PlayField) (hlc : LinkConsistent field0)
    (plan : List (List NextIteration)) (y : Nat) (hy : y < field0.spaces.length) :
    ∀ (xs : List Nat) (field : PlayField) (cleared : List (Nat × Nat)), xs.Nodup →
      (∀ x, x ∈ xs → x < (gridRow field0.spaces y).length ∧ (y, x) ∉ cleared) →
      shapeOf field.spaces = shapeOf field0.spaces →
      (∀ a b, spaceAt field a b = clearTarget field0 cleared a b) →
      ∃ field1 cleared1, clearPassRow plan y xs field = (field1, none) ∧
        shapeOf field1.spaces = shapeOf field0.spaces ∧
        (∀ a b, spaceAt field1 a b = clearTarget field0 cleared1 a b) ∧
        ∀ c : Nat × Nat, c ∈ cleared1 ↔
          (c ∈ cleared ∨ (c.1 = y ∧ c.2 ∈ xs ∧ planAt plan y c.2 = NextIteration.Clear)) := by
  intro xs
  induction xs with
  | nil =>
    intro field cleared _ _ hs hinv
    exact ⟨field, cleared, rfl, hs, hinv, fun c => by simp⟩
  | cons x xs ih =>
    intro field cleared hnd hxs hs hinv
    have hx := hxs x (List.mem_cons_self _ _)
    have hnd2 : xs.Nodup := (List.nodup_cons.mp hnd).2
    have hxn : x ∉ xs := (List.nodup_cons.mp hnd).1
    rw [clearPassRow]
    by_cases hc : planAt plan y x = NextIteration.Clear
    · rw [if_pos hc]
      obtain ⟨f1, e1, s1, i1⟩ := clearSpace_step field0 hlc field cleared hs hinv y x hy
        hx.1 hx.2
      rw [e1]
      simp only
      obtain ⟨f2, d2, e2, s2, i2, m2⟩ := ih f1 ((y, x) :: cleared) hnd2
        (by
          intro x2 hx2
          refine ⟨(hxs x2 (List.mem_cons_of_mem _ hx2)).1, ?_⟩
          intro hm
          rcases List.mem_cons.mp hm with hm | hm
          · injection hm with _ h2
            rw [h2] at hx2
            exact hxn hx2
          · exact (hxs x2 (List.mem_cons_of_mem _ hx2)).2 hm)
        s1 i1
      refine ⟨f2, d2, e2, s2, i2, ?_⟩
      intro c
      rw [m2 c, List.mem_cons, List.mem_cons]
      constructor
      · rintro ((h | h) | h)
        · right; rw [h]; exact ⟨rfl, Or.inl rfl, hc⟩
        · left; exact h
        · right; exact ⟨h.1, Or.inr h.2.1, h.2.2⟩
      · rintro (h | ⟨h1, h2 | h2, h3⟩)
        · left; right; exact h
        · left; left
          exact Prod.ext h1 h2
        · right; exact ⟨h1, h2, h3⟩
    · rw [if_neg hc]
      obtain ⟨f2, d2, e2, s2, i2, m2⟩ := ih field cleared hnd2
        (fun x2 hx2 => hxs x2 (List.mem_cons_of_mem _ hx2)) hs hinv
      refine ⟨f2, d2, e2, s2, i2, ?_⟩
      intro c
      rw [m2 c, List.mem_cons]
      constructor
      · rintro (h | h)
        · left; exact h
        · right; exact ⟨h.1, Or.inr h.2.1, h.2.2⟩
      · rintro (h | ⟨h1, h2 | h2, h3⟩)
        · left; exact h
        · rw [h2] at h3; exact absurd h3 hc
        · right; exact ⟨h1, h2, h3⟩

/-- The Clear pass over the rows `ys`. -/
theorem clearPass_spec (field0 : PlayField) (hlc : LinkConsistent field0)
    (plan : List (List NextIteration)) :
    ∀ (ys : List Nat) (field : PlayField) (cleared : List (Nat × Nat)), ys.Nodup →
      (∀ y, y ∈ ys → y < field0.spaces.length ∧ ∀ x, (y, x) ∉ cleared) →
      shapeOf field.spaces = shapeOf field0.spaces →
      (∀ a b, spaceAt field a b = clearTarget field0 cleared a b) →
      ∃ field1 cleared1, clearPass plan ys field = (field1, none) ∧
        shapeOf field1.spaces = shapeOf field0.spaces ∧
        (∀ a b, spaceAt field1 a b = clearTarget field0 cleared1 a b) ∧
        ∀ c : Nat × Nat, c ∈ cleared1 ↔
          (c ∈ cleared ∨ (c.1 ∈ ys ∧ c.2 < (gridRow field0.spaces c.1).length ∧
            planAt plan c.1 c.2 = NextIteration.Clear)) := by
  intro ys
  induction ys with
  | nil =>
    intro field cleared _ _ hs hinv
    exact ⟨field, cleared, rfl, hs, hinv, fun c => by simp⟩
  | cons y ys ih =>
    intro field cleared hnd hys hs hinv
    have hy := hys y (List.mem_cons_self _ _)
    have hnd2 : ys.Nodup := (List.nodup_cons.mp hnd).2
    have hyn : y ∉ ys := (List.nodup_cons.mp hnd).1
    rw [clearPass]
    obtain ⟨f1, d1, e1, s1, i1, m1⟩ := clearPassRow_spec field0 hlc plan y hy.1
      (List.range (gridRow field.spaces y).length) field cleared (List.nodup_range _)
      (by
        intro x hx
        rw [List.mem_range, shapeOf_gridRow_length _ _ hs] at hx
        exact ⟨hx, hy.2 x⟩)
      hs hinv
    rw [e1]
    simp only
    obtain ⟨f2, d2, e2, s2, i2, m2⟩ := ih f1 d1 hnd2
      (by
        intro y2 hy2
        refine ⟨(hys y2 (List.mem_cons_of_mem _ hy2)).1, ?_⟩
        intro x hm
        rcases (m1 (y2, x)).mp hm with hm | hm
        · exact (hys y2 (List.mem_cons_of_mem _ hy2)).2 x hm
        · simp only at hm
          rw [hm.1] at hy2
          exact hyn hy2)
      s1 i1
    refine ⟨f2, d2, e2, s2, i2, ?_⟩
    intro c
    rw [m2 c, m1 c, List.mem_cons, List.mem_range, shapeOf_gridRow_length _ _ hs]
    constructor
    · rintro ((h | h) | h)
      · left; exact h
      · right
        refine ⟨Or.inl h.1, ?_, ?_⟩
        · rw [h.1]; exact h.2.1
        · rw [h.1]; exact h.2.2
      · right; exact ⟨Or.inr h.1, h.2.1, h.2.2⟩
    · rintro (h | ⟨h1 | h1, h2, h3⟩)
      · left; left; exact h
      · left; right
        refine ⟨h1, ?_, ?_⟩
        · rw [← h1]; exact h2
        · rw [← h1]; exact h3
      · right; exact ⟨h1, h2, h3⟩

/-- The Clear branch of `IterateBoard` on a link-consistent field: it succeeds, and the
field it leaves is the one given by `clearTarget` for the cells marked `Clear`. -/
theorem iterateBoard_clear_target (field : PlayField) (plan : List (List NextIteration))
    (hlc : LinkConsistent field)
    (he : EvaluateBoardIteration field = some (plan, NextIteration.Clear)) :
    ∃ field1 cleared, IterateBoard field = some (field1, none) ∧
      shapeOf field1.spaces = shapeOf field.spaces ∧
      (∀ a b, spaceAt field1 a b = clearTarget field cleared a b) ∧
      ∀ c : Nat × Nat, c ∈ cleared ↔ planAt plan c.1 c.2 = NextIteration.Clear := by
  have hne : field.spaces ≠ [] := evaluate_some_nonempty field _ he
  obtain ⟨docked, plan2, dom2, _, _, _, he2, hps, _, _, _⟩ := evaluate_structure field hne
  rw [he] at he2
  injection he2 with he2
  injection he2 with e1 e2
  subst e1
  obtain ⟨f1, d1, r1, r2, r3, r4⟩ := clearPass_spec field hlc plan
    (List.range field.spaces.length) field [] (List.nodup_range _)
    (by
      intro y hy
      exact ⟨List.mem_range.mp hy, fun x hm => by simp at hm⟩)
    rfl
    (by
      intro a b
      unfold clearTarget
      simp only [List.not_mem_nil, if_false]
      cases partnerOf a b (spaceAt field a b).Linkage <;> rfl)
  refine ⟨f1, d1, ?_, r2, r3, ?_⟩
  · unfold IterateBoard
    rw [he]
    simp only [r1]
    rfl
  · intro c
    rw [r4 c]
    simp only [List.not_mem_nil, false_or, List.mem_range]
    constructor
    · intro h; exact h.2.2
    · intro h
      have hr := planAt_inRange plan c.1 c.2 (by rw [h]; decide)
      rw [shapeOf_length plan field.spaces hps,
        shapeOf_gridRow_length plan field.spaces hps] at hr
      exact ⟨hr.1, hr.2, h⟩


/-! ## Counting viruses -/

theorem list_eq_map_range {α : Type} (l : List α) (d : α) :
    l = (List.range l.length).map (fun i => (l[i]?).getD d) := by
  apply List.ext_getElem?
  intro i
  rw [List.getElem?_map]
  by_cases hi : i < l.length
  · rw [List.getElem?_range hi, List.getElem?_eq_getElem hi]
    simp [List.getElem?_eq_getElem hi]
  · have h1 : l.length ≤ i := Nat.le_of_not_lt hi
    rw [List.getElem?_eq_none h1, List.getElem?_eq_none (by simpa using h1)]
    rfl

theorem virus_row_foldl (row : List Space) (n : Nat) :
    row.foldl (fun viruses space =>
      if space.Content = SpaceContent.Virus then viruses + 1 else viruses) n =
      n + row.countP (fun s => decide (s.Content = SpaceContent.Virus)) := by
  induction row generalizing n with
  | nil => simp
  | cons a as ih =>
    simp only [List.foldl_cons, ih, List.countP_cons]
    by_cases h : a.Content = SpaceContent.Virus
    · simp [h]; omega
    · simp [h]

theorem virus_grid_foldl (g : List (List Space)) (n : Nat) :
    g.foldl (fun viruses row =>
      row.foldl (fun viruses space =>
        if space.Content = SpaceContent.Virus then viruses + 1 else viruses) viruses) n =
      n + (g.map (fun row =>
        row.countP (fun s => decide (s.Content = SpaceContent.Virus)))).sum := by
  have hf : (fun (viruses : Nat) (row : List Space) =>
      row.foldl (fun viruses space =>
        if space.Content = SpaceContent.Virus then viruses + 1 else viruses) viruses) =
      (fun viruses row =>
        viruses + row.countP (fun s => decide (s.Content = SpaceContent.Virus))) := by
    funext m row
    exact virus_row_foldl row m
  rw [hf]
  induction g generalizing n with
  | nil => simp
  | cons r rs ih =>
    simp only [List.foldl_cons, ih, List.map_cons, List.sum_cons]
    omega

/-- `GetVirusCount` as a count over the coordinates of the field. -/
theorem getVirusCount_eq (field : PlayField) :
    GetVirusCount field =
      ((List.range field.spaces.length).map (fun y =>
        (List.range (gridRow field.spaces y).length).countP (fun x =>
          decide ((spaceAt field y x).Content = SpaceContent.Virus)))).sum := by
  unfold GetVirusCount
  rw [virus_grid_foldl, Nat.zero_add]
  congr 1
  conv_lhs => rw [list_eq_map_range field.spaces []]
  rw [List.map_map]
  apply List.map_congr_left
  intro y _
  simp only [Function.comp]
  show (gridRow field.spaces y).countP _ = _
  conv_lhs => rw [list_eq_map_range (gridRow field.spaces y) Space.zero]
  rw [List.countP_map]
  rfl

theorem countP_add_of_split (l : List Nat) (p q r : Nat → Bool)
    (h : ∀ x, x ∈ l → (r x = true ↔ (p x = true ∨ q x = true)) ∧
      ¬ (p x = true ∧ q x = true)) :
    l.countP p + l.countP q = l.countP r := by
  induction l with
  | nil => rfl
  | cons a as ih =>
    have ha := h a (List.mem_cons_self _ _)
    have := ih (fun x hx => h x (List.mem_cons_of_mem _ hx))
    simp only [List.countP_cons]
    cases hp : p a <;> cases hq : q a <;> cases hr : r a <;>
      simp [hp, hq, hr] at ha ⊢ <;> omega

theorem sum_map_add_of_pointwise (l : List Nat) (f g k : Nat → Nat)
    (h : ∀ y, y ∈ l → f y + g y = k y) :
    (l.map f).sum + (l.map g).sum = (l.map k).sum := by
  induction l with
  | nil => rfl
  | cons a as ih =>
    have ha := h a (List.mem_cons_self _ _)
    have := ih (fun y hy => h y (List.mem_cons_of_mem _ hy))
    simp only [List.map_cons, List.sum_cons]
    omega

/-- C14: on a link-consistent field whose evaluation has dominant action `Clear` with plan
`p`, `IterateBoard` returns success; afterwards every cell marked `Clear` is the empty,
unlinked, uncoloured cell, and every cell not marked `Clear` keeps its content and colour,
its linkage being reset to `Unlinked` if the cell it is linked to was marked `Clear` and
kept otherwise; and `GetVirusCount` has gone down by the number of virus cells marked
`Clear`. -/
theorem iterateBoard_clear (field : PlayField) (plan : List (List NextIteration))
    (hlc : LinkConsistent field)
    (he : EvaluateBoardIteration field = some (plan, NextIteration.Clear)) :
    ∃ field1, IterateBoard field = some (field1, none) ∧
      shapeOf field1.spaces = shapeOf field.spaces ∧
      (∀ y x : Nat, planAt plan y x = NextIteration.Clear →
        spaceAt field1 y x =
          ⟨SpaceContent.Empty, SpaceLinkage.Unlinked, SpaceColor.Uncolored⟩) ∧
      (∀ y x : Nat, planAt plan y x ≠ NextIteration.Clear →
        (spaceAt field1 y x).Content = (spaceAt field y x).Content ∧
        (spaceAt field1 y x).Color = (spaceAt field y x).Color ∧
        ((spaceAt field y x).Linkage = SpaceLinkage.Unlinked →
          (spaceAt field1 y x).Linkage = SpaceLinkage.Unlinked) ∧
        ∀ ly lx : Int, (spaceAt field y x).Linkage ≠ SpaceLinkage.Unlinked →
          GetLinkedCoordinate y x (spaceAt field y x).Linkage = Except.ok (ly, lx) →
          (planAt plan ly.toNat lx.toNat = NextIteration.Clear →
            (spaceAt field1 y x).Linkage = SpaceLinkage.Unlinked) ∧
          (planAt plan ly.toNat lx.toNat ≠ NextIteration.Clear →
            (spaceAt field1 y x).Linkage = (spaceAt field y x).Linkage)) ∧
      GetVirusCount field1 + clearedVirusCount field plan = GetVirusCount field := by
  obtain ⟨f1, d1, r1, r2, r3, r4⟩ := iterateBoard_clear_target field plan hlc he
  have hmarked : ∀ y x : Nat, planAt plan y x = NextIteration.Clear →
      spaceAt f1 y x = Space.zero := by
    intro y x hc
    rw [r3 y x]
    unfold clearTarget
    rw [if_pos ((r4 (y, x)).mpr hc)]
  have hkeep : ∀ y x : Nat, planAt plan y x ≠ NextIteration.Clear →
      (spaceAt f1 y x).Content = (spaceAt field y x).Content ∧
      (spaceAt f1 y x).Color = (spaceAt field y x).Color := by
    intro y x hc
    rw [r3 y x]
    unfold clearTarget
    rw [if_neg (fun hm => hc ((r4 (y, x)).mp hm))]
    cases partnerOf y x (spaceAt field y x).Linkage with
    | none => exact ⟨rfl, rfl⟩
    | some q =>
      simp only
      split <;> exact ⟨rfl, rfl⟩
  refine ⟨f1, r1, r2, hmarked, ?_, ?_⟩
  · intro y x hc
    refine ⟨(hkeep y x hc).1, (hkeep y x hc).2, ?_, ?_⟩
    · intro hl
      rw [r3 y x]
      unfold clearTarget
      rw [if_neg (fun hm => hc ((r4 (y, x)).mp hm)), hl, partnerOf_unlinked]
      simp only
      exact hl
    · intro ly lx hl hg
      have hr : y < field.spaces.length ∧ x < (gridRow field.spaces y).length := by
        apply spaceAt_inRange
        intro hz
        apply hl
        rw [hz]; rfl
      obtain ⟨qy, qx, hg2, hp, _, _, _, _⟩ := linkConsistent_nat field hlc y x hr.1 hr.2 hl
      rw [hg] at hg2
      injection hg2 with hg2
      injection hg2 with e1 e2
      subst e1; subst e2
      simp only [Int.toNat_ofNat]
      have hv := r3 y x
      unfold clearTarget at hv
      rw [if_neg (fun hm => hc ((r4 (y, x)).mp hm)), hp] at hv
      simp only at hv
      constructor
      · intro hq
        rw [if_pos ((r4 (qy, qx)).mpr hq)] at hv
        rw [hv]
      · intro hq
        rw [if_neg (fun hm => hq ((r4 (qy, qx)).mp hm))] at hv
        rw [hv]
  · rw [getVirusCount_eq f1, getVirusCount_eq field]
    unfold clearedVirusCount
    rw [shapeOf_length _ _ r2]
    apply sum_map_add_of_pointwise
    intro y _
    simp only [shapeOf_gridRow_length _ _ r2]
    apply countP_add_of_split
    intro x _
    simp only [decide_eq_true_eq]
    by_cases hc : planAt plan y x = NextIteration.Clear
    · rw [hmarked y x hc]
      simp [hc, Space.zero]
    · rw [(hkeep y x hc).1]
      simp [hc]


/-- A field that passes the cell-by-cell check satisfies the link invariant. -/
theorem linkConsistent_of_check (field : PlayField) (h : linkedBackEverywhere field = true) :
    LinkConsistent field := by
  intro y x hb hl
  obtain ⟨e1, e2⟩ := inBounds_cast field y x hb
  have hb2 := hb
  rw [e1, e2, inBounds_nat_iff] at hb2
  unfold linkedBackEverywhere at h
  rw [List.all_eq_true] at h
  have h1 := h y.toNat (List.mem_range.mpr hb2.1)
  rw [List.all_eq_true] at h1
  have h2 := h1 x.toNat (List.mem_range.mpr hb2.2)
  unfold linkedBackAt at h2
  rw [← e1, ← e2] at h2
  cases hg : GetLinkedCoordinate y x (spaceAt field y.toNat x.toNat).Linkage with
  | error err =>
    rw [hg] at h2
    simp only [decide_eq_true_eq] at h2
    exact absurd h2 hl
  | ok c =>
    obtain ⟨ly, lx⟩ := c
    rw [hg] at h2
    simp only [decide_eq_true_eq] at h2
    exact ⟨ly, lx, rfl, h2⟩

theorem iterateBoard_clear_witness :
    LinkConsistent sampleClearLinked ∧
    EvaluateBoardIteration sampleClearLinked =
      some ([[NextIteration.Clear, NextIteration.Clear, NextIteration.Clear,
        NextIteration.Clear, NextIteration.NoAction]], NextIteration.Clear) ∧
    ∃ field1, IterateBoard sampleClearLinked = some (field1, none) ∧
      spaceAt field1 0 3 = ⟨SpaceContent.Empty, SpaceLinkage.Unlinked, SpaceColor.Uncolored⟩ ∧
      (spaceAt field1 0 4).Linkage = SpaceLinkage.Unlinked ∧
      (spaceAt field1 0 4).Color = SpaceColor.Red ∧
      GetVirusCount field1 + 1 = GetVirusCount sampleClearLinked := by
  have hlc : LinkConsistent sampleClearLinked := linkConsistent_of_check _ (by decide)
  have he : EvaluateBoardIteration sampleClearLinked =
      some ([[NextIteration.Clear, NextIteration.Clear, NextIteration.Clear,
        NextIteration.Clear, NextIteration.NoAction]], NextIteration.Clear) := by decide
  obtain ⟨field1, h1, _, h3, h4, h5⟩ := iterateBoard_clear sampleClearLinked _ hlc he
  refine ⟨hlc, he, field1, h1, h3 0 3 (by decide), ?_, (h4 0 4 (by decide)).2.1, h5⟩
  exact ((h4 0 4 (by decide)).2.2.2 0 3 (by decide) rfl).1 (by decide)

/-! ## The transition keeps the link invariant -/

/-- What is known of an answer of the evaluator. -/
theorem evaluate_facts (field : PlayField) (plan : List (List NextIteration))
    (dominant : NextIteration)
    (he : EvaluateBoardIteration field = some (plan, dominant)) :
    ∃ docked,
      (∀ y x : Nat, dockedAt docked y x = true ↔ Anchored field y x) ∧
      shapeOf plan = shapeOf field.spaces ∧
      (∀ y x, planAt plan y x = NextIteration.Fall ↔ Undocked field docked y x) ∧
      ((∃ y x, Undocked field docked y x) → dominant = NextIteration.Fall) ∧
      ((¬ ∃ y x, Undocked field docked y x) →
        (dominant = NextIteration.NoAction ∨ dominant = NextIteration.Clear) ∧
        (dominant = NextIteration.Clear ↔ ∃ y x, planAt plan y x = NextIteration.Clear)) := by
  have hne : field.spaces ≠ [] := evaluate_some_nonempty field _ he
  obtain ⟨docked, plan2, dom2, _, _, hanch, he2, hps, hfall, hyes, hno⟩ :=
    evaluate_structure field hne
  rw [he] at he2
  injection he2 with he2
  injection he2 with e1 e2
  subst e1; subst e2
  exact ⟨docked, hanch, hps, hfall, fun h => (hyes h).1, fun h => ⟨(hno h).1, (hno h).2.1⟩⟩

theorem iterateBoard_noAction (field : PlayField) (plan : List (List NextIteration))
    (he : EvaluateBoardIteration field = some (plan, NextIteration.NoAction)) :
    IterateBoard field = some (field, none) := by
  unfold IterateBoard
  rw [he]
  simp

/-- The link invariant from its statement at natural-number indices. -/
theorem linkConsistent_of_nat (field : PlayField)
    (h : ∀ y x : Nat, y < field.spaces.length → x < (gridRow field.spaces y).length →
      (spaceAt field y x).Linkage ≠ SpaceLinkage.Unlinked →
      ∃ qy qx : Nat,
        GetLinkedCoordinate y x (spaceAt field y x).Linkage =
          Except.ok ((qy : Int), (qx : Int)) ∧
        qy < field.spaces.length ∧ qx < (gridRow field.spaces qy).length ∧
        (spaceAt field qy qx).Content = SpaceContent.Pill ∧
        (spaceAt field qy qx).Linkage = getOpposingLinkage (spaceAt field y x).Linkage) :
    LinkConsistent field := by
  intro y x hb hl
  obtain ⟨e1, e2⟩ := inBounds_cast field y x hb
  have hb2 := hb
  rw [e1, e2, inBounds_nat_iff] at hb2
  obtain ⟨qy, qx, hg, h1, h2, h3, h4⟩ := h y.toNat x.toNat hb2.1 hb2.2 hl
  refine ⟨qy, qx, by rw [e1, e2]; exact hg, (inBounds_nat_iff field qy qx).mpr ⟨h1, h2⟩, ?_, ?_⟩
  · simpa using h3
  · simpa using h4

/-- The Clear branch keeps the link invariant. -/
theorem linkConsistent_clearTarget (field field1 : PlayField) (cleared : List (Nat × Nat))
    (hlc : LinkConsistent field)
    (hs : shapeOf field1.spaces = shapeOf field.spaces)
    (hcells : ∀ a b, spaceAt field1 a b = clearTarget field cleared a b) :
    LinkConsistent field1 := by
  apply linkConsistent_of_nat
  intro y x hy hx hl
  rw [shapeOf_length _ _ hs] at hy
  rw [shapeOf_gridRow_length _ _ hs] at hx
  have hv := hcells y x
  unfold clearTarget at hv
  by_cases hm : (y, x) ∈ cleared
  · rw [if_pos hm] at hv
    rw [hv] at hl
    exact absurd rfl hl
  · rw [if_neg hm] at hv
    have hl0 : (spaceAt field y x).Linkage ≠ SpaceLinkage.Unlinked := by
      intro h0
      rw [h0, partnerOf_unlinked] at hv
      simp only at hv
      rw [hv] at hl
      exact hl h0
    obtain ⟨qy, qx, hg, hp, hqy, hqx, hpill, hk⟩ := linkConsistent_nat field hlc y x hy hx hl0
    rw [hp] at hv
    simp only at hv
    by_cases hq : (qy, qx) ∈ cleared
    · rw [if_pos hq] at hv
      rw [hv] at hl
      exact absurd rfl hl
    · rw [if_neg hq] at hv
      have hback : partnerOf qy qx (spaceAt field qy qx).Linkage = some (y, x) := by
        rw [hk]; exact partnerOf_symm y x _ _ hp
      have hvq : spaceAt field1 qy qx = spaceAt field qy qx := by
        rw [hcells qy qx]
        unfold clearTarget
        rw [if_neg hq, hback]
        simp only
        rw [if_neg hm]
      refine ⟨qy, qx, by rw [hv]; exact hg, ?_, ?_, ?_, ?_⟩
      · rw [shapeOf_length _ _ hs]; exact hqy
      · rw [shapeOf_gridRow_length _ _ hs]; exact hqx
      · rw [hvq]; exact hpill
      · rw [hvq, hv]; exact hk

theorem getLinkedCoordinate_symm (y x ly lx : Int) (l : SpaceLinkage)
    (h : GetLinkedCoordinate y x l = Except.ok (ly, lx)) :
    GetLinkedCoordinate ly lx (getOpposingLinkage l) = Except.ok (y, x) := by
  cases l <;> simp [GetLinkedCoordinate] at h <;>
    (obtain ⟨h1, h2⟩ := h; subst h1; subst h2;
     simp [GetLinkedCoordinate, getOpposingLinkage])

theorem getLinkedCoordinate_shift (y x ly lx : Int) (l : SpaceLinkage)
    (h : GetLinkedCoordinate y x l = Except.ok (ly, lx)) :
    GetLinkedCoordinate (y + 1) x l = Except.ok (ly + 1, lx) := by
  cases l <;> simp [GetLinkedCoordinate] at h <;>
    (obtain ⟨h1, h2⟩ := h; subst h1; subst h2;
     simp [GetLinkedCoordinate])

theorem getOpposingLinkage_ne (l : SpaceLinkage) (y x : Int) (c : Int × Int)
    (h : GetLinkedCoordinate y x l = Except.ok c) :
    getOpposingLinkage l ≠ SpaceLinkage.Unlinked := by
  cases l <;> simp [getOpposingLinkage, GetLinkedCoordinate] at h ⊢

theorem getOpposingLinkage_involutive (l : SpaceLinkage) (y x : Int) (c : Int × Int)
    (h : GetLinkedCoordinate y x l = Except.ok c) :
    getOpposingLinkage (getOpposingLinkage l) = l := by
  cases l <;> simp [getOpposingLinkage, GetLinkedCoordinate] at h ⊢

/-- An undocked pill is linked only to undocked pills. -/
theorem undocked_partner (field : PlayField) (docked : List (List Bool))
    (hanch : ∀ y x : Nat, dockedAt docked y x = true ↔ Anchored field y x)
    (y x qy qx : Nat) (hu : Undocked field docked y x)
    (hg : GetLinkedCoordinate y x (spaceAt field y x).Linkage =
      Except.ok ((qy : Int), (qx : Int)))
    (hpill : (spaceAt field qy qx).Content = SpaceContent.Pill)
    (hk : (spaceAt field qy qx).Linkage = getOpposingLinkage (spaceAt field y x).Linkage)
    (_hl : (spaceAt field y x).Linkage ≠ SpaceLinkage.Unlinked) :
    Undocked field docked qy qx := by
  refine ⟨hpill, ?_⟩
  cases hd : dockedAt docked qy qx with
  | false => rfl
  | true =>
    exfalso
    have ha : Anchored field (qy : Int) (qx : Int) := (hanch qy qx).mp hd
    have hr := undocked_inRange field docked y x hu
    have hback := getLinkedCoordinate_symm _ _ _ _ _ hg
    have ha2 : Anchored field (y : Int) (x : Int) := by
      apply Anchored.linked (qy : Int) (qx : Int) y x ha
      · simp only [Int.toNat_ofNat]
        rw [hk]; exact getOpposingLinkage_ne _ _ _ _ hg
      · simp only [Int.toNat_ofNat]
        rw [hk]; exact linkedCoordinateIgnoringError_eq _ _ _ _ _ hback
      · exact (inBounds_nat_iff field y x).mpr hr
      · simp only [Int.toNat_ofNat]
        rw [hu.1]; decide
    have := (hanch y x).mpr ha2
    rw [hu.2] at this
    cases this

/-- Nothing directly above a docked cell is an undocked pill. -/
theorem above_docked (field : PlayField) (docked : List (List Bool))
    (hanch : ∀ y x : Nat, dockedAt docked y x = true ↔ Anchored field y x)
    (y x : Nat) (hd : dockedAt docked (y + 1) x = true) : ¬ Undocked field docked y x := by
  intro hu
  have hr := undocked_inRange field docked y x hu
  have ha : Anchored field ((y + 1 : Nat) : Int) (x : Int) := (hanch (y + 1) x).mp hd
  have ha2 : Anchored field (y : Int) (x : Int) := by
    have := Anchored.above ((y + 1 : Nat) : Int) (x : Int) ha
      (by
        have e : ((y + 1 : Nat) : Int) - 1 = (y : Int) := by omega
        rw [e]
        exact (inBounds_nat_iff field y x).mpr hr)
      (by
        have e : ((y + 1 : Nat) : Int) - 1 = (y : Int) := by omega
        rw [e]
        simp only [Int.toNat_ofNat]
        rw [hu.1]; decide)
    have e : ((y + 1 : Nat) : Int) - 1 = (y : Int) := by omega
    rw [e] at this
    exact this
  have := (hanch y x).mpr ha2
  rw [hu.2] at this
  cases this


/-- The Fall branch keeps the link invariant on a rectangular field. -/
theorem linkConsistent_fall (field field1 : PlayField) (plan : List (List NextIteration))
    (docked : List (List Bool)) (hrect : Rectangular field) (hlc : LinkConsistent field)
    (hanch : ∀ y x : Nat, dockedAt docked y x = true ↔ Anchored field y x)
    (hfall : ∀ y x, planAt plan y x = NextIteration.Fall ↔ Undocked field docked y x)
    (hs : shapeOf field1.spaces = shapeOf field.spaces)
    (hcells : ∀ y x : Nat, spaceAt field1 y x =
      if 0 < y ∧ planAt plan (y - 1) x = NextIteration.Fall then spaceAt field (y - 1) x
      else if planAt plan y x = NextIteration.Fall then Space.zero
      else spaceAt field y x) :
    LinkConsistent field1 := by
  apply linkConsistent_of_nat
  intro y x hy hx hl
  rw [shapeOf_length _ _ hs] at hy
  rw [shapeOf_gridRow_length _ _ hs] at hx
  have hv := hcells y x
  by_cases cA : 0 < y ∧ planAt plan (y - 1) x = NextIteration.Fall
  · rw [if_pos cA] at hv
    have hu : Undocked field docked (y - 1) x := (hfall _ _).mp cA.2
    have hr := undocked_inRange field docked (y - 1) x hu
    have hl0 : (spaceAt field (y - 1) x).Linkage ≠ SpaceLinkage.Unlinked := by
      rw [← hv]; exact hl
    obtain ⟨qy, qx, hg, _, hqy, hqx, hpill, hk⟩ :=
      linkConsistent_nat field hlc (y - 1) x hr.1 hr.2 hl0
    have huq : Undocked field docked qy qx :=
      undocked_partner field docked hanch (y - 1) x qy qx hu hg hpill hk hl0
    have hqb : qy + 1 < field.spaces.length := by
      by_contra hc
      exact bottom_row_docked field docked hanch qy qx (by omega) huq
    have hvq : spaceAt field1 (qy + 1) qx = spaceAt field qy qx := by
      rw [hcells (qy + 1) qx]
      rw [if_pos ⟨Nat.succ_pos qy, by
        simp only [Nat.add_sub_cancel]; exact (hfall _ _).mpr huq⟩]
      simp only [Nat.add_sub_cancel]
    refine ⟨qy + 1, qx, ?_, ?_, ?_, ?_, ?_⟩
    · rw [hv]
      have := getLinkedCoordinate_shift _ _ _ _ _ hg
      have e : (((y - 1 : Nat) : Int) + 1) = (y : Int) := by omega
      rw [e] at this
      rw [this]
      simp
    · rw [shapeOf_length _ _ hs]; exact hqb
    · rw [shapeOf_gridRow_length _ _ hs, hrect (qy + 1) hqb, ← hrect qy hqy]
      exact hqx
    · rw [hvq]; exact hpill
    · rw [hvq, hv]; exact hk
  · rw [if_neg cA] at hv
    by_cases cB : planAt plan y x = NextIteration.Fall
    · rw [if_pos cB] at hv
      rw [hv] at hl
      exact absurd rfl hl
    · rw [if_neg cB] at hv
      have hl0 : (spaceAt field y x).Linkage ≠ SpaceLinkage.Unlinked := by
        rw [← hv]; exact hl
      obtain ⟨qy, qx, hg, _, hqy, hqx, hpill, hk⟩ := linkConsistent_nat field hlc y x hy hx hl0
      have hnq : ¬ Undocked field docked qy qx := by
        intro huq
        have hback := getLinkedCoordinate_symm _ _ _ _ _ hg
        have hpill0 : (spaceAt field y x).Content = SpaceContent.Pill := by
          have hlq : (spaceAt field qy qx).Linkage ≠ SpaceLinkage.Unlinked := by
            rw [hk]; exact getOpposingLinkage_ne _ _ _ _ hg
          obtain ⟨ry, rx, hg2, _, _, _, hp2, _⟩ :=
            linkConsistent_nat field hlc qy qx hqy hqx hlq
          rw [hk, hback] at hg2
          injection hg2 with hg2
          injection hg2 with e1 e2
          have e3 : y = ry := by omega
          have e4 : x = rx := by omega
          rw [e3, e4]; exact hp2
        have hu0 : Undocked field docked y x := by
          apply undocked_partner field docked hanch qy qx y x huq
          · rw [hk]; exact hback
          · exact hpill0
          · rw [hk]
            exact (getOpposingLinkage_involutive _ _ _ _ hg).symm
          · rw [hk]; exact getOpposingLinkage_ne _ _ _ _ hg
        exact cB ((hfall _ _).mpr hu0)
      have hdq : dockedAt docked qy qx = true := by
        cases hd : dockedAt docked qy qx with
        | true => rfl
        | false => exact absurd ⟨hpill, hd⟩ hnq
      have hvq : spaceAt field1 qy qx = spaceAt field qy qx := by
        rw [hcells qy qx]
        have n1 : ¬ (0 < qy ∧ planAt plan (qy - 1) qx = NextIteration.Fall) := by
          rintro ⟨h0, hf⟩
          have hu := (hfall _ _).mp hf
          have e : qy - 1 + 1 = qy := by omega
          exact above_docked field docked hanch (qy - 1) qx (by rw [e]; exact hdq) hu
        rw [if_neg n1, if_neg (fun hf => hnq ((hfall _ _).mp hf))]
      refine ⟨qy, qx, by rw [hv]; exact hg, ?_, ?_, ?_, ?_⟩
      · rw [shapeOf_length _ _ hs]; exact hqy
      · rw [shapeOf_gridRow_length _ _ hs]; exact hqx
      · rw [hvq]; exact hpill
      · rw [hvq, hv]; exact hk


/-! ## Every transition lowers the measure -/

theorem nested_sum_lt (s : Finset Nat) (t : Nat → Finset Nat) (f g : Nat → Nat → Nat)
    (hle : ∀ y, y ∈ s → ∀ x, x ∈ t y → f y x ≤ g y x)
    (hlt : ∃ y, y ∈ s ∧ ∃ x, x ∈ t y ∧ f y x < g y x) :
    Finset.sum s (fun y => Finset.sum (t y) (fun x => f y x)) <
      Finset.sum s (fun y => Finset.sum (t y) (fun x => g y x)) := by
  obtain ⟨y0, hy0, x0, hx0, h0⟩ := hlt
  apply Finset.sum_lt_sum
  · intro y hy
    exact Finset.sum_le_sum (fun x hx => hle y hy x hx)
  · exact ⟨y0, hy0, Finset.sum_lt_sum (fun x hx => hle y0 hy0 x hx) ⟨x0, hx0, h0⟩⟩

theorem boardMeasure_of_shape (field field1 : PlayField)
    (hs : shapeOf field1.spaces = shapeOf field.spaces) :
    boardMeasure field1 =
      Finset.sum (Finset.range field.spaces.length) (fun y =>
        Finset.sum (Finset.range (gridRow field.spaces y).length) (fun x =>
          cellWeight field.spaces.length y (spaceAt field1 y x))) := by
  unfold boardMeasure
  rw [shapeOf_length _ _ hs]
  apply Finset.sum_congr rfl
  intro y _
  rw [shapeOf_gridRow_length _ _ hs]

/-- On a rectangular field with at least one row, a cell marked `Clear` is coloured. -/
theorem clearMark_colored (field : PlayField) (plan : List (List NextIteration))
    (dominant : NextIteration) (hrect : Rectangular field)
    (he : EvaluateBoardIteration field = some (plan, dominant)) (y x : Nat)
    (hc : planAt plan y x = NextIteration.Clear) :
    (spaceAt field y x).Color ≠ SpaceColor.Uncolored := by
  have hne : field.spaces ≠ [] := evaluate_some_nonempty field _ he
  obtain ⟨docked, hdock, hshape⟩ := generateDockedField_total field
  have hplan := fallScan_emptyPlan field docked hshape
  obtain ⟨hsh1, _, _, _⟩ := fallScan_spec field docked (emptyPlan field)
    ((shapeOf_emptyPlan field).trans hshape.symm) hshape
  unfold EvaluateBoardIteration at he
  rw [hdock] at he
  simp only at he
  by_cases hfound : (fallScan field docked (emptyPlan field)).2 = true
  · rw [if_pos hfound] at he
    injection he with he
    injection he with e1 e2
    rw [← e1] at hc
    by_cases hu : Undocked field docked y x
    · rw [(hplan y x).1 hu] at hc; cases hc
    · rw [(hplan y x).2 hu] at hc; cases hc
  · rw [if_neg hfound] at he
    obtain ⟨st1, e1, g1, r1, r2⟩ := rowScan_spec field
      ⟨0, SpaceColor.Uncolored, NextIteration.NoAction,
        (fallScan field docked (emptyPlan field)).1⟩ rfl
      (hsh1.trans (shapeOf_emptyPlan field))
    obtain ⟨st2, e2, _, c1, c2⟩ := colScan_spec field hne hrect st1 g1
    rw [e1] at he
    simp only at he
    rw [e2] at he
    injection he with he
    injection he with e3 e4
    rw [← e3] at hc
    by_cases hcc : ColClear field y x
    · exact hcc.1
    · by_cases hrc : RowClear field y x
      · exact hrc.1
      · exfalso
        rw [c2 y x hcc, r2 y x hrc] at hc
        simp only at hc
        by_cases hu : Undocked field docked y x
        · rw [(hplan y x).1 hu] at hc; cases hc
        · rw [(hplan y x).2 hu] at hc; cases hc

theorem cellWeight_zero (height y : Nat) : cellWeight height y Space.zero = 0 := rfl

/-- The Clear branch lowers the measure. -/
theorem boardMeasure_clear (field field1 : PlayField) (plan : List (List NextIteration))
    (hs : shapeOf field1.spaces = shapeOf field.spaces)
    (hps : shapeOf plan = shapeOf field.spaces)
    (hmarked : ∀ y x : Nat, planAt plan y x = NextIteration.Clear →
      spaceAt field1 y x = Space.zero)
    (hkeep : ∀ y x : Nat, planAt plan y x ≠ NextIteration.Clear →
      (spaceAt field1 y x).Content = (spaceAt field y x).Content ∧
      (spaceAt field1 y x).Color = (spaceAt field y x).Color)
    (hcol : ∀ y x : Nat, planAt plan y x = NextIteration.Clear →
      (spaceAt field y x).Color ≠ SpaceColor.Uncolored)
    (hex : ∃ y x, planAt plan y x = NextIteration.Clear) :
    boardMeasure field1 < boardMeasure field := by
  rw [boardMeasure_of_shape field field1 hs]
  unfold boardMeasure
  apply nested_sum_lt
  · intro y _ x _
    by_cases hc : planAt plan y x = NextIteration.Clear
    · rw [hmarked y x hc, cellWeight_zero]
      exact Nat.zero_le _
    · unfold cellWeight
      rw [(hkeep y x hc).1, (hkeep y x hc).2]
  · obtain ⟨y, x, hc⟩ := hex
    have hr := planAt_inRange plan y x (by rw [hc]; decide)
    rw [shapeOf_length _ _ hps, shapeOf_gridRow_length _ _ hps] at hr
    refine ⟨y, Finset.mem_range.mpr hr.1, x, Finset.mem_range.mpr hr.2, ?_⟩
    rw [hmarked y x hc, cellWeight_zero]
    unfold cellWeight
    rw [if_pos (hcol y x hc)]
    omega


theorem sum_shift_le (R : Nat → Nat) (n : Nat) :
    Finset.sum (Finset.range n) (fun y => if 0 < y then R (y - 1) else 0) ≤
      Finset.sum (Finset.range n) R := by
  cases n with
  | zero => simp
  | succ n =>
    rw [Finset.sum_range_succ', Finset.sum_range_succ]
    simp

/-- The Fall branch lowers the measure on a rectangular field. -/
theorem boardMeasure_fall (field field1 : PlayField) (plan : List (List NextIteration))
    (hrect : Rectangular field)
    (hs : shapeOf field1.spaces = shapeOf field.spaces)
    (hps : shapeOf plan = shapeOf field.spaces)
    (hcells : ∀ y x : Nat, spaceAt field1 y x =
      if 0 < y ∧ planAt plan (y - 1) x = NextIteration.Fall then spaceAt field (y - 1) x
      else if planAt plan y x = NextIteration.Fall then Space.zero
      else spaceAt field y x)
    (hpill : ∀ y x : Nat, planAt plan y x = NextIteration.Fall →
      (spaceAt field y x).Content = SpaceContent.Pill)
    (hex : ∃ y x, planAt plan y x = NextIteration.Fall) :
    boardMeasure field1 < boardMeasure field := by
  have hrw : ∀ (g : PlayField) (hg : shapeOf g.spaces = shapeOf field.spaces),
      boardMeasure g =
        Finset.sum (Finset.range field.spaces.length) (fun y =>
          Finset.sum (Finset.range (gridRow field.spaces 0).length) (fun x =>
            cellWeight field.spaces.length y (spaceAt g y x))) := by
    intro g hg
    rw [boardMeasure_of_shape field g hg]
    apply Finset.sum_congr rfl
    intro y hy
    rw [hrect y (Finset.mem_range.mp hy)]
  rw [hrw field1 hs, hrw field rfl]
  have step1 :
      Finset.sum (Finset.range field.spaces.length) (fun y =>
        Finset.sum (Finset.range (gridRow field.spaces 0).length) (fun x =>
          cellWeight field.spaces.length y (spaceAt field1 y x))) ≤
      Finset.sum (Finset.range field.spaces.length) (fun y =>
        Finset.sum (Finset.range (gridRow field.spaces 0).length) (fun x =>
          (if 0 < y then
            (if planAt plan (y - 1) x = NextIteration.Fall then
              cellWeight field.spaces.length (y - 1 + 1) (spaceAt field (y - 1) x) else 0)
           else 0) +
          (if planAt plan y x = NextIteration.Fall then 0
           else cellWeight field.spaces.length y (spaceAt field y x)))) := by
    apply Finset.sum_le_sum
    intro y _
    apply Finset.sum_le_sum
    intro x _
    rw [hcells y x]
    by_cases cA : 0 < y ∧ planAt plan (y - 1) x = NextIteration.Fall
    · rw [if_pos cA, if_pos cA.1, if_pos cA.2]
      have e : y - 1 + 1 = y := by omega
      rw [e]
      exact Nat.le_add_right _ _
    · rw [if_neg cA]
      by_cases cB : planAt plan y x = NextIteration.Fall
      · rw [if_pos cB, cellWeight_zero]
        exact Nat.zero_le _
      · rw [if_neg cB, if_neg cB]
        exact Nat.le_add_left _ _
  have step2 :
      Finset.sum (Finset.range field.spaces.length) (fun y =>
        Finset.sum (Finset.range (gridRow field.spaces 0).length) (fun x =>
          (if 0 < y then
            (if planAt plan (y - 1) x = NextIteration.Fall then
              cellWeight field.spaces.length (y - 1 + 1) (spaceAt field (y - 1) x) else 0)
           else 0))) ≤
      Finset.sum (Finset.range field.spaces.length) (fun y =>
        Finset.sum (Finset.range (gridRow field.spaces 0).length) (fun x =>
          (if planAt plan y x = NextIteration.Fall then
            cellWeight field.spaces.length (y + 1) (spaceAt field y x) else 0))) := by
    have := sum_shift_le (fun y =>
      Finset.sum (Finset.range (gridRow field.spaces 0).length) (fun x =>
        (if planAt plan y x = NextIteration.Fall then
          cellWeight field.spaces.length (y + 1) (spaceAt field y x) else 0)))
      field.spaces.length
    refine le_trans (le_of_eq ?_) this
    apply Finset.sum_congr rfl
    intro y _
    by_cases h0 : 0 < y
    · simp only [if_pos h0]
    · simp only [if_neg h0, Finset.sum_const_zero]
  have step3 :
      Finset.sum (Finset.range field.spaces.length) (fun y =>
        Finset.sum (Finset.range (gridRow field.spaces 0).length) (fun x =>
          (if planAt plan y x = NextIteration.Fall then
            cellWeight field.spaces.length (y + 1) (spaceAt field y x) else 0) +
          (if planAt plan y x = NextIteration.Fall then 0
           else cellWeight field.spaces.length y (spaceAt field y x)))) <
      Finset.sum (Finset.range field.spaces.length) (fun y =>
        Finset.sum (Finset.range (gridRow field.spaces 0).length) (fun x =>
          cellWeight field.spaces.length y (spaceAt field y x))) := by
    apply nested_sum_lt
    · intro y _ x _
      by_cases cB : planAt plan y x = NextIteration.Fall
      · rw [if_pos cB, if_pos cB]
        unfold cellWeight
        simp only [if_pos (hpill y x cB)]
        omega
      · rw [if_neg cB, if_neg cB]
        omega
    · obtain ⟨y, x, hf⟩ := hex
      have hr := planAt_inRange plan y x (by rw [hf]; decide)
      rw [shapeOf_length _ _ hps, shapeOf_gridRow_length _ _ hps] at hr
      refine ⟨y, Finset.mem_range.mpr hr.1, x,
        Finset.mem_range.mpr (by rw [← hrect y hr.1]; exact hr.2), ?_⟩
      rw [if_pos hf, if_pos hf]
      unfold cellWeight
      simp only [if_pos (hpill y x hf)]
      have := hr.1
      omega
  refine lt_of_le_of_lt step1 ?_
  simp only [Finset.sum_add_distrib] at step3 ⊢
  have := Nat.add_le_add_right step2
    (Finset.sum (Finset.range field.spaces.length) (fun y =>
      Finset.sum (Finset.range (gridRow field.spaces 0).length) (fun x =>
        (if planAt plan y x = NextIteration.Fall then 0
         else cellWeight field.spaces.length y (spaceAt field y x)))))
  exact lt_of_le_of_lt this step3


theorem clearTarget_marked (field : PlayField) (cleared : List (Nat × Nat)) (y x : Nat)
    (h : (y, x) ∈ cleared) : clearTarget field cleared y x = Space.zero := by
  unfold clearTarget
  rw [if_pos h]

theorem clearTarget_keep (field : PlayField) (cleared : List (Nat × Nat)) (y x : Nat)
    (h : (y, x) ∉ cleared) :
    (clearTarget field cleared y x).Content = (spaceAt field y x).Content ∧
    (clearTarget field cleared y x).Color = (spaceAt field y x).Color := by
  unfold clearTarget
  rw [if_neg h]
  cases partnerOf y x (spaceAt field y x).Linkage with
  | none => exact ⟨rfl, rfl⟩
  | some q =>
    simp only
    split <;> exact ⟨rfl, rfl⟩

/-- One call of `IterateBoard` on a rectangular, link-consistent field with at least one
row: it succeeds, keeps the shape and the link invariant, and lowers the measure unless the
board is quiescent. -/
theorem iterate_step (field : PlayField) (hne : field.spaces ≠ [])
    (hrect : Rectangular field) (hlc : LinkConsistent field) :
    ∃ plan dominant field1,
      EvaluateBoardIteration field = some (plan, dominant) ∧
      IterateBoard field = some (field1, none) ∧
      shapeOf field1.spaces = shapeOf field.spaces ∧
      LinkConsistent field1 ∧
      (dominant ≠ NextIteration.NoAction → boardMeasure field1 < boardMeasure field) := by
  obtain ⟨_, plan, dom, _, _, _, he, _, _, _, _⟩ := evaluate_structure field hne
  obtain ⟨docked, hanch, hps, hfall, hyes, hno⟩ := evaluate_facts field plan dom he
  cases dom with
  | NoAction =>
    exact ⟨plan, _, field, he, iterateBoard_noAction field plan he, rfl, hlc,
      fun h => absurd rfl h⟩
  | Clear =>
    obtain ⟨f1, cleared, h1, h2, h3, h4⟩ := iterateBoard_clear_target field plan hlc he
    refine ⟨plan, _, f1, he, h1, h2, linkConsistent_clearTarget field f1 cleared hlc h2 h3, ?_⟩
    intro _
    have hnu : ¬ ∃ y x, Undocked field docked y x := by
      intro hu
      have := hyes hu
      cases this
    apply boardMeasure_clear field f1 plan h2 hps
    · intro y x hc
      rw [h3 y x]
      exact clearTarget_marked field cleared y x ((h4 (y, x)).mpr hc)
    · intro y x hc
      rw [h3 y x]
      exact clearTarget_keep field cleared y x (fun hm => hc ((h4 (y, x)).mp hm))
    · intro y x hc
      exact clearMark_colored field plan _ hrect he y x hc
    · exact (hno hnu).2.mp rfl
  | Fall =>
    obtain ⟨f1, h1, h2, h3⟩ := fallStep_cells field plan hrect he
    refine ⟨plan, _, f1, he, h1, h2,
      linkConsistent_fall field f1 plan docked hrect hlc hanch hfall h2 h3, ?_⟩
    intro _
    apply boardMeasure_fall field f1 plan hrect h2 hps h3
    · intro y x hf
      exact ((hfall y x).mp hf).1
    · by_contra hex
      have hnu : ¬ ∃ y x, Undocked field docked y x := by
        rintro ⟨y, x, hu⟩
        exact hex ⟨y, x, (hfall y x).mpr hu⟩
      rcases (hno hnu).1 with h | h <;> cases h

/-- C15: on a rectangular field with at least one row that satisfies the link invariant,
`IterateBoard` returns success, in the `NoAction`, the `Clear` and the `Fall` branch alike:
no call of `clearSpace` or `putSpaceAtCoordinate` in it returns an error. -/
theorem iterateBoard_succeeds (field : PlayField) (hne : field.spaces ≠ [])
    (hrect : Rectangular field) (hlc : LinkConsistent field) :
    ∃ field1, IterateBoard field = some (field1, none) ∧
      shapeOf field1.spaces = shapeOf field.spaces := by
  obtain ⟨_, plan, dom, _, _, _, he, _, _, _, _⟩ := evaluate_structure field hne
  cases dom with
  | NoAction => exact ⟨field, iterateBoard_noAction field plan he, rfl⟩
  | Clear =>
    obtain ⟨f1, _, h1, h2, _, _⟩ := iterateBoard_clear_target field plan hlc he
    exact ⟨f1, h1, h2⟩
  | Fall =>
    obtain ⟨f1, h1, h2, _⟩ := fallStep_cells field plan hrect he
    exact ⟨f1, h1, h2⟩

/-- C16: for every rectangular, link-consistent field with at least one row there is a
number `n`, at most the measure of the field, such that `n` successive calls of
`IterateBoard` all succeed and leave a field on which `EvaluateBoardIteration` returns the
dominant action `NoAction`. -/
theorem iterate_reaches_quiescence (field : PlayField) (hne : field.spaces ≠ [])
    (hrect : Rectangular field) (hlc : LinkConsistent field) :
    ∃ n field1 plan, n ≤ boardMeasure field ∧
      iterateTimes n field = some field1 ∧
      EvaluateBoardIteration field1 = some (plan, NextIteration.NoAction) := by
  have main : ∀ (m : Nat) (f : PlayField), boardMeasure f ≤ m → f.spaces ≠ [] →
      Rectangular f → LinkConsistent f →
      ∃ n f1 plan, n ≤ boardMeasure f ∧ iterateTimes n f = some f1 ∧
        EvaluateBoardIteration f1 = some (plan, NextIteration.NoAction) := by
    intro m
    induction m with
    | zero =>
      intro f hm hn hr hl
      obtain ⟨plan, dom, f1, he, _, _, _, hdec⟩ := iterate_step f hn hr hl
      by_cases hd : dom = NextIteration.NoAction
      · subst hd
        exact ⟨0, f, plan, Nat.zero_le _, rfl, he⟩
      · have := hdec hd
        omega
    | succ m ih =>
      intro f hm hn hr hl
      obtain ⟨plan, dom, f1, he, hit, hs, hl1, hdec⟩ := iterate_step f hn hr hl
      by_cases hd : dom = NextIteration.NoAction
      · subst hd
        exact ⟨0, f, plan, Nat.zero_le _, rfl, he⟩
      · have hlt := hdec hd
        have hn1 : f1.spaces ≠ [] := by
          intro h0
          have := shapeOf_length _ _ hs
          rw [h0] at this
          apply hn
          exact List.length_eq_zero.mp this.symm
        obtain ⟨n, f2, plan2, hle, hit2, he2⟩ := ih f1 (by omega) hn1
          (rectangular_of_shape f f1 hs hr) hl1
        refine ⟨n + 1, f2, plan2, by omega, ?_, he2⟩
        rw [iterateTimes, hit]
        exact hit2
  exact main (boardMeasure field) field (Nat.le_refl _) hne hrect hlc

theorem iterateBoard_succeeds_witness :
    sampleClearLinked.spaces ≠ [] ∧ Rectangular sampleClearLinked ∧
    LinkConsistent sampleClearLinked ∧
    ∃ field1, IterateBoard sampleClearLinked = some (field1, none) ∧
      shapeOf field1.spaces = shapeOf sampleClearLinked.spaces :=
  ⟨by decide, by decide, linkConsistent_of_check _ (by decide),
    iterateBoard_succeeds sampleClearLinked (by decide) (by decide)
      (linkConsistent_of_check _ (by decide))⟩

theorem iterate_reaches_quiescence_witness :
    sampleFallAndRun.spaces ≠ [] ∧ Rectangular sampleFallAndRun ∧
    LinkConsistent sampleFallAndRun ∧
    ∃ n field1 plan, n ≤ boardMeasure sampleFallAndRun ∧
      iterateTimes n sampleFallAndRun = some field1 ∧
      EvaluateBoardIteration field1 = some (plan, NextIteration.NoAction) :=
  ⟨by decide, by decide, linkConsistent_of_check _ (by decide),
    iterate_reaches_quiescence sampleFallAndRun (by decide) (by decide)
      (linkConsistent_of_check _ (by decide))⟩

/-- On the sample with a floating pill above four blue viruses the loop takes two steps: the
pill falls beside the viruses, the run of five is cleared, and the empty board is
quiescent. -/
theorem sampleFallAndRun_two_steps :
    (iterateTimes 2 sampleFallAndRun).bind EvaluateBoardIteration =
      some (List.replicate 2 (List.replicate 5 NextIteration.NoAction),
        NextIteration.NoAction) := by
  decide

/-! ## Every index of the evaluator is in range -/

theorem rowChecked_inRange {α : Type} (g : List (List α)) (y : Nat) (h : y < g.length) :
    rowChecked g (y : Int) = some (gridRow g y) := by
  simp [rowChecked, gridRow, List.getElem?_eq_getElem h]

theorem rowChecked_int {α : Type} (g : List (List α)) (y : Int) (h0 : 0 ≤ y)
    (h : y < g.length) : rowChecked g y = some (gridRow g y.toNat) := by
  have e : y = ((y.toNat : Nat) : Int) := (Int.toNat_of_nonneg h0).symm
  have hlt : y.toNat < g.length := by omega
  have := rowChecked_inRange g y.toNat hlt
  rw [← e] at this
  exact this

theorem cellChecked_int {α : Type} (g : List (List α)) (y x : Int) (d : α)
    (hy0 : 0 ≤ y) (hy : y < g.length) (hx0 : 0 ≤ x)
    (hx : x < (gridRow g y.toNat).length) :
    cellChecked g y x = some ((gridGet? g y.toNat x.toNat).getD d) := by
  unfold cellChecked
  rw [rowChecked_int g y hy0 hy]
  simp only [if_pos hx0]
  have hlt : x.toNat < (gridRow g y.toNat).length := by omega
  rw [← gridGet?_eq_some_getD g y.toNat x.toNat d hlt]
  rfl

theorem setCellChecked_int {α : Type} (g : List (List α)) (y x : Int) (v : α)
    (hy0 : 0 ≤ y) (hy : y < g.length) (hx0 : 0 ≤ x)
    (hx : x < (gridRow g y.toNat).length) :
    setCellChecked g y x v = some (gridSet g y.toNat x.toNat v) := by
  unfold setCellChecked
  rw [rowChecked_int g y hy0 hy]
  simp only [if_pos (And.intro hx0 hx)]
  rfl

theorem setCellChecked_nat {α : Type} (g : List (List α)) (y x : Nat) (v : α)
    (hy : y < g.length) (hx : x < (gridRow g y).length) :
    setCellChecked g (y : Int) (x : Int) v = some (gridSet g y x v) := by
  have := setCellChecked_int g (y : Int) (x : Int) v (Int.ofNat_nonneg y)
    (by exact_mod_cast hy) (Int.ofNat_nonneg x) (by simpa using hx)
  simpa using this

theorem checkCoordinateInBoundsChecked_eq (field : PlayField) (y x : Int) :
    checkCoordinateInBoundsChecked field y x = some (checkCoordinateInBounds field y x) := by
  unfold checkCoordinateInBoundsChecked checkCoordinateInBounds
  by_cases hy : y < 0 ∨ y ≥ field.spaces.length
  · rw [if_pos hy, if_pos hy]
  · rw [if_neg hy, if_neg hy]
    rw [rowChecked_int field.spaces y (by omega) (by omega)]
    simp only
    split <;> rfl

theorem cellChecked_field (field : PlayField) (y x : Int) (h : InBounds field y x) :
    cellChecked field.spaces y x = some (spaceAt field y.toNat x.toNat) := by
  obtain ⟨h1, h2, h3, h4⟩ := h
  exact cellChecked_int field.spaces y x Space.zero h1 h2 h3 h4

theorem getSpaceChecked_eq (field : PlayField) (y x : Int) :
    GetSpaceAtCoordinateChecked field y x = some (GetSpaceAtCoordinate field y x) := by
  unfold GetSpaceAtCoordinateChecked GetSpaceAtCoordinate
  rw [checkCoordinateInBoundsChecked_eq]
  cases hc : checkCoordinateInBounds field y x with
  | some err => rfl
  | none =>
    simp only
    rw [cellChecked_field field y x ((checkCoordinateInBounds_eq_none_iff field y x).mp hc)]

theorem seedStepChecked_eq (field : PlayField) (y x : Nat) (queue : List Coordinate) :
    seedStepChecked field y x queue = some (seedStep field y x queue) := by
  unfold seedStepChecked seedStep getSpaceIgnoringError
  rw [getSpaceChecked_eq]
  cases GetSpaceAtCoordinate field (y : Int) (x : Int) with
  | ok space => simp only; split <;> [rfl; (split <;> rfl)]
  | error err => simp only; split <;> [rfl; (split <;> rfl)]

/-- A checked loop over an index range whose body never faults while the invariant `P`
holds is the unchecked loop. -/
theorem foldlM_range_eq_foldl {σ : Type} (f : σ → Nat → Option σ) (g : σ → Nat → σ)
    (P : σ → Prop) (n : Nat) (s0 : σ) (h0 : P s0)
    (hstep : ∀ i s, i < n → P s → f s i = some (g s i) ∧ P (g s i)) :
    (List.range n).foldlM f s0 = some ((List.range n).foldl g s0) ∧
      P ((List.range n).foldl g s0) := by
  induction n with
  | zero => exact ⟨by simp, by simpa using h0⟩
  | succ k ih =>
    obtain ⟨e1, p1⟩ := ih (fun i s hi hp => hstep i s (Nat.lt_succ_of_lt hi) hp)
    obtain ⟨e2, p2⟩ := hstep k _ (Nat.lt_succ_self k) p1
    rw [List.range_succ, List.foldlM_append, e1, List.foldl_append]
    simp only [List.foldl_cons, List.foldl_nil]
    exact ⟨by simp [e2], p2⟩

/-- Two fallible loops over an index range agree when their bodies agree on every state
that satisfies an invariant kept by the second. -/
theorem foldlM_range_congr {σ : Type} (f g : σ → Nat → Option σ) (P : σ → Prop) (n : Nat)
    (s0 : σ) (h0 : P s0)
    (hstep : ∀ i s, i < n → P s → f s i = g s i ∧ ∀ s1, g s i = some s1 → P s1) :
    (List.range n).foldlM f s0 = (List.range n).foldlM g s0 ∧
      ∀ s1, (List.range n).foldlM g s0 = some s1 → P s1 := by
  induction n with
  | zero =>
    refine ⟨by simp, ?_⟩
    intro s1 h
    simp at h
    subst h
    exact h0
  | succ k ih =>
    obtain ⟨e1, p1⟩ := ih (fun i s hi hp => hstep i s (Nat.lt_succ_of_lt hi) hp)
    rw [List.range_succ, List.foldlM_append, List.foldlM_append, e1]
    cases hr : (List.range k).foldlM g s0 with
    | none => exact ⟨by simp, by intro s1 h; simp at h⟩
    | some s =>
      obtain ⟨e2, p2⟩ := hstep k s (Nat.lt_succ_self k) (p1 s hr)
      refine ⟨by simp [e2], ?_⟩
      intro s1 h
      simp at h
      exact p2 s1 h

theorem makeGridChecked_eq {α : Type} (field : PlayField) (v : α) :
    makeGridChecked field v = some (field.spaces.map (fun row => row.map (fun _ => v))) := by
  unfold makeGridChecked
  obtain ⟨g, hg, hlen, hrows⟩ := foldlM_range_invariant
    (fun g (i : Nat) =>
      match rowChecked field.spaces i with
      | none => none
      | some row => setRowChecked g i (List.replicate row.length v))
    (fun i (g : List (List α)) => g.length = field.spaces.length ∧
      ∀ k, k < i → g[k]? = some (List.replicate (gridRow field.spaces k).length v))
    field.spaces.length (List.replicate field.spaces.length [])
    ⟨by simp, fun k hk => absurd hk (Nat.not_lt_zero k)⟩
    (by
      intro i g hi ⟨hl, hr⟩
      refine ⟨g.set i (List.replicate (gridRow field.spaces i).length v), ?_, by simpa using hl,
        ?_⟩
      · simp only
        rw [rowChecked_inRange field.spaces i hi]
        simp only
        unfold setRowChecked
        rw [if_pos ⟨Int.ofNat_nonneg i, by rw [hl]; exact_mod_cast hi⟩]
        simp
      · intro k hk
        by_cases hki : k = i
        · subst hki
          rw [List.getElem?_set_self (by omega)]
        · rw [List.getElem?_set_ne (fun h => hki h.symm)]
          exact hr k (by omega))
  rw [hg]
  congr 1
  apply List.ext_getElem?
  intro k
  by_cases hk : k < field.spaces.length
  · rw [hrows k hk, List.getElem?_map, List.getElem?_eq_getElem hk]
    simp [gridRow, List.getElem?_eq_getElem hk, List.map_const']
  · have hk1 : field.spaces.length ≤ k := Nat.le_of_not_lt hk
    rw [List.getElem?_eq_none (by omega), List.getElem?_eq_none (by simpa using hk1)]

theorem seedQueueChecked_eq (field : PlayField) :
    seedQueueChecked field (emptyDockedField field) = some (seedQueue field) := by
  unfold seedQueueChecked seedQueue
  refine (foldlM_range_eq_foldl _ _ (fun _ => True) _ _ trivial ?_).1
  intro y q hy _
  refine ⟨?_, trivial⟩
  beta_reduce
  rw [rowChecked_inRange _ y hy]
  simp only
  exact (foldlM_range_eq_foldl _ _ (fun _ => True) _ _ trivial
    (fun x q1 _ _ => ⟨seedStepChecked_eq field y x q1, trivial⟩)).1

theorem dockedLoopChecked_eq (field : PlayField) :
    ∀ (fuel : Nat) (docked : List (List Bool)) (queue : List Coordinate),
      shapeOf docked = shapeOf field.spaces →
      dockedLoopChecked field fuel docked queue = dockedLoop field fuel docked queue := by
  intro fuel
  induction fuel with
  | zero =>
    intro docked queue _
    cases queue with
    | nil => rfl
    | cons c rest => rfl
  | succ fuel ih =>
    intro docked queue hs
    cases queue with
    | nil => simp [dockedLoop, dockedLoopChecked]
    | cons c rest =>
      rw [dockedLoop, dockedLoopChecked, checkCoordinateInBoundsChecked_eq]
      cases hc : checkCoordinateInBounds field c.y c.x with
      | some err =>
        simp only
        rw [if_pos (by simp)]
        exact ih docked rest hs
      | none =>
        simp only
        rw [if_neg (by simp)]
        have hin : InBounds field c.y c.x := (checkCoordinateInBounds_eq_none_iff _ _ _).mp hc
        have hy : c.y < (docked.length : Int) := by
          rw [shapeOf_length docked field.spaces hs]; exact hin.2.1
        have hx : c.x < ((gridRow docked c.y.toNat).length : Int) := by
          rw [shapeOf_gridRow_length docked field.spaces hs]; exact hin.2.2.2
        have hd : cellChecked docked c.y c.x = some (dockedAt docked c.y.toNat c.x.toNat) :=
          cellChecked_int docked c.y c.x false hin.1 hy hin.2.2.1 hx
        rw [hd]
        cases hv : dockedAt docked c.y.toNat c.x.toNat with
        | true =>
          simp only [if_true]
          exact ih docked rest hs
        | false =>
          simp only [Bool.false_eq_true, if_false]
          rw [cellChecked_field field c.y c.x hin]
          simp only
          by_cases he : (spaceAt field c.y.toNat c.x.toNat).Content = SpaceContent.Empty
          · rw [if_pos he, if_pos he]
            exact ih docked rest hs
          · rw [if_neg he, if_neg he,
              setCellChecked_int docked c.y c.x true hin.1 hy hin.2.2.1 hx,
              checkCoordinateInBoundsChecked_eq]
            simp only
            exact ih _ _ (by rw [shapeOf_gridSet]; exact hs)

theorem generateDockedFieldChecked_eq (field : PlayField) :
    generateDockedFieldChecked field = generateDockedField field := by
  unfold generateDockedFieldChecked generateDockedField
  rw [makeGridChecked_eq]
  simp only
  have := seedQueueChecked_eq field
  unfold emptyDockedField at this
  rw [this]
  simp only
  exact dockedLoopChecked_eq field _ _ _ (shapeOf_emptyDockedField field)

theorem fallScanChecked_eq (field : PlayField) (docked : List (List Bool))
    (plan : List (List NextIteration))
    (hs : shapeOf plan = shapeOf field.spaces) (hd : shapeOf docked = shapeOf field.spaces) :
    fallScanChecked field docked plan = some (fallScan field docked plan) := by
  unfold fallScanChecked fallScan
  refine (foldlM_range_eq_foldl _ _
    (fun acc : List (List NextIteration) × Bool => shapeOf acc.1 = shapeOf field.spaces)
    _ (plan, false) hs ?_).1
  intro y acc hy hacc
  simp only
  rw [rowChecked_inRange docked y hy]
  simp only
  refine foldlM_range_eq_foldl _ _
    (fun acc : List (List NextIteration) × Bool => shapeOf acc.1 = shapeOf field.spaces)
    _ _ hacc ?_
  intro x acc1 hx hacc1
  have hyf : y < field.spaces.length := by
    rw [← shapeOf_length docked field.spaces hd]; exact hy
  have hxf : x < (gridRow field.spaces y).length := by
    rw [← shapeOf_gridRow_length docked field.spaces hd]; exact hx
  have hin : InBounds field (y : Int) (x : Int) := (inBounds_nat_iff field y x).mpr ⟨hyf, hxf⟩
  unfold fallScanStepChecked fallScanStep
  have hrow : (gridRow docked y)[x]? = some (dockedAt docked y x) :=
    gridGet?_eq_some_getD docked y x false hx
  rw [hrow]
  simp only
  have hcell := cellChecked_field field (y : Int) (x : Int) hin
  simp only [Int.toNat_ofNat] at hcell
  rw [hcell]
  simp only
  by_cases hp : (spaceAt field y x).Content = SpaceContent.Pill ∧ dockedAt docked y x = false
  · rw [if_pos hp, if_pos hp]
    rw [setCellChecked_nat acc1.1 y x _
      (by rw [shapeOf_length acc1.1 field.spaces hacc1]; exact hyf)
      (by rw [shapeOf_gridRow_length acc1.1 field.spaces hacc1]; exact hxf)]
    exact ⟨rfl, by rw [shapeOf_gridSet]; exact hacc1⟩
  · rw [if_neg hp, if_neg hp]
    exact ⟨rfl, hacc1⟩

/-- The checked marking loop of a line with cells `cell`: when the streak is not longer than
the position and the streak's cells are cells of the plan, it is the unchecked one. -/
theorem markChecked_eq (cell : Nat → Nat × Nat) (plan : List (List NextIteration))
    (s i : Nat) (hsi : s ≤ i)
    (hcell : ∀ k, i - s ≤ k → k < i → ∀ p : List (List NextIteration),
      shapeOf p = shapeOf plan →
      (cell k).1 < p.length ∧ (cell k).2 < (gridRow p (cell k).1).length) :
    (List.range s).foldlM
      (fun p k => setCellChecked p (((cell (i - s + k)).1 : Nat) : Int)
        (((cell (i - s + k)).2 : Nat) : Int) NextIteration.Clear) plan =
      some (markLine cell plan (i - s) i) := by
  unfold markLine
  have e : i - (i - s) = s := by omega
  rw [e, List.range'_eq_map_range, List.foldl_map]
  refine (foldlM_range_eq_foldl _ _
    (fun p : List (List NextIteration) => shapeOf p = shapeOf plan) _ _ rfl ?_).1
  intro k p hk hp
  obtain ⟨h1, h2⟩ := hcell (i - s + k) (by omega) (by omega) p hp
  exact ⟨setCellChecked_nat p _ _ _ h1 h2, by simp only [shapeOf_gridSet]; exact hp⟩

theorem markRowChecked_eq (plan : List (List NextIteration)) (y s x : Nat) (hsx : s ≤ x)
    (hy : y < plan.length) (hx : x ≤ (gridRow plan y).length) :
    markRowChecked plan y s x = some (markRow plan y (x - s) x) := by
  rw [markRow_eq_markLine, ← markChecked_eq (fun i => (y, i)) plan s x hsx]
  · unfold markRowChecked
    congr 1
    funext p k
    have : (x : Int) - s + k = ((x - s + k : Nat) : Int) := by omega
    rw [this]
  · intro k _ hk p hp
    exact ⟨by rw [shapeOf_length p plan hp]; exact hy,
      by rw [shapeOf_gridRow_length p plan hp]; exact Nat.lt_of_lt_of_le hk hx⟩

theorem markColChecked_eq (plan : List (List NextIteration)) (x s y : Nat) (hsy : s ≤ y)
    (hy : y ≤ plan.length) (hx : ∀ k, k < y → x < (gridRow plan k).length) :
    markColChecked plan x s y = some (markCol plan x (y - s) y) := by
  rw [markCol_eq_markLine, ← markChecked_eq (fun i => (i, x)) plan s y hsy]
  · unfold markColChecked
    congr 1
    funext p k
    have : (y : Int) - s + k = ((y - s + k : Nat) : Int) := by omega
    rw [this]
  · intro k _ hk p hp
    exact ⟨by rw [shapeOf_length p plan hp]; exact Nat.lt_of_lt_of_le hk hy,
      by rw [shapeOf_gridRow_length p plan hp]; exact hx k hk⟩

theorem flushRowChecked_eq (y x : Nat) (st : ScanState) (hsx : st.currentStreak ≤ x)
    (hy : y < st.plan.length) (hx : x ≤ (gridRow st.plan y).length) :
    flushRowChecked y x st = some (flushRow y x st) := by
  unfold flushRowChecked flushRow
  split
  · rw [markRowChecked_eq st.plan y st.currentStreak x hsx hy hx]
  · rfl

theorem flushColChecked_eq (x y : Nat) (st : ScanState) (hsy : st.currentStreak ≤ y)
    (hy : y ≤ st.plan.length) (hx : ∀ k, k < y → x < (gridRow st.plan k).length) :
    flushColChecked x y st = some (flushCol x y st) := by
  unfold flushColChecked flushCol
  split
  · rw [markColChecked_eq st.plan x st.currentStreak y hsy hy hx]
  · rfl

theorem shapeOf_flushRow (y x : Nat) (st : ScanState) :
    shapeOf (flushRow y x st).plan = shapeOf st.plan :=
  (flushLine_frame (fun i => (y, i)) x st).1

theorem shapeOf_flushCol (x y : Nat) (st : ScanState) :
    shapeOf (flushCol x y st).plan = shapeOf st.plan :=
  (flushLine_frame (fun i => (i, x)) y st).1

theorem rowLoopChecked_eq (field : PlayField) (y : Nat) (hy : y < field.spaces.length) :
    ∀ (fuel x : Nat) (st : ScanState), shapeOf st.plan = shapeOf field.spaces →
      st.currentStreak ≤ x → x ≤ (gridRow field.spaces y).length →
      rowLoopChecked field y fuel x st = rowLoop field y fuel x st := by
  intro fuel
  induction fuel with
  | zero => intro x st _ _ _; rfl
  | succ fuel ih =>
    intro x st hs hsx hx
    have hfl : flushRowChecked y x st = some (flushRow y x st) :=
      flushRowChecked_eq y x st hsx
        (by rw [shapeOf_length st.plan field.spaces hs]; exact hy)
        (by rw [shapeOf_gridRow_length st.plan field.spaces hs]; exact hx)
    rw [rowLoop, rowLoopChecked, checkCoordinateInBoundsChecked_eq]
    cases hc : checkCoordinateInBounds field (y : Int) (x : Int) with
    | some err =>
      simp only
      rw [if_pos (by simp), hfl]
    | none =>
      simp only
      rw [if_neg (by simp)]
      have hin : InBounds field (y : Int) (x : Int) :=
        (checkCoordinateInBounds_eq_none_iff _ _ _).mp hc
      have hcell := cellChecked_field field (y : Int) (x : Int) hin
      simp only [Int.toNat_ofNat] at hcell
      rw [hcell]
      simp only
      have hx1 : x + 1 ≤ (gridRow field.spaces y).length :=
        ((inBounds_nat_iff field y x).mp hin).2
      by_cases hcol : (spaceAt field y x).Color = st.currentColor
      · rw [if_pos hcol, if_pos hcol]
        exact ih (x + 1) _ hs (Nat.succ_le_succ hsx) hx1
      · rw [if_neg hcol, if_neg hcol, hfl]
        simp only
        exact ih (x + 1) _ (by rw [← hs]; exact shapeOf_flushRow y x st)
          (Nat.succ_le_succ (Nat.zero_le x)) hx1

theorem colLoopChecked_eq (field : PlayField) (x : Nat) :
    ∀ (fuel y : Nat) (st : ScanState), shapeOf st.plan = shapeOf field.spaces →
      st.currentStreak ≤ y → y ≤ field.spaces.length →
      (∀ k, k < y → x < (gridRow field.spaces k).length) →
      colLoopChecked field x fuel y st = colLoop field x fuel y st := by
  intro fuel
  induction fuel with
  | zero => intro y st _ _ _ _; rfl
  | succ fuel ih =>
    intro y st hs hsy hy hx
    have hfl : flushColChecked x y st = some (flushCol x y st) :=
      flushColChecked_eq x y st hsy
        (by rw [shapeOf_length st.plan field.spaces hs]; exact hy)
        (by intro k hk; rw [shapeOf_gridRow_length st.plan field.spaces hs]; exact hx k hk)
    rw [colLoop, colLoopChecked, checkCoordinateInBoundsChecked_eq]
    cases hc : checkCoordinateInBounds field (y : Int) (x : Int) with
    | some err =>
      simp only
      rw [if_pos (by simp), hfl]
    | none =>
      simp only
      rw [if_neg (by simp)]
      have hin : InBounds field (y : Int) (x : Int) :=
        (checkCoordinateInBounds_eq_none_iff _ _ _).mp hc
      have hcell := cellChecked_field field (y : Int) (x : Int) hin
      simp only [Int.toNat_ofNat] at hcell
      rw [hcell]
      simp only
      obtain ⟨hy1, hxy⟩ := (inBounds_nat_iff field y x).mp hin
      have hx1 : ∀ k, k < y + 1 → x < (gridRow field.spaces k).length := by
        intro k hk
        by_cases hky : k = y
        · rw [hky]; exact hxy
        · exact hx k (by omega)
      by_cases hcol : (spaceAt field y x).Color = st.currentColor
      · rw [if_pos hcol, if_pos hcol]
        exact ih (y + 1) _ hs (Nat.succ_le_succ hsy) hy1 hx1
      · rw [if_neg hcol, if_neg hcol, hfl]
        simp only
        exact ih (y + 1) _ (by rw [← hs]; exact shapeOf_flushCol x y st)
          (Nat.succ_le_succ (Nat.zero_le y)) hy1 hx1

theorem rowScanChecked_eq (field : PlayField) (st : ScanState)
    (hs : shapeOf st.plan = shapeOf field.spaces) (hz : st.currentStreak = 0) :
    rowScanChecked field st = rowScan field st := by
  unfold rowScanChecked rowScan
  refine (foldlM_range_congr _ _
    (fun s : ScanState => shapeOf s.plan = shapeOf field.spaces ∧ s.currentStreak = 0)
    _ _ ⟨hs, hz⟩ ?_).1
  intro y s hy ⟨hs1, hz1⟩
  refine ⟨rowLoopChecked_eq field y hy _ 0 s hs1 (by omega) (Nat.zero_le _), ?_⟩
  intro s1 h1
  rw [rowLoop_eq_lineLoop] at h1
  obtain ⟨s2, e2, f2⟩ := lineLoop_total
    (fun i => decide (checkCoordinateInBounds field y i ≠ none))
    (fun i => colorAt field y i) (fun i => (y, i)) (gridRow field.spaces y).length
    (by simpa using checkCoordinateInBounds_row_end field y)
    ((gridRow field.spaces y).length + 1) 0 s (Nat.zero_le _) (by omega)
  rw [e2] at h1
  simp only [Option.map_some', Option.some.injEq] at h1
  subst h1
  exact ⟨by rw [← hs1]; exact f2.1, rfl⟩

theorem colScanChecked_eq (field : PlayField) (st : ScanState)
    (hs : shapeOf st.plan = shapeOf field.spaces) :
    colScanChecked field st = colScan field st := by
  unfold colScanChecked colScan
  cases hsp : field.spaces with
  | nil => rfl
  | cons row0 rest =>
    have h0 : rowChecked (row0 :: rest) 0 = some row0 := by simp [rowChecked]
    rw [h0]
    simp only
    rw [← hsp]
    refine (foldlM_range_congr _ _
      (fun s : ScanState => shapeOf s.plan = shapeOf field.spaces) _ _ hs ?_).1
    intro x s _ hs1
    refine ⟨colLoopChecked_eq field x _ 0 _ hs1 (Nat.zero_le _) (Nat.zero_le _)
      (fun k hk => absurd hk (Nat.not_lt_zero k)), ?_⟩
    intro s1 h1
    rw [colLoop_eq_lineLoop] at h1
    obtain ⟨n, hn, hle⟩ : ∃ n : Nat, checkCoordinateInBounds field (n : Int) (x : Int) ≠ none ∧
        n ≤ field.spaces.length := by
      refine ⟨field.spaces.length, ?_, Nat.le_refl _⟩
      intro hc
      have := ((inBounds_nat_iff field _ x).mp
        ((checkCoordinateInBounds_eq_none_iff _ _ _).mp hc)).1
      omega
    obtain ⟨s2, e2, f2⟩ := lineLoop_total
      (fun i => decide (checkCoordinateInBounds field i x ≠ none))
      (fun i => colorAt field i x) (fun i => (i, x)) n (by simpa using hn)
      (field.spaces.length + 1) 0
      { s with currentStreak := 0, currentColor := SpaceColor.Uncolored }
      (Nat.zero_le _) (by omega)
    rw [e2] at h1
    simp only [Option.some.injEq] at h1
    subst h1
    rw [← hs1]
    exact f2.1

/-- The evaluator with every slice index checked is the evaluator: no index of
`EvaluateBoardIteration` or of the functions it calls is ever out of range, except
`field.spaces[0]` on a field without rows, where both are `none`. -/
theorem evaluateChecked_eq (field : PlayField) :
    EvaluateBoardIterationChecked field = EvaluateBoardIteration field := by
  unfold EvaluateBoardIterationChecked EvaluateBoardIteration
  rw [makeGridChecked_eq, generateDockedFieldChecked_eq]
  simp only
  obtain ⟨docked, hd, hds⟩ := generateDockedField_total field
  rw [hd]
  simp only
  have hp0 : shapeOf (emptyPlan field) = shapeOf field.spaces := shapeOf_emptyPlan field
  have hfs := fallScanChecked_eq field docked (emptyPlan field) hp0 hds
  unfold emptyPlan at hfs hp0
  unfold emptyPlan
  rw [hfs]
  simp only
  split
  · rfl
  · have hsh := (fallScan_spec field docked (emptyPlan field)
      (by rw [shapeOf_emptyPlan, hds]) hds).1
    unfold emptyPlan at hsh
    rw [rowScanChecked_eq field _ (by rw [hsh]; exact hp0) rfl]
    cases hr : rowScan field ⟨0, SpaceColor.Uncolored, NextIteration.NoAction,
        (fallScan field docked
          (field.spaces.map (fun row => row.map (fun _ => NextIteration.NoAction)))).1⟩ with
    | none => rfl
    | some st1 =>
      simp only
      obtain ⟨st1b, e1, f1⟩ := rowScan_total field ⟨0, SpaceColor.Uncolored,
        NextIteration.NoAction, (fallScan field docked
          (field.spaces.map (fun row => row.map (fun _ => NextIteration.NoAction)))).1⟩
      rw [hr] at e1
      injection e1 with e1
      subst e1
      rw [colScanChecked_eq field st1 (by rw [f1.1, hsh]; exact hp0)]

/-- The checks are real: a write one place past the end of a row faults, and so does the
marking loop when the streak is longer than the position (index `-1`). -/
theorem checked_writes_fault :
    setCellChecked [[NextIteration.NoAction]] 0 1 NextIteration.Clear = none ∧
    markRowChecked [[NextIteration.NoAction]] 0 1 0 = none ∧
    EvaluateBoardIterationChecked ⟨[]⟩ = none := by
  refine ⟨by decide, by decide, by decide⟩

/-- C18: `EvaluateBoardIteration` is total on valid grids.  For every grid with the shape of
the grid that `NewPlayField width height` creates with `width ≥ 1` and `height ≥ 1`,
whatever its cells hold, the evaluator with every slice index checked returns: no index it
uses is out of range.  Its result is the result of `EvaluateBoardIteration`, and the
returned plan has `height` rows of `width` entries each. -/
theorem evaluate_total_on_valid_grids (width height : Int) (field0 field : PlayField)
    (hw : 1 ≤ width) (hh : 1 ≤ height)
    (hnew : NewPlayField width height = some field0)
    (hshape : shapeOf field.spaces = shapeOf field0.spaces) :
    ∃ plan dominant,
      EvaluateBoardIterationChecked field = some (plan, dominant) ∧
      EvaluateBoardIteration field = some (plan, dominant) ∧
      (plan.length : Int) = height ∧ ∀ row ∈ plan, (row.length : Int) = width := by
  have h0 : field0.spaces =
      List.replicate height.toNat (List.replicate width.toNat Space.zero) := by
    unfold NewPlayField at hnew
    rw [if_neg (by omega), if_neg (by omega), if_neg (by omega)] at hnew
    injection hnew with hnew
    rw [← hnew]
  have hsh : shapeOf field.spaces = List.replicate height.toNat width.toNat := by
    rw [hshape, h0]
    simp [shapeOf]
  have hlen : field.spaces.length = height.toNat := by
    have := congrArg List.length hsh
    simpa [shapeOf] using this
  have hne : field.spaces ≠ [] := by
    intro hc
    rw [hc] at hlen
    simp at hlen
    omega
  obtain ⟨_, plan, dominant, _, _, _, he, hp, _⟩ := evaluate_structure field hne
  refine ⟨plan, dominant, by rw [evaluateChecked_eq]; exact he, he, ?_, ?_⟩
  · rw [shapeOf_length plan field.spaces hp, hlen]
    omega
  · intro row hrow
    have hmem : row.length ∈ shapeOf plan := List.mem_map_of_mem List.length hrow
    rw [hp, hsh] at hmem
    rw [(List.mem_replicate.mp hmem).2]
    omega

theorem evaluate_total_on_valid_grids_witness :
    (1 : Int) ≤ 5 ∧ (1 : Int) ≤ 2 ∧
    NewPlayField 5 2 = some ⟨List.replicate 2 (List.replicate 5 Space.zero)⟩ ∧
    shapeOf sampleFallAndRun.spaces =
      shapeOf (PlayField.mk (List.replicate 2 (List.replicate 5 Space.zero))).spaces ∧
    ∃ plan dominant,
      EvaluateBoardIterationChecked sampleFallAndRun = some (plan, dominant) ∧
      EvaluateBoardIteration sampleFallAndRun = some (plan, dominant) ∧
      (plan.length : Int) = 2 ∧ ∀ row ∈ plan, (row.length : Int) = 5 :=
  ⟨by decide, by decide, rfl, by decide,
    evaluate_total_on_valid_grids 5 2 ⟨List.replicate 2 (List.replicate 5 Space.zero)⟩
      sampleFallAndRun (by decide) (by decide) rfl (by decide)⟩

/-! ## A Fall step moves cells without losing any -/

theorem list_sum_map_range {β : Type} (l : List β) (f : β → Nat) (d : β) :
    (l.map f).sum = Finset.sum (Finset.range l.length) (fun i => f ((l[i]?).getD d)) := by
  induction l with
  | nil => simp
  | cons b l ih =>
    rw [List.map_cons, List.sum_cons, List.length_cons, Finset.sum_range_succ', ih]
    simp [Nat.add_comm]

theorem count_eq_sum_map (row : List Space) (a : Space) :
    row.count a = (row.map (fun s => if s = a then 1 else 0)).sum := by
  induction row with
  | nil => simp
  | cons b l ih =>
    rw [List.count_cons, ih, List.map_cons, List.sum_cons]
    by_cases h : b = a
    · simp [h, Nat.add_comm]
    · simp [h]

/-- Number of coordinates of the field that hold the cell `a`, as a sum over rows and
columns. -/
theorem count_flatten_eq (field : PlayField) (a : Space) :
    field.spaces.flatten.count a =
      Finset.sum (Finset.range field.spaces.length) (fun y =>
        Finset.sum (Finset.range (gridRow field.spaces y).length) (fun x =>
          if spaceAt field y x = a then 1 else 0)) := by
  rw [List.count_flatten, list_sum_map_range field.spaces (List.count a) []]
  apply Finset.sum_congr rfl
  intro y _
  rw [count_eq_sum_map, list_sum_map_range _ _ Space.zero]
  rfl

theorem count_nonEmptyCells (field : PlayField) (a : Space) :
    (nonEmptyCells field).count a =
      if a.Content ≠ SpaceContent.Empty then field.spaces.flatten.count a else 0 := by
  unfold nonEmptyCells
  rw [Multiset.coe_count]
  by_cases h : a.Content ≠ SpaceContent.Empty
  · rw [if_pos h, List.count_filter (by simpa using h)]
  · rw [if_neg h]
    apply List.count_eq_zero_of_not_mem
    intro hm
    have := (List.mem_filter.mp hm).2
    exact h (by simpa using this)

/-- One column of a Fall step: when every marked cell has an unmarked empty cell or another
marked cell below it, the column holds every non-empty cell value as often as before. -/
theorem shift_count (h : Nat) (F : Nat → Prop) [DecidablePred F] (old new : Nat → Space)
    (a : Space) (ha : a.Content ≠ SpaceContent.Empty)
    (hnew : ∀ y, new y =
      if 0 < y ∧ F (y - 1) then old (y - 1) else if F y then Space.zero else old y)
    (hbot : ∀ y, F y → y + 1 < h)
    (hbelow : ∀ y, F y → (old (y + 1)).Content = SpaceContent.Empty ∨ F (y + 1)) :
    Finset.sum (Finset.range h) (fun y => if new y = a then 1 else 0) =
      Finset.sum (Finset.range h) (fun y => if old y = a then 1 else 0) := by
  have hz : Space.zero ≠ a := by
    intro e
    apply ha
    rw [← e]
    rfl
  have e1 : ∀ y, (if old y = a then 1 else 0) =
      (if F y ∧ old y = a then 1 else 0) + (if ¬ F y ∧ old y = a then 1 else 0) := by
    intro y
    by_cases hf : F y <;> by_cases ho : old y = a <;> simp [hf, ho]
  have e2 : ∀ y, (if new y = a then 1 else 0) =
      (if 0 < y then (if F (y - 1) ∧ old (y - 1) = a then 1 else 0) else 0) +
        (if ¬ F y ∧ old y = a then 1 else 0) := by
    intro y
    by_cases hc : 0 < y ∧ F (y - 1)
    · have hn : new y = old (y - 1) := by rw [hnew y, if_pos hc]
      have hk : ¬ (¬ F y ∧ old y = a) := by
        rintro ⟨hnf, ho⟩
        have hb := hbelow (y - 1) hc.2
        have hy1 : y - 1 + 1 = y := by omega
        rw [hy1] at hb
        rcases hb with hb | hb
        · apply ha; rw [← ho]; exact hb
        · exact hnf hb
      rw [hn, if_pos hc.1, if_neg hk]
      by_cases ho : old (y - 1) = a <;> simp [hc.2, ho]
    · have hs : (if 0 < y then (if F (y - 1) ∧ old (y - 1) = a then 1 else 0) else 0) =
          0 := by
        by_cases hy : 0 < y
        · rw [if_pos hy, if_neg (fun h1 => hc ⟨hy, h1.1⟩)]
        · rw [if_neg hy]
      rw [hs]
      by_cases hf : F y
      · have hn : new y = Space.zero := by rw [hnew y, if_neg hc, if_pos hf]
        rw [hn, if_neg hz, if_neg (fun h1 => h1.1 hf)]
      · have hn : new y = old y := by rw [hnew y, if_neg hc, if_neg hf]
        rw [hn]
        by_cases ho : old y = a <;> simp [hf, ho]
  have e3 : Finset.sum (Finset.range h)
      (fun y => if 0 < y then (if F (y - 1) ∧ old (y - 1) = a then 1 else 0) else 0) =
      Finset.sum (Finset.range h) (fun y => if F y ∧ old y = a then 1 else 0) := by
    cases h with
    | zero => simp
    | succ n =>
      rw [Finset.sum_range_succ', Finset.sum_range_succ]
      have hn : ¬ F n := fun hc => absurd (hbot n hc) (Nat.lt_irrefl _)
      simp [hn]
  rw [Finset.sum_congr rfl (fun y _ => e2 y), Finset.sum_congr rfl (fun y _ => e1 y),
    Finset.sum_add_distrib, Finset.sum_add_distrib, e3]

theorem knownContents_at (field : PlayField) (h : KnownContents field) (y x : Nat) :
    (spaceAt field y x).Content = SpaceContent.Empty ∨
      (spaceAt field y x).Content = SpaceContent.Virus ∨
      (spaceAt field y x).Content = SpaceContent.Pill := by
  unfold spaceAt gridGet? gridRow
  cases hr : field.spaces[y]? with
  | none => exact Or.inl rfl
  | some row =>
    simp only [Option.getD_some]
    cases hc : row[x]? with
    | none => exact Or.inl rfl
    | some v =>
      simp only [Option.getD_some]
      exact h row (List.getElem?_mem hr) v (List.getElem?_mem hc)

/-- Below a cell that the evaluator marks `Fall` on a rectangular field whose contents are
the named ones there is a cell of the field, and it is empty or marked `Fall` itself. -/
theorem fall_below (field : PlayField) (plan : List (List NextIteration))
    (dominant : NextIteration) (hrect : Rectangular field) (hknown : KnownContents field)
    (he : EvaluateBoardIteration field = some (plan, dominant)) (y x : Nat)
    (hf : planAt plan y x = NextIteration.Fall) :
    y + 1 < field.spaces.length ∧ x < (gridRow field.spaces (y + 1)).length ∧
      ((spaceAt field (y + 1) x).Content = SpaceContent.Empty ∨
        planAt plan (y + 1) x = NextIteration.Fall) := by
  obtain ⟨docked, hanch, _, hfall, _, _⟩ := evaluate_facts field plan dominant he
  have hu : Undocked field docked y x := (hfall y x).mp hf
  obtain ⟨hy, hx⟩ := undocked_inRange field docked y x hu
  have hb : y + 1 ≠ field.spaces.length :=
    fun hc => bottom_row_docked field docked hanch y x hc hu
  have hy1 : y + 1 < field.spaces.length := by omega
  have hx1 : x < (gridRow field.spaces (y + 1)).length := by
    rw [hrect (y + 1) hy1, ← hrect y hy]; exact hx
  refine ⟨hy1, hx1, ?_⟩
  have hd : dockedAt docked (y + 1) x = false := by
    cases hv : dockedAt docked (y + 1) x with
    | false => rfl
    | true => exact absurd hu (above_docked field docked hanch y x hv)
  rcases knownContents_at field hknown (y + 1) x with hc | hc | hc
  · exact Or.inl hc
  · exfalso
    have hin : InBounds field ((y + 1 : Nat) : Int) (x : Int) :=
      (inBounds_nat_iff field (y + 1) x).mpr ⟨hy1, hx1⟩
    have ha : Anchored field ((y + 1 : Nat) : Int) (x : Int) :=
      Anchored.seed _ _ ⟨hin, Or.inl (by simpa using hc)⟩
    have := (hanch (y + 1) x).mpr ha
    rw [hd] at this
    cases this
  · exact Or.inr ((hfall (y + 1) x).mpr ⟨hc, hd⟩)

/-- A virus is never marked `Fall`, and neither is the cell above it. -/
theorem virus_stays (field : PlayField) (plan : List (List NextIteration))
    (dominant : NextIteration)
    (he : EvaluateBoardIteration field = some (plan, dominant)) (y x : Nat)
    (hv : (spaceAt field y x).Content = SpaceContent.Virus) :
    planAt plan y x ≠ NextIteration.Fall ∧
      ¬ (0 < y ∧ planAt plan (y - 1) x = NextIteration.Fall) := by
  obtain ⟨docked, hanch, _, hfall, _, _⟩ := evaluate_facts field plan dominant he
  have hne : spaceAt field y x ≠ Space.zero := by
    intro hc
    rw [hc] at hv
    cases hv
  obtain ⟨hy, hx⟩ := spaceAt_inRange field y x hne
  have hin : InBounds field (y : Int) (x : Int) := (inBounds_nat_iff field y x).mpr ⟨hy, hx⟩
  have hd : dockedAt docked y x = true :=
    (hanch y x).mpr (Anchored.seed _ _ ⟨hin, Or.inl (by simpa using hv)⟩)
  constructor
  · intro hf
    have hu := (hfall y x).mp hf
    rw [hu.1] at hv
    cases hv
  · rintro ⟨h0, hf⟩
    have hu := (hfall (y - 1) x).mp hf
    have hy1 : y - 1 + 1 = y := by omega
    exact above_docked field docked hanch (y - 1) x (by rw [hy1]; exact hd) hu

/-- The Fall branch keeps the multiset of non-empty cells. -/
theorem fall_keeps_cells (field field1 : PlayField) (plan : List (List NextIteration))
    (hrect : Rectangular field) (hknown : KnownContents field)
    (he : EvaluateBoardIteration field = some (plan, NextIteration.Fall))
    (hs : shapeOf field1.spaces = shapeOf field.spaces)
    (hcells : ∀ y x : Nat, spaceAt field1 y x =
      if 0 < y ∧ planAt plan (y - 1) x = NextIteration.Fall then spaceAt field (y - 1) x
      else if planAt plan y x = NextIteration.Fall then Space.zero
      else spaceAt field y x) :
    nonEmptyCells field1 = nonEmptyCells field := by
  apply Multiset.ext.mpr
  intro a
  rw [count_nonEmptyCells, count_nonEmptyCells]
  by_cases ha : a.Content ≠ SpaceContent.Empty
  · rw [if_pos ha, if_pos ha, count_flatten_eq, count_flatten_eq,
      shapeOf_length _ _ hs]
    have hw : ∀ (f : PlayField), shapeOf f.spaces = shapeOf field.spaces →
        Finset.sum (Finset.range field.spaces.length) (fun y =>
          Finset.sum (Finset.range (gridRow f.spaces y).length) (fun x =>
            if spaceAt f y x = a then 1 else 0)) =
        Finset.sum (Finset.range (gridRow field.spaces 0).length) (fun x =>
          Finset.sum (Finset.range field.spaces.length) (fun y =>
            if spaceAt f y x = a then 1 else 0)) := by
      intro f hf
      rw [Finset.sum_comm]
      apply Finset.sum_congr rfl
      intro y hy
      rw [shapeOf_gridRow_length _ _ hf, hrect y (Finset.mem_range.mp hy)]
    rw [hw field1 hs, hw field rfl]
    apply Finset.sum_congr rfl
    intro x _
    exact shift_count field.spaces.length (fun y => planAt plan y x = NextIteration.Fall)
      (fun y => spaceAt field y x) (fun y => spaceAt field1 y x) a ha
      (fun y => hcells y x)
      (fun y hf => (fall_below field plan _ hrect hknown he y x hf).1)
      (fun y hf => (fall_below field plan _ hrect hknown he y x hf).2.2)
  · rw [if_neg ha, if_neg ha]

/-- C22 (the claim as stated fails): `sampleOverwrite` is built from a new field by two
successful calls of `PutSpaceAtCoordinateIfEmpty`, and its evaluation has the dominant
action `Fall`.  The pill at `(0, 0)` is marked `Fall`; the cell below it is occupied and not
marked, and `IterateBoard` writes the pill over it: of the two non-empty cells one is
left. -/
theorem fall_overwrites_other_content :
    Placed (fun _ => True) sampleOverwrite ∧ Rectangular sampleOverwrite ∧
    EvaluateBoardIteration sampleOverwrite =
      some ([[NextIteration.Fall], [NextIteration.NoAction], [NextIteration.NoAction]],
        NextIteration.Fall) ∧
    (spaceAt sampleOverwrite 1 0).Content ≠ SpaceContent.Empty ∧
    IterateBoard sampleOverwrite =
      some (⟨[[Space.zero],
              [⟨SpaceContent.Pill, SpaceLinkage.Unlinked, SpaceColor.Blue⟩],
              [Space.zero]]⟩, none) ∧
    Multiset.card (nonEmptyCells sampleOverwrite) = 2 ∧
    Multiset.card (nonEmptyCells ⟨[[Space.zero],
      [⟨SpaceContent.Pill, SpaceLinkage.Unlinked, SpaceColor.Blue⟩], [Space.zero]]⟩) = 1 := by
  have hP : Placed (fun _ => True) sampleOverwrite := by
    have h0 : Placed (fun _ => True) ⟨[[Space.zero], [Space.zero], [Space.zero]]⟩ :=
      Placed.new 1 3 _ (by decide)
    have h1 := Placed.putSpace _ 1 0
      ⟨SpaceContent.Other 0, SpaceLinkage.Unlinked, SpaceColor.Red⟩ h0 trivial (by decide)
    have h2 := Placed.putSpace _ 0 0
      ⟨SpaceContent.Pill, SpaceLinkage.Unlinked, SpaceColor.Blue⟩ h1 trivial (by decide)
    exact h2
  exact ⟨hP, by decide, by decide, by decide, by decide, rfl, rfl⟩

/-- C22 (amended): a Fall step never overwrites an occupied cell of a field whose contents
are `Empty`, `Virus` and `Pill`.  On a rectangular field of that kind whose evaluation has
dominant action `Fall`, the cell directly below each cell marked `Fall` is a cell of the
field that is empty or marked `Fall` itself, and no cell of the bottom row is marked `Fall`;
`IterateBoard` returns success, the multiset of non-empty cells (content, colour, linkage)
is the same afterwards, and every virus is still at its coordinate. -/
theorem fall_never_overwrites (field : PlayField) (plan : List (List NextIteration))
    (hrect : Rectangular field) (hknown : KnownContents field)
    (he : EvaluateBoardIteration field = some (plan, NextIteration.Fall)) :
    (∀ y x : Nat, planAt plan y x = NextIteration.Fall →
      InBounds field ((y : Int) + 1) x ∧
      ((spaceAt field (y + 1) x).Content = SpaceContent.Empty ∨
        planAt plan (y + 1) x = NextIteration.Fall)) ∧
    (∀ y x : Nat, (y : Int) = GetBottomRowIndex field →
      planAt plan y x ≠ NextIteration.Fall) ∧
    ∃ field1, IterateBoard field = some (field1, none) ∧
      nonEmptyCells field1 = nonEmptyCells field ∧
      ∀ y x : Nat, (spaceAt field y x).Content = SpaceContent.Virus →
        spaceAt field1 y x = spaceAt field y x := by
  refine ⟨?_, ?_, ?_⟩
  · intro y x hf
    obtain ⟨h1, h2, h3⟩ := fall_below field plan _ hrect hknown he y x hf
    refine ⟨?_, h3⟩
    have := (inBounds_nat_iff field (y + 1) x).mpr ⟨h1, h2⟩
    simpa using this
  · intro y x hy hf
    obtain ⟨h1, _, _⟩ := fall_below field plan _ hrect hknown he y x hf
    unfold GetBottomRowIndex at hy
    omega
  · obtain ⟨field1, hi, hs, hcells⟩ := fallStep_cells field plan hrect he
    refine ⟨field1, hi, fall_keeps_cells field field1 plan hrect hknown he hs hcells, ?_⟩
    intro y x hv
    obtain ⟨v1, v2⟩ := virus_stays field plan _ he y x hv
    rw [hcells y x, if_neg v2, if_neg v1]

theorem fall_never_overwrites_witness :
    Rectangular sampleFallAndRun ∧ KnownContents sampleFallAndRun ∧
    EvaluateBoardIteration sampleFallAndRun =
      some (sampleFallAndRunPlan, NextIteration.Fall) ∧
    (∀ y x : Nat, planAt sampleFallAndRunPlan y x = NextIteration.Fall →
      InBounds sampleFallAndRun ((y : Int) + 1) x ∧
      ((spaceAt sampleFallAndRun (y + 1) x).Content = SpaceContent.Empty ∨
        planAt sampleFallAndRunPlan (y + 1) x = NextIteration.Fall)) ∧
    (∀ y x : Nat, (y : Int) = GetBottomRowIndex sampleFallAndRun →
      planAt sampleFallAndRunPlan y x ≠ NextIteration.Fall) ∧
    ∃ field1, IterateBoard sampleFallAndRun = some (field1, none) ∧
      nonEmptyCells field1 = nonEmptyCells sampleFallAndRun ∧
      ∀ y x : Nat, (spaceAt sampleFallAndRun y x).Content = SpaceContent.Virus →
        spaceAt field1 y x = spaceAt sampleFallAndRun y x :=
  ⟨by decide, by decide, by decide,
    fall_never_overwrites sampleFallAndRun sampleFallAndRunPlan (by decide) (by decide)
      (by decide)⟩

/-! ## The link invariant is kept by every operation -/

theorem linkInvariant_iff (field : PlayField) :
    LinkInvariant field ↔ LinkConsistent field ∧ LinkedArePills field := by
  constructor
  · intro h
    constructor
    · intro y x hin hl
      exact ((h y x hin).1 hl).2
    · intro y x hl
      have hne : spaceAt field y x ≠ Space.zero := by
        intro hc
        rw [hc] at hl
        exact hl rfl
      obtain ⟨hy, hx⟩ := spaceAt_inRange field y x hne
      have hin := (inBounds_nat_iff field y x).mpr ⟨hy, hx⟩
      have := ((h y x hin).1 (by simpa using hl)).1
      simpa using this
  · rintro ⟨hlc, hp⟩ y x hin
    constructor
    · intro hl
      exact ⟨hp _ _ hl, hlc y x hin hl⟩
    · intro hc
      by_contra hl
      have := hp _ _ hl
      rw [this] at hc
      rcases hc with hc | hc <;> cases hc

/-- A field that differs from a link-consistent field only in cells that were empty, and
whose new cells satisfy the invariant, is link-consistent. -/
theorem linkInvariant_write (field field1 : PlayField) (W : Nat → Nat → Prop)
    (hlc : LinkConsistent field) (hp : LinkedArePills field)
    (hs : shapeOf field1.spaces = shapeOf field.spaces)
    (hold : ∀ a b, ¬ W a b → spaceAt field1 a b = spaceAt field a b)
    (hempty : ∀ a b, W a b → (spaceAt field a b).Content = SpaceContent.Empty)
    (hnew : ∀ a b, W a b → (spaceAt field1 a b).Linkage ≠ SpaceLinkage.Unlinked →
      (spaceAt field1 a b).Content = SpaceContent.Pill ∧
      ∃ qy qx : Nat,
        GetLinkedCoordinate a b (spaceAt field1 a b).Linkage =
          Except.ok ((qy : Int), (qx : Int)) ∧
        qy < field.spaces.length ∧ qx < (gridRow field.spaces qy).length ∧
        (spaceAt field1 qy qx).Content = SpaceContent.Pill ∧
        (spaceAt field1 qy qx).Linkage = getOpposingLinkage (spaceAt field1 a b).Linkage) :
    LinkConsistent field1 ∧ LinkedArePills field1 := by
  constructor
  · apply linkConsistent_of_nat
    intro y x hy hx hl
    rw [shapeOf_length _ _ hs] at hy
    rw [shapeOf_gridRow_length _ _ hs] at hx
    by_cases hw : W y x
    · obtain ⟨_, qy, qx, h1, h2, h3, h4, h5⟩ := hnew y x hw hl
      refine ⟨qy, qx, h1, ?_, ?_, h4, h5⟩
      · rw [shapeOf_length _ _ hs]; exact h2
      · rw [shapeOf_gridRow_length _ _ hs]; exact h3
    · rw [hold y x hw] at hl ⊢
      obtain ⟨qy, qx, h1, _, h2, h3, h4, h5⟩ := linkConsistent_nat field hlc y x hy hx hl
      have hq : ¬ W qy qx := by
        intro hc
        have := hempty qy qx hc
        rw [h4] at this
        cases this
      refine ⟨qy, qx, h1, ?_, ?_, ?_, ?_⟩
      · rw [shapeOf_length _ _ hs]; exact h2
      · rw [shapeOf_gridRow_length _ _ hs]; exact h3
      · rw [hold qy qx hq]; exact h4
      · rw [hold qy qx hq]; exact h5
  · intro y x hl
    by_cases hw : W y x
    · exact (hnew y x hw hl).1
    · rw [hold y x hw] at hl ⊢
      exact hp y x hl

theorem putSpace_result (field : PlayField) (y x : Int) (space : Space) :
    (PutSpaceAtCoordinateIfEmpty field y x space).1 = field ∨
    (space.Linkage = SpaceLinkage.Unlinked ∧ InBounds field y x ∧
      (spaceAt field y.toNat x.toNat).Content = SpaceContent.Empty ∧
      (PutSpaceAtCoordinateIfEmpty field y x space).1 =
        ⟨gridSet field.spaces y.toNat x.toNat space⟩) := by
  unfold PutSpaceAtCoordinateIfEmpty
  by_cases hl : space.Linkage ≠ SpaceLinkage.Unlinked
  · rw [if_pos hl]; exact Or.inl rfl
  · rw [if_neg hl]
    cases hc : checkCoordinateInBoundsAndEmpty field y x with
    | some err => exact Or.inl rfl
    | none =>
      obtain ⟨hin, he⟩ := (checkCoordinateInBoundsAndEmpty_eq_none_iff field y x).mp hc
      right
      refine ⟨by_contra hl, hin, he, ?_⟩
      simp only
      rw [putSpaceAtCoordinate_of_inBounds field y x space hin]

theorem linkInvariant_putSpace (field : PlayField) (y x : Int) (space : Space)
    (h : LinkInvariant field) :
    LinkInvariant (PutSpaceAtCoordinateIfEmpty field y x space).1 := by
  rcases putSpace_result field y x space with e | ⟨hl, hin, he, e⟩
  · rw [e]; exact h
  · rw [e, linkInvariant_iff]
    obtain ⟨hlc, hp⟩ := (linkInvariant_iff field).mp h
    apply linkInvariant_write field _ (fun a b => a = y.toNat ∧ b = x.toNat) hlc hp
    · exact shapeOf_gridSet _ _ _ _
    · intro a b hw
      exact spaceAt_gridSet_other field _ _ _ a b hw
    · rintro a b ⟨rfl, rfl⟩
      exact he
    · rintro a b ⟨rfl, rfl⟩ hlk
      rw [spaceAt_gridSet_same field y x space hin] at hlk
      exact absurd hl hlk

theorem linkInvariant_putTwo (field : PlayField) (y x : Int) (a b : Space)
    (h : LinkInvariant field) :
    LinkInvariant (PutTwoLinkedSpacesAtCoordinate field y x a b).1 := by
  rcases putTwoLinked_cases field y x a b with ⟨ly, lx, hacc, e⟩ | ⟨err, e, _⟩
  · obtain ⟨ha, hap, hbp, hbl, hg, hin, he, hlin, hle⟩ := hacc
    rw [e, linkInvariant_iff]
    obtain ⟨hlc, hp⟩ := (linkInvariant_iff field).mp h
    have hne : ¬ (ly.toNat = y.toNat ∧ lx.toNat = x.toNat) := by
      intro hc
      apply getLinkedCoordinate_ne y x a.Linkage ly lx hg
      obtain ⟨h1, _, h3, _⟩ := hin
      obtain ⟨k1, _, k3, _⟩ := hlin
      omega
    have hne2 : ¬ (y.toNat = ly.toNat ∧ x.toNat = lx.toNat) :=
      fun hc => hne ⟨hc.1.symm, hc.2.symm⟩
    have hlin1 : InBounds ⟨gridSet field.spaces y.toNat x.toNat a⟩ ly lx :=
      (inBounds_gridSet field _ _ _ ly lx).mpr hlin
    have hA : spaceAt ⟨gridSet (gridSet field.spaces y.toNat x.toNat a) ly.toNat lx.toNat b⟩
        y.toNat x.toNat = a := by
      rw [spaceAt_gridSet_other ⟨gridSet field.spaces y.toNat x.toNat a⟩ _ _ _ _ _ hne2]
      exact spaceAt_gridSet_same field y x a hin
    have hB : spaceAt ⟨gridSet (gridSet field.spaces y.toNat x.toNat a) ly.toNat lx.toNat b⟩
        ly.toNat lx.toNat = b :=
      spaceAt_gridSet_same ⟨gridSet field.spaces y.toNat x.toNat a⟩ ly lx b hlin1
    obtain ⟨cy, cx⟩ := inBounds_cast field y x hin
    obtain ⟨cly, clx⟩ := inBounds_cast field ly lx hlin
    have hyn := (inBounds_nat_iff field y.toNat x.toNat).mp (by rw [← cy, ← cx]; exact hin)
    have hln := (inBounds_nat_iff field ly.toNat lx.toNat).mp
      (by rw [← cly, ← clx]; exact hlin)
    apply linkInvariant_write field _
      (fun p q => (p = y.toNat ∧ q = x.toNat) ∨ (p = ly.toNat ∧ q = lx.toNat)) hlc hp
    · rw [shapeOf_gridSet]
      exact shapeOf_gridSet _ _ _ _
    · intro p q hw
      rw [spaceAt_gridSet_other ⟨gridSet field.spaces y.toNat x.toNat a⟩ _ _ _ p q
        (fun hc => hw (Or.inr hc))]
      exact spaceAt_gridSet_other field _ _ _ p q (fun hc => hw (Or.inl hc))
    · rintro p q (⟨rfl, rfl⟩ | ⟨rfl, rfl⟩)
      · exact he
      · exact hle
    · rintro p q (⟨rfl, rfl⟩ | ⟨rfl, rfl⟩) _
      · rw [hA]
        refine ⟨hap, ly.toNat, lx.toNat, ?_, hln.1, hln.2, ?_, ?_⟩
        · rw [← cy, ← cx, ← cly, ← clx]; exact hg
        · rw [hB]; exact hbp
        · rw [hB]; exact hbl
      · rw [hB]
        refine ⟨hbp, y.toNat, x.toNat, ?_, hyn.1, hyn.2, ?_, ?_⟩
        · rw [← cy, ← cx, ← cly, ← clx, hbl]
          exact getLinkedCoordinate_symm y x ly lx a.Linkage hg
        · rw [hA]; exact hap
        · rw [hA, hbl, getOpposingLinkage_involutive _ _ _ _ hg]
  · rw [e]; exact h

theorem clearTarget_nil (field : PlayField) (a b : Nat) :
    clearTarget field [] a b = spaceAt field a b := by
  unfold clearTarget
  rw [if_neg (by simp)]
  split
  · rw [if_neg (by simp)]
  · rfl

theorem clearTarget_linked (field : PlayField) (cleared : List (Nat × Nat)) (a b : Nat)
    (h : (clearTarget field cleared a b).Linkage ≠ SpaceLinkage.Unlinked) :
    clearTarget field cleared a b = spaceAt field a b := by
  unfold clearTarget at h ⊢
  split
  · next hc => rw [if_pos hc] at h; exact absurd rfl h
  · next hc =>
    rw [if_neg hc] at h
    split
    · next q hq =>
      rw [hq] at h
      simp only at h
      split
      · next hq2 => rw [if_pos hq2] at h; exact absurd rfl h
      · rfl
    · rfl

theorem linkedArePills_clearTarget (field field1 : PlayField) (cleared : List (Nat × Nat))
    (hp : LinkedArePills field)
    (hcells : ∀ a b, spaceAt field1 a b = clearTarget field cleared a b) :
    LinkedArePills field1 := by
  intro y x hl
  rw [hcells y x] at hl ⊢
  have e := clearTarget_linked field cleared y x hl
  rw [e] at hl ⊢
  exact hp y x hl

theorem clearSpace_result (field : PlayField) (hlc : LinkConsistent field) (y x : Int) :
    (clearSpace field y x).1 = field ∨
    (shapeOf (clearSpace field y x).1.spaces = shapeOf field.spaces ∧
      ∀ a b, spaceAt (clearSpace field y x).1 a b =
        clearTarget field [(y.toNat, x.toNat)] a b) := by
  by_cases hin : InBounds field y x
  · right
    obtain ⟨cy, cx⟩ := inBounds_cast field y x hin
    have hn := (inBounds_nat_iff field y.toNat x.toNat).mp (by rw [← cy, ← cx]; exact hin)
    obtain ⟨field1, e, hs, hc⟩ := clearSpace_step field hlc field [] rfl
      (fun a b => (clearTarget_nil field a b).symm) y.toNat x.toNat hn.1 hn.2 (by simp)
    rw [← cy, ← cx] at e
    rw [e]
    exact ⟨hs, hc⟩
  · left
    unfold clearSpace GetSpaceAtCoordinate
    cases hc : checkCoordinateInBounds field y x with
    | some err => rfl
    | none => exact absurd ((checkCoordinateInBounds_eq_none_iff field y x).mp hc) hin

theorem linkInvariant_clearSpace (field : PlayField) (y x : Int) (h : LinkInvariant field) :
    LinkInvariant (clearSpace field y x).1 := by
  obtain ⟨hlc, hp⟩ := (linkInvariant_iff field).mp h
  rcases clearSpace_result field hlc y x with e | ⟨hs, hc⟩
  · rw [e]; exact h
  · rw [linkInvariant_iff]
    exact ⟨linkConsistent_clearTarget field _ _ hlc hs hc,
      linkedArePills_clearTarget field _ _ hp hc⟩

theorem spaceAt_clearBoard (field : PlayField) (a b : Nat) :
    spaceAt (ClearBoard field) a b = Space.zero := by
  unfold spaceAt gridGet? gridRow ClearBoard
  simp only [List.getElem?_map]
  cases field.spaces[a]? with
  | none => rfl
  | some row =>
    simp only [Option.map_some', Option.getD_some, List.getElem?_map]
    cases row[b]? with
    | none => rfl
    | some v => rfl

theorem linkInvariant_of_zero (field : PlayField)
    (h : ∀ a b, spaceAt field a b = Space.zero) : LinkInvariant field := by
  rw [linkInvariant_iff]
  constructor
  · intro y x _ hl
    rw [h] at hl
    exact absurd rfl hl
  · intro y x hl
    rw [h] at hl
    exact absurd rfl hl

theorem linkInvariant_clearBoard (field : PlayField) : LinkInvariant (ClearBoard field) :=
  linkInvariant_of_zero _ (spaceAt_clearBoard field)

theorem newPlayField_clear (x y : Int) (field : PlayField)
    (h : NewPlayField x y = some field) : ClearBoard field = field := by
  unfold NewPlayField at h
  split at h
  · cases h
  · split at h
    · injection h with h
      subst h
      rfl
    · split at h
      · cases h
      · injection h with h
        subst h
        simp [ClearBoard]

theorem linkInvariant_newPlayField (x y : Int) (field : PlayField)
    (h : NewPlayField x y = some field) : LinkInvariant field := by
  rw [← newPlayField_clear x y field h]
  exact linkInvariant_clearBoard field

theorem iterateBoard_some_evaluate (field : PlayField) (r : PlayField × Option BoardError)
    (h : IterateBoard field = some r) :
    ∃ plan dominant, EvaluateBoardIteration field = some (plan, dominant) := by
  unfold IterateBoard at h
  cases he : EvaluateBoardIteration field with
  | none => rw [he] at h; cases h
  | some p => exact ⟨p.1, p.2, rfl⟩

/-- On a rectangular field `IterateBoard` keeps the link invariant, returns no error, and
keeps the shape of the field. -/
theorem linkInvariant_iterate (field : PlayField) (hrect : Rectangular field)
    (h : LinkInvariant field) (r : PlayField × Option BoardError)
    (hr : IterateBoard field = some r) :
    r.2 = none ∧ shapeOf r.1.spaces = shapeOf field.spaces ∧ LinkInvariant r.1 := by
  obtain ⟨hlc, hp⟩ := (linkInvariant_iff field).mp h
  obtain ⟨plan, dominant, he⟩ := iterateBoard_some_evaluate field r hr
  have hne := evaluate_some_nonempty field _ he
  obtain ⟨plan1, dominant1, field1, he1, hi, hs, hlc1, _⟩ := iterate_step field hne hrect hlc
  rw [hi] at hr
  injection hr with hr
  subst hr
  refine ⟨rfl, hs, ?_⟩
  rw [linkInvariant_iff]
  refine ⟨hlc1, ?_⟩
  rw [he] at he1
  injection he1 with he1
  injection he1 with e1 e2
  subst e1
  subst e2
  cases dominant with
  | NoAction =>
    have := iterateBoard_noAction field plan he
    rw [hi] at this
    injection this with this
    injection this with this
    rw [this]
    exact hp
  | Clear =>
    obtain ⟨field2, cleared, hi2, _, hc, _⟩ := iterateBoard_clear_target field plan hlc he
    rw [hi] at hi2
    injection hi2 with hi2
    injection hi2 with hi2
    rw [hi2]
    exact linkedArePills_clearTarget field field2 cleared hp hc
  | Fall =>
    obtain ⟨field2, hi2, _, hc⟩ := fallStep_cells field plan hrect he
    rw [hi] at hi2
    injection hi2 with hi2
    injection hi2 with hi2
    rw [hi2]
    intro y x hl
    rw [hc y x] at hl ⊢
    split at hl
    · next h1 => rw [if_pos h1]; exact hp _ _ hl
    · next h1 =>
      rw [if_neg h1]
      split at hl
      · exact absurd rfl hl
      · next h2 => rw [if_neg h2]; exact hp _ _ hl

theorem shapeOf_putSpace (field : PlayField) (y x : Int) (space : Space) :
    shapeOf (PutSpaceAtCoordinateIfEmpty field y x space).1.spaces = shapeOf field.spaces := by
  rcases putSpace_result field y x space with e | ⟨_, _, _, e⟩
  · rw [e]
  · rw [e]; exact shapeOf_gridSet _ _ _ _

theorem shapeOf_putTwo (field : PlayField) (y x : Int) (a b : Space) :
    shapeOf (PutTwoLinkedSpacesAtCoordinate field y x a b).1.spaces =
      shapeOf field.spaces := by
  rcases putTwoLinked_cases field y x a b with ⟨ly, lx, _, e⟩ | ⟨err, e, _⟩
  · rw [e, shapeOf_gridSet]; exact shapeOf_gridSet _ _ _ _
  · rw [e]

theorem shapeOf_clearBoard (field : PlayField) :
    shapeOf (ClearBoard field).spaces = shapeOf field.spaces :=
  shapeOf_map_map field.spaces (fun _ => Space.zero)

/-- Every reachable board is rectangular and satisfies the link invariant. -/
theorem reachable_invariant (field : PlayField) (h : Reachable field) :
    Rectangular field ∧ LinkInvariant field := by
  induction h with
  | new x y field hnew =>
    exact ⟨rectangular_newPlayField x y field hnew, linkInvariant_newPlayField x y field hnew⟩
  | putSpace field y x space _ ih =>
    exact ⟨rectangular_of_shape field _ (shapeOf_putSpace field y x space) ih.1,
      linkInvariant_putSpace field y x space ih.2⟩
  | putTwo field y x a b _ ih =>
    exact ⟨rectangular_of_shape field _ (shapeOf_putTwo field y x a b) ih.1,
      linkInvariant_putTwo field y x a b ih.2⟩
  | clear field y x _ ih =>
    refine ⟨?_, linkInvariant_clearSpace field y x ih.2⟩
    rcases clearSpace_result field ((linkInvariant_iff field).mp ih.2).1 y x with e | ⟨hs, _⟩
    · rw [e]; exact ih.1
    · exact rectangular_of_shape field _ hs ih.1
  | clearBoard field _ ih =>
    exact ⟨rectangular_of_shape field _ (shapeOf_clearBoard field) ih.1,
      linkInvariant_clearBoard field⟩
  | iterate field result _ hr ih =>
    obtain ⟨_, hs, hl⟩ := linkInvariant_iterate field ih.1 ih.2 result hr
    exact ⟨rectangular_of_shape field _ hs ih.1, hl⟩

/-- C21: the link invariant holds on the field returned by `NewPlayField` and is kept by
every call, successful or failed, of `PutSpaceAtCoordinateIfEmpty`,
`PutTwoLinkedSpacesAtCoordinate`, `clearSpace`, `ClearBoard` and, on a rectangular field,
`IterateBoard` in each of its branches (which returns whenever the field has a row, and
never with an error); so every reachable board satisfies it. -/
theorem link_invariant_preserved :
    (∀ (x y : Int) (field : PlayField), NewPlayField x y = some field →
      LinkInvariant field) ∧
    (∀ (field : PlayField) (y x : Int) (space : Space), LinkInvariant field →
      LinkInvariant (PutSpaceAtCoordinateIfEmpty field y x space).1) ∧
    (∀ (field : PlayField) (y x : Int) (coordSpace linkedSpace : Space),
      LinkInvariant field →
      LinkInvariant (PutTwoLinkedSpacesAtCoordinate field y x coordSpace linkedSpace).1) ∧
    (∀ (field : PlayField) (y x : Int), LinkInvariant field →
      LinkInvariant (clearSpace field y x).1) ∧
    (∀ field : PlayField, LinkInvariant (ClearBoard field)) ∧
    (∀ field : PlayField, Rectangular field → LinkInvariant field →
      (field.spaces ≠ [] → ∃ field1, IterateBoard field = some (field1, none)) ∧
      ∀ result, IterateBoard field = some result → LinkInvariant result.1) ∧
    (∀ field : PlayField, Reachable field → LinkInvariant field) := by
  refine ⟨linkInvariant_newPlayField, linkInvariant_putSpace, linkInvariant_putTwo,
    linkInvariant_clearSpace, linkInvariant_clearBoard, ?_,
    fun field h => (reachable_invariant field h).2⟩
  intro field hrect h
  constructor
  · intro hne
    obtain ⟨_, _, field1, _, hi, _⟩ :=
      iterate_step field hne hrect ((linkInvariant_iff field).mp h).1
    exact ⟨field1, hi⟩
  · intro result hr
    exact (linkInvariant_iterate field hrect h result hr).2.2

/-- The board `samplePillRow`, with its linked pill, is reachable: the invariant is not
only about boards without links. -/
theorem samplePillRow_reachable : Reachable samplePillRow ∧ LinkInvariant samplePillRow := by
  have h0 : Reachable ⟨[[Space.zero, Space.zero, Space.zero]]⟩ :=
    Reachable.new 3 1 _ (by decide)
  have h1 := Reachable.putTwo _ 0 0 ⟨SpaceContent.Pill, SpaceLinkage.Right, SpaceColor.Red⟩
    ⟨SpaceContent.Pill, SpaceLinkage.Left, SpaceColor.Blue⟩ h0
  have h2 := Reachable.putSpace _ 0 2
    ⟨SpaceContent.Virus, SpaceLinkage.Unlinked, SpaceColor.Blue⟩ h1
  have e : (PutSpaceAtCoordinateIfEmpty
      (PutTwoLinkedSpacesAtCoordinate ⟨[[Space.zero, Space.zero, Space.zero]]⟩ 0 0
        ⟨SpaceContent.Pill, SpaceLinkage.Right, SpaceColor.Red⟩
        ⟨SpaceContent.Pill, SpaceLinkage.Left, SpaceColor.Blue⟩).1 0 2
      ⟨SpaceContent.Virus, SpaceLinkage.Unlinked, SpaceColor.Blue⟩).1 = samplePillRow := by
    decide
  rw [e] at h2
  exact ⟨h2, (reachable_invariant _ h2).2⟩

/-- A pill half whose partner is missing violates the invariant. -/
theorem orphan_violates_invariant :
    ¬ LinkInvariant ⟨[[⟨SpaceContent.Pill, SpaceLinkage.Right, SpaceColor.Red⟩,
      Space.zero]]⟩ := by
  intro h
  obtain ⟨_, ly, lx, hg, _, hp, _⟩ := (h 0 0 (by decide)).1 (by decide)
  have e : ((0 : Int), (1 : Int)) = (ly, lx) := by
    have : GetLinkedCoordinate 0 0 SpaceLinkage.Right = Except.ok (ly, lx) := hg
    simp only [GetLinkedCoordinate] at this
    injection this
  injection e with e1 e2
  subst e1
  subst e2
  revert hp
  decide

/-- Why `IterateBoard` is taken on rectangular fields: on `sampleJagged`, whose pill halves
link to each other, the Fall branch moves the left half down and then stops with an
out-of-bounds error for the right half, which leaves both halves orphaned. -/
theorem jagged_fall_stops_halfway :
    linkedBackEverywhere sampleJagged = true ∧ ¬ Rectangular sampleJagged ∧
    IterateBoard sampleJagged =
      some (⟨[[Space.zero, ⟨SpaceContent.Pill, SpaceLinkage.Left, SpaceColor.Blue⟩],
              [⟨SpaceContent.Pill, SpaceLinkage.Right, SpaceColor.Red⟩],
              [Space.zero, Space.zero]]⟩, some BoardError.xOutOfBounds) := by
  refine ⟨by decide, by decide, by decide⟩

/-! ## Empty cells and streaks -/

/-- A `Clear` mark is owed to a run of four along the row or along the column. -/
theorem clearMark_run (field : PlayField) (plan : List (List NextIteration))
    (dominant : NextIteration) (hrect : Rectangular field)
    (he : EvaluateBoardIteration field = some (plan, dominant)) (y x : Nat)
    (hc : planAt plan y x = NextIteration.Clear) :
    RowClear field y x ∨ ColClear field y x := by
  have hne : field.spaces ≠ [] := evaluate_some_nonempty field _ he
  obtain ⟨docked, hdock, hshape⟩ := generateDockedField_total field
  have hplan := fallScan_emptyPlan field docked hshape
  obtain ⟨hsh1, _, _, _⟩ := fallScan_spec field docked (emptyPlan field)
    ((shapeOf_emptyPlan field).trans hshape.symm) hshape
  unfold EvaluateBoardIteration at he
  rw [hdock] at he
  simp only at he
  by_cases hfound : (fallScan field docked (emptyPlan field)).2 = true
  · rw [if_pos hfound] at he
    injection he with he
    injection he with e1 e2
    rw [← e1] at hc
    by_cases hu : Undocked field docked y x
    · rw [(hplan y x).1 hu] at hc; cases hc
    · rw [(hplan y x).2 hu] at hc; cases hc
  · rw [if_neg hfound] at he
    obtain ⟨st1, e1, g1, r1, r2⟩ := rowScan_spec field
      ⟨0, SpaceColor.Uncolored, NextIteration.NoAction,
        (fallScan field docked (emptyPlan field)).1⟩ rfl
      (hsh1.trans (shapeOf_emptyPlan field))
    obtain ⟨st2, e2, _, c1, c2⟩ := colScan_spec field hne hrect st1 g1
    rw [e1] at he
    simp only at he
    rw [e2] at he
    injection he with he
    injection he with e3 e4
    rw [← e3] at hc
    by_cases hcc : ColClear field y x
    · exact Or.inr hcc
    · by_cases hrc : RowClear field y x
      · exact Or.inl hrc
      · exfalso
        rw [c2 y x hcc, r2 y x hrc] at hc
        simp only at hc
        by_cases hu : Undocked field docked y x
        · rw [(hplan y x).1 hu] at hc; cases hc
        · rw [(hplan y x).2 hu] at hc; cases hc

theorem spaceAt_newPlayField (x y : Int) (field : PlayField)
    (h : NewPlayField x y = some field) (a b : Nat) : spaceAt field a b = Space.zero := by
  rw [← newPlayField_clear x y field h]
  exact spaceAt_clearBoard field a b

/-- A board built by placements of cells that are uncoloured when empty is rectangular, and
each of its empty cells is uncoloured. -/
theorem placed_invariant (field : PlayField) (h : Placed EmptyIsUncolored field) :
    Rectangular field ∧
      ∀ y x : Nat, (spaceAt field y x).Content = SpaceContent.Empty →
        (spaceAt field y x).Color = SpaceColor.Uncolored := by
  induction h with
  | new x y field hnew =>
    refine ⟨rectangular_newPlayField x y field hnew, ?_⟩
    intro a b _
    rw [spaceAt_newPlayField x y field hnew]
    rfl
  | putSpace field y x space _ hacc _ ih =>
    refine ⟨rectangular_of_shape field _ (shapeOf_putSpace field y x space) ih.1, ?_⟩
    rcases putSpace_result field y x space with e | ⟨_, hin, _, e⟩
    · rw [e]; exact ih.2
    · rw [e]
      intro a b
      by_cases hab : a = y.toNat ∧ b = x.toNat
      · obtain ⟨rfl, rfl⟩ := hab
        rw [spaceAt_gridSet_same field y x space hin]
        exact hacc
      · rw [spaceAt_gridSet_other field _ _ _ a b hab]
        exact ih.2 a b
  | putTwo field y x ca cb _ _ _ _ ih =>
    refine ⟨rectangular_of_shape field _ (shapeOf_putTwo field y x ca cb) ih.1, ?_⟩
    rcases putTwoLinked_cases field y x ca cb with ⟨ly, lx, hacc, e⟩ | ⟨err, e, _⟩
    · obtain ⟨_, hap, hbp, _, _, hin, _, hlin, _⟩ := hacc
      rw [e]
      intro a b
      by_cases hab : a = ly.toNat ∧ b = lx.toNat
      · obtain ⟨rfl, rfl⟩ := hab
        rw [spaceAt_gridSet_same ⟨gridSet field.spaces y.toNat x.toNat ca⟩ ly lx cb
          ((inBounds_gridSet field _ _ _ ly lx).mpr hlin)]
        intro hc
        rw [hbp] at hc
        cases hc
      · rw [spaceAt_gridSet_other ⟨gridSet field.spaces y.toNat x.toNat ca⟩ _ _ _ a b hab]
        by_cases hab2 : a = y.toNat ∧ b = x.toNat
        · obtain ⟨rfl, rfl⟩ := hab2
          rw [spaceAt_gridSet_same field y x ca hin]
          intro hc
          rw [hap] at hc
          cases hc
        · rw [spaceAt_gridSet_other field _ _ _ a b hab2]
          exact ih.2 a b
    · rw [e]; exact ih.2

/-- C23 (the claim as stated fails): `sampleColouredEmpty` is built from a new field by four
successful calls of `PutSpaceAtCoordinateIfEmpty` with the cell `(Empty, Unlinked, Red)`,
and `EvaluateBoardIteration` marks its four cells, whose content is `Empty`, as `Clear`.
`sampleJoinedRuns` is built the same way, and its two runs of two red pills, with a cell of
content `Empty` and colour `Red` between them, are cleared as one run of five. -/
theorem colouredEmpty_marked_clear :
    Placed (fun _ => True) sampleColouredEmpty ∧
    (spaceAt sampleColouredEmpty 0 0).Content = SpaceContent.Empty ∧
    (EvaluateBoardIteration sampleColouredEmpty).map (fun r => planAt r.1 0 0) =
      some NextIteration.Clear ∧
    Placed (fun _ => True) sampleJoinedRuns ∧
    (spaceAt sampleJoinedRuns 0 2).Content = SpaceContent.Empty ∧
    EvaluateBoardIteration sampleJoinedRuns =
      some ([[NextIteration.Clear, NextIteration.Clear, NextIteration.Clear,
        NextIteration.Clear, NextIteration.Clear]], NextIteration.Clear) := by
  have hA : Placed (fun _ => True) sampleColouredEmpty := by
    have h0 : Placed (fun _ => True) ⟨[[Space.zero, Space.zero, Space.zero, Space.zero]]⟩ :=
      Placed.new 4 1 _ (by decide)
    have h1 := Placed.putSpace _ 0 0
      ⟨SpaceContent.Empty, SpaceLinkage.Unlinked, SpaceColor.Red⟩ h0 trivial (by decide)
    have h2 := Placed.putSpace _ 0 1
      ⟨SpaceContent.Empty, SpaceLinkage.Unlinked, SpaceColor.Red⟩ h1 trivial (by decide)
    have h3 := Placed.putSpace _ 0 2
      ⟨SpaceContent.Empty, SpaceLinkage.Unlinked, SpaceColor.Red⟩ h2 trivial (by decide)
    have h4 := Placed.putSpace _ 0 3
      ⟨SpaceContent.Empty, SpaceLinkage.Unlinked, SpaceColor.Red⟩ h3 trivial (by decide)
    exact h4
  have hB : Placed (fun _ => True) sampleJoinedRuns := by
    have h0 : Placed (fun _ => True)
        ⟨[[Space.zero, Space.zero, Space.zero, Space.zero, Space.zero]]⟩ :=
      Placed.new 5 1 _ (by decide)
    have h1 := Placed.putSpace _ 0 0
      ⟨SpaceContent.Pill, SpaceLinkage.Unlinked, SpaceColor.Red⟩ h0 trivial (by decide)
    have h2 := Placed.putSpace _ 0 1
      ⟨SpaceContent.Pill, SpaceLinkage.Unlinked, SpaceColor.Red⟩ h1 trivial (by decide)
    have h3 := Placed.putSpace _ 0 2
      ⟨SpaceContent.Empty, SpaceLinkage.Unlinked, SpaceColor.Red⟩ h2 trivial (by decide)
    have h4 := Placed.putSpace _ 0 3
      ⟨SpaceContent.Pill, SpaceLinkage.Unlinked, SpaceColor.Red⟩ h3 trivial (by decide)
    have h5 := Placed.putSpace _ 0 4
      ⟨SpaceContent.Pill, SpaceLinkage.Unlinked, SpaceColor.Red⟩ h4 trivial (by decide)
    exact h5
  exact ⟨hA, by decide, by decide, hB, by decide, by decide⟩

/-- C23 (amended): on a board with at least one row that is built from a new field by
successful placements of cells that are `Uncolored` whenever their content is `Empty`,
`EvaluateBoardIteration` returns a plan that marks no cell of content `Empty` as `Clear`,
and every `Clear` mark lies in a stretch of at least four cells of its row or of its column
that all have the colour of the marked cell and are all occupied: an empty cell between two
runs of one colour keeps them apart. -/
theorem empty_breaks_streaks (field : PlayField) (hplaced : Placed EmptyIsUncolored field)
    (hne : field.spaces ≠ []) :
    ∃ plan dominant, EvaluateBoardIteration field = some (plan, dominant) ∧
      (∀ y x : Nat, (spaceAt field y x).Content = SpaceContent.Empty →
        planAt plan y x ≠ NextIteration.Clear) ∧
      (∀ y x : Nat, planAt plan y x = NextIteration.Clear →
        OccupiedRowRun field y x ∨ OccupiedColRun field y x) := by
  obtain ⟨hrect, hun⟩ := placed_invariant field hplaced
  obtain ⟨_, plan, dominant, _, _, _, he, _⟩ := evaluate_structure field hne
  have hocc : ∀ y x y1 x1 : Nat, colorAt field y x ≠ SpaceColor.Uncolored →
      colorAt field y1 x1 = colorAt field y x →
      (spaceAt field y1 x1).Content ≠ SpaceContent.Empty := by
    intro y x y1 x1 hcol heq hemp
    apply hcol
    rw [← heq]
    exact hun y1 x1 hemp
  refine ⟨plan, dominant, he, ?_, ?_⟩
  · intro y x hemp hc
    exact clearMark_colored field plan dominant hrect he y x hc (hun y x hemp)
  · intro y x hc
    rcases clearMark_run field plan dominant hrect he y x hc with hr | hr
    · left
      obtain ⟨hcol, a, b, h1, h2, h3, h4, h5, _, _⟩ := hr
      exact ⟨a, b, h1, h2, h3, h4, fun j hj1 hj2 =>
        ⟨h5 j hj1 hj2, hocc y x y j hcol (h5 j hj1 hj2)⟩⟩
    · right
      obtain ⟨hcol, a, b, h1, h2, h3, h4, h5, _, _⟩ := hr
      exact ⟨a, b, h1, h2, h3, h4, fun i hi1 hi2 =>
        ⟨h5 i hi1 hi2, hocc y x i x hcol (h5 i hi1 hi2)⟩⟩

theorem sampleBrokenRun_placed : Placed EmptyIsUncolored sampleBrokenRun := by
  have h0 : Placed EmptyIsUncolored
      ⟨[[Space.zero, Space.zero, Space.zero, Space.zero, Space.zero]]⟩ :=
    Placed.new 5 1 _ (by decide)
  have h1 := Placed.putSpace _ 0 0
    ⟨SpaceContent.Pill, SpaceLinkage.Unlinked, SpaceColor.Red⟩ h0 (by decide) (by decide)
  have h2 := Placed.putSpace _ 0 1
    ⟨SpaceContent.Pill, SpaceLinkage.Unlinked, SpaceColor.Red⟩ h1 (by decide) (by decide)
  have h3 := Placed.putSpace _ 0 3
    ⟨SpaceContent.Pill, SpaceLinkage.Unlinked, SpaceColor.Red⟩ h2 (by decide) (by decide)
  have h4 := Placed.putSpace _ 0 4
    ⟨SpaceContent.Pill, SpaceLinkage.Unlinked, SpaceColor.Red⟩ h3 (by decide) (by decide)
  exact h4

theorem empty_breaks_streaks_witness :
    Placed EmptyIsUncolored sampleBrokenRun ∧ sampleBrokenRun.spaces ≠ [] ∧
    ∃ plan dominant, EvaluateBoardIteration sampleBrokenRun = some (plan, dominant) ∧
      (∀ y x : Nat, (spaceAt sampleBrokenRun y x).Content = SpaceContent.Empty →
        planAt plan y x ≠ NextIteration.Clear) ∧
      (∀ y x : Nat, planAt plan y x = NextIteration.Clear →
        OccupiedRowRun sampleBrokenRun y x ∨ OccupiedColRun sampleBrokenRun y x) :=
  ⟨sampleBrokenRun_placed, by decide,
    empty_breaks_streaks sampleBrokenRun sampleBrokenRun_placed (by decide)⟩

/-- On `sampleBrokenRun` the empty cell keeps the two runs of two red pills apart: nothing
is marked. -/
theorem sampleBrokenRun_evaluation :
    EvaluateBoardIteration sampleBrokenRun =
      some ([[NextIteration.NoAction, NextIteration.NoAction, NextIteration.NoAction,
        NextIteration.NoAction, NextIteration.NoAction]], NextIteration.NoAction) := by
  decide

end DrBreakBoard
